import Mathlib

/-!
HISE scriptnode / SNEX core: polyphonic storage, modulation values, index policies, sample
views, parameter values, the node registry of a network and its connections.

A shallow embedding of the parts of

* `hi_scripting/scripting/scriptnode/api/DspHelpers.h` (`PolyData`, `ModValue`),
* `hi_dsp_library/snex_basics/snex_ArrayTypes.h` (`index_base`, `span`, `dyn_indexes`, `dyn`,
  `Interleaver`),
* `hi_dsp_library/snex_basics/snex_ExternalData.h` (`ExternalDataHolder`),
* `hi_scripting/scripting/scriptnode/api/NodeBase.cpp` (`Parameter`, `DragHelpers`,
  `ConnectionBase`, `setParent`),
* `hi_scripting/scripting/scriptnode/api/DspNetwork.cpp` (`create`, `get`,
  `createFromValueTree`, `getNonExistentId`, `updateId`, `cloneValueTreeWithNewIds`),
* `hi_scripting/scripting/scriptnode/nodes/NodeContainerTypes.h` (`SplitNode`,
  `FixedBlockXNode::DynamicBlockProperty`),
* `tools/snex_playground/test_files` (`dyn/dyn_wrap_2`, `variadic/process_test`)

that the properties below talk about, followed by the properties themselves.

Conventions of the embedding

* A C++ `int` is an `Int`; every theorem that depends on the 32-bit width says so.  The only
  operation whose result depends on the bit pattern, `&`, is modelled on the two's-complement
  pattern (`toBits32` / `ofBits32`).
* `jassert` is JUCE's debug diagnostic: it reports and lets execution continue, and it is compiled
  out of release builds.  A function's value is therefore modelled without it, and where a
  property is about the assertion itself the asserted condition is a definition of its own
  (`copyToAssertion`, `copyFromAssertion`).
* An access that the C++ program performs outside an array is `none`.
* `float` / `double` samples are an arbitrary type where they are only stored and moved, and `ℚ`
  where the source does arithmetic on them.
* A `juce::String` is the list of its characters and a `juce::ValueTree` is a value: a function
  that changes a tree in the source returns the changed tree here.
* A loop of the source whose termination is not structural runs on fuel, `none` or
  `Outcome.outOfFuel` standing for fuel that ran out; the fuel handed in is proved to suffice.
* A call that dereferences a null pointer does not return: its result is `none` or
  `Outcome.nullPointer`.
-/

/-! Part 1: definitions -/

namespace scriptnode

/-- The 32-bit two's-complement bit pattern of an `int`. -/
def toBits32 (v : Int) : Nat := (v % 2 ^ 32).toNat

/-- The `int` that a 32-bit two's-complement bit pattern stands for. -/
def ofBits32 (n : Nat) : Int := if n < 2 ^ 31 then (n : Int) else (n : Int) - 2 ^ 32

/-- The C++ expression `a & b` on two `int` operands. -/
def intAnd (a b : Int) : Int := ofBits32 (toBits32 a &&& toBits32 b)

/-- The field of `snex::Types::PrepareSpecs` that `PolyData` reads: `int* voiceIndex`.
`none` is `nullptr`, `some p` is the address `p` of the `int` holding the current voice index. -/
structure PrepareSpecs where
  /-- The pointer `int* voiceIndex`. -/
  voiceIndex : Option Nat

/-- The memory the voice-index pointer points into: the `int` stored at each address. -/
abbrev VoiceMemory := Nat → Int

/-- The struct `template <typename T, int NumVoices> struct PolyData`:
`T data[NumVoices]; int* voicePtr = nullptr;`. -/
structure PolyData (T : Type) (NumVoices : Nat) where
  /-- The array `T data[NumVoices]`. -/
  data : Fin NumVoices → T
  /-- The pointer `int* voicePtr`. -/
  voicePtr : Option Nat

namespace PolyData

variable {T : Type} {NumVoices : Nat}

/-- Source: `static constexpr bool isPolyphonic() { return NumVoices > 1; }`. -/
def isPolyphonic (NumVoices : Nat) : Bool := decide (NumVoices > 1)

/-- Source: `prepare(PrepareSpecs sp)`, which stores `voicePtr = sp.voiceIndex` after the
diagnostics `jassert(!isPolyphonic() || sp.voiceIndex != nullptr)` and
`jassert(isPowerOfTwo(NumVoices))`. -/
def prepare (pd : PolyData T NumVoices) (sp : PrepareSpecs) : PolyData T NumVoices :=
  { pd with voicePtr := sp.voiceIndex }

/-- The test `!isPolyphonic() || voicePtr == nullptr` shared by `setAll`, `get` and `end`. -/
def isShared (pd : PolyData T NumVoices) : Bool :=
  !isPolyphonic NumVoices || pd.voicePtr.isNone

/-- The read `*(data + idx)`; `none` when `idx` lies outside `data`. -/
def readAt (pd : PolyData T NumVoices) (idx : Int) : Option T :=
  if h : 0 ≤ idx ∧ idx < NumVoices then some (pd.data ⟨idx.toNat, by omega⟩) else none

/-- The write `*(data + idx) = x`; `none` when `idx` lies outside `data`. -/
def writeAt (pd : PolyData T NumVoices) (idx : Int) (x : T) : Option (PolyData T NumVoices) :=
  if h : 0 ≤ idx ∧ idx < NumVoices then
    some { pd with data := Function.update pd.data ⟨idx.toNat, by omega⟩ x }
  else none

/-- Source: `getCurrentVoiceIndex()`, which returns `*voicePtr` (after three diagnostics, the last
of them `jassert(isPositiveAndBelow(*voicePtr, NumVoices))`); `none` for a null pointer. -/
def getCurrentVoiceIndex (pd : PolyData T NumVoices) (mem : VoiceMemory) : Option Int :=
  pd.voicePtr.map mem

/-- Source: `getVoiceIndex(int index)`, `auto rv = index & (NumVoices - 1); return rv;`. -/
def getVoiceIndex (NumVoices : Nat) (index : Int) : Int :=
  intAnd index ((NumVoices : Int) - 1)

/-- The offset from `data` of the element that `get()` returns a reference to: `0` for `*data`,
`getVoiceIndex(getCurrentVoiceIndex())` for `getWithIndex(getCurrentVoiceIndex())`. -/
def getSlot (pd : PolyData T NumVoices) (mem : VoiceMemory) : Option Int :=
  if pd.isShared then some 0
  else (pd.getCurrentVoiceIndex mem).map (getVoiceIndex NumVoices)

/-- Source: `get()` read as a value. -/
def get (pd : PolyData T NumVoices) (mem : VoiceMemory) : Option T :=
  (pd.getSlot mem).bind pd.readAt

/-- The assignment `get() = x` through the reference that `get()` returns. -/
def assignGet (pd : PolyData T NumVoices) (mem : VoiceMemory) (x : T) :
    Option (PolyData T NumVoices) :=
  (pd.getSlot mem).bind fun i => pd.writeAt i x

/-- Source: `end()` as an offset from `begin() = data`: `1` in shared mode, else `NumVoices`. -/
def endOffset (pd : PolyData T NumVoices) : Nat :=
  if pd.isShared then 1 else NumVoices

/-- Source: `setAll(const T& value)`: `*data = value` in shared mode, otherwise the loop
`for (auto& d : *this) d = value;` over `begin() .. end()`. -/
def setAll (pd : PolyData T NumVoices) (value : T) : Option (PolyData T NumVoices) :=
  if pd.isShared then pd.writeAt 0 value
  else (List.range pd.endOffset).foldlM (fun acc (i : Nat) => acc.writeAt (i : Int) value) pd

end PolyData

/-- The struct `ModValue`: `bool changed = false; double modValue = 0.0;`.  The value is only
stored and handed on by the two functions below, so its type is left open. -/
structure ModValue (α : Type) where
  /-- The dirty flag. -/
  changed : Bool
  /-- The last value set. -/
  modValue : α

namespace ModValue

variable {α : Type}

/-- Source: `bool getChangedValue(double& d)`.  Returns the flag returned, the content of `d`
after the call and the state after the call. -/
def getChangedValue (m : ModValue α) (d : α) : Bool × α × ModValue α :=
  if m.changed then (true, m.modValue, { m with changed := false })
  else (false, d, m)

/-- Source: `void setModValue(double newValue)`. -/
def setModValue (m : ModValue α) (newValue : α) : ModValue α :=
  { m with modValue := newValue, changed := true }

/-- A run of `getChangedValue` calls, one for each argument of `ds` in order, with no write in
between: the flag and argument content after each call, and the final state. -/
def getChangedValues : ModValue α → List α → List (Bool × α) × ModValue α
  | m, [] => ([], m)
  | m, d :: ds =>
    let r := m.getChangedValue d
    let rest := getChangedValues r.2.2 ds
    ((r.1, r.2.1) :: rest.1, rest.2)

end ModValue

end scriptnode

namespace snex

/-- Modelled from the spec: JUCE's `jlimit (lowerLimit, upperLimit, valueToConstrain)` is not
under src/; it clamps the value to the limits, returning the lower limit for a value below it and
the upper limit for a value above it. -/
def jlimit (lowerLimit upperLimit valueToConstrain : Int) : Int :=
  if valueToConstrain < lowerLimit then lowerLimit
  else if upperLimit < valueToConstrain then upperLimit
  else valueToConstrain

/-- The struct `template <class T, int Size> struct span`: `alignas(alignment()) T data[Size];`. -/
structure span (T : Type) (Size : Nat) where
  /-- The array `T data[Size]`. -/
  data : Fin Size → T

namespace span

variable {T : Type} {Size : Nat}

/-- Source: `wrapped::operator int()`,
`return value >= 0 ? value % Size : (Size - abs(value%Size)) % Size;`
where `%` on `int` truncates toward zero (`Int.tmod`). -/
def wrapped (Size : Nat) (value : Int) : Int :=
  if value ≥ 0 then value.tmod (Size : Int)
  else ((Size : Int) - ((value.tmod (Size : Int)).natAbs : Int)).tmod (Size : Int)

/-- Source: `clamped::operator int()`, `return jlimit(0, Size - 1, value);`. -/
def clamped (Size : Nat) (value : Int) : Int :=
  jlimit 0 ((Size : Int) - 1) value

/-- Source: the `operator int()` of the index type that the source calls `unsafe` (a reserved
word here), `return value;`. -/
def unchecked (_Size : Nat) (value : Int) : Int := value

/-- Source: `operator[](IndexType i)`, `auto idx = (int)i; return data[idx];`, given the result
`idx` of the conversion; `none` when `data[idx]` lies outside the span. -/
def subscript (s : span T Size) (idx : Int) : Option T :=
  if h : 0 ≤ idx ∧ idx < Size then some (s.data ⟨idx.toNat, by omega⟩) else none

/-- Source: `static constexpr int alignment() { return 16; }`. -/
def alignment : Nat := 16

/-- The value of `sizeof(span<T, Size>)` in bytes for an element type of `sizeofT` bytes whose own
alignment divides 16: the only member is `alignas(alignment()) T data[Size]`, so the object is
16-byte aligned and its size is `Size * sizeof(T)` rounded up to a multiple of 16. -/
def sizeofSpan (sizeofT Size : Nat) : Nat :=
  (sizeofT * Size + (alignment - 1)) / alignment * alignment

/-- The byte offset of `data[i]` from the start of an array whose elements are `elemBytes` bytes
apart. -/
def byteOffset (elemBytes i : Nat) : Nat := elemBytes * i

/-- Source: `split<ChannelAmount>()`,
`return *reinterpret_cast<span<span<T, Size / ChannelAmount>, ChannelAmount>*>(this);`.
The byte offset, from the start of the flat span, of element `i` of sub-span `j` of the result:
the sub-spans are array elements of type `span<T, Size / ChannelAmount>`. -/
def splitByteOffset (sizeofT Size ChannelAmount j i : Nat) : Nat :=
  byteOffset (sizeofSpan sizeofT (Size / ChannelAmount)) j + byteOffset sizeofT i

end span

/-- Sample memory, addressed in units of one element of type `T`. -/
abbrev Memory (T : Type) := Int → T

/-- What `dyn` uses of a container it refers to or copies: `begin()` (an address) and `size()`. -/
structure Container where
  /-- The address `begin()`. -/
  begin : Int
  /-- The element count `size()`. -/
  size : Int

/-- Element `i` of a container, read from memory. -/
def Container.elem {T : Type} (mem : Memory T) (c : Container) (i : Int) : T :=
  mem (c.begin + i)

/-- The struct `template <class T> struct dyn`: `int size_ = 0; T* data;` (the third field,
`int unused`, is only ever assigned a constant). -/
structure dyn where
  /-- The element count `int size_`. -/
  size_ : Int
  /-- The pointer `T* data`. -/
  data : Int

namespace dyn

variable {T : Type}

/-- Source: `referToRawData(T* newData, int newSize, int offset = 0)`:
`data = newData + offset; size_ = newSize;` (after the diagnostic `jassert(newSize != 0)`). -/
def referToRawData (_d : dyn) (newData newSize offset : Int) : dyn :=
  { size_ := newSize, data := newData + offset }

/-- Source: `referTo(OtherContainer& t, int newSize = -1, int offset = 0)`:
`newSize = newSize >= 0 ? newSize : t.size(); referToRawData(t.begin(), newSize, offset);`. -/
def referTo (d : dyn) (t : Container) (newSize offset : Int) : dyn :=
  d.referToRawData t.begin (if newSize ≥ 0 then newSize else t.size) offset

/-- Source: `operator[](IndexType t) const`, `int i = (int)t; return data[i];`, as a read. -/
def read (mem : Memory T) (d : dyn) (i : Int) : T := mem (d.data + i)

/-- Source: `operator[](IndexType t)`, `int i = (int)t; return data[i];`, assigned to. -/
def write (mem : Memory T) (d : dyn) (i : Int) (x : T) : Memory T :=
  Function.update mem (d.data + i) x

/-- The loop of `split`: `for (auto& e : r) { e = dyn<T>(d, newSize); d += newSize; }` over the
remaining `n` elements of `r`, with the running pointer `d`. -/
def splitLoop (newSize : Int) : Nat → Int → List dyn
  | 0, _ => []
  | n + 1, d => { size_ := newSize, data := d } :: splitLoop newSize n (d + newSize)

/-- Source: `split<NumChannels>()`: `int newSize = size() / NumChannels; T* d = data;` and the
loop above; `/` on `int` truncates toward zero. -/
def split (d : dyn) (NumChannels : Nat) : List dyn :=
  splitLoop (d.size_.tdiv (NumChannels : Int)) NumChannels d.data

/-- The effect of `memcpy(dst, src, count * sizeof(T))` on non-overlapping regions. -/
def memcpy (mem : Memory T) (dst src count : Int) : Memory T :=
  fun a => if dst ≤ a ∧ a < dst + count then mem (src + (a - dst)) else mem a

/-- The condition asserted by `copyTo`: `jassert(size() <= t.size())`. -/
def copyToAssertion (d : dyn) (t : Container) : Bool := decide (d.size_ ≤ t.size)

/-- Source: `copyTo(OtherContainer& t)`:
`int numBytesToCopy = size() * sizeof(T); memcpy(t.begin(), begin(), numBytesToCopy);`. -/
def copyTo (mem : Memory T) (d : dyn) (t : Container) : Memory T :=
  memcpy mem t.begin d.data d.size_

/-- The condition asserted by `copyFrom`: `jassert(size() >= t.size())`. -/
def copyFromAssertion (d : dyn) (t : Container) : Bool := decide (d.size_ ≥ t.size)

/-- Source: `copyFrom(const OtherContainer& t)`:
`int numBytesToCopy = t.size() * sizeof(T); memcpy(begin(), t.begin(), numBytesToCopy);`. -/
def copyFrom (mem : Memory T) (d : dyn) (t : Container) : Memory T :=
  memcpy mem d.data t.begin t.size

end dyn

/-- The C++ conversion `(int)v` of a `float`, over the rationals: truncation toward zero. -/
def floatToInt (v : ℚ) : Int := v.num.tdiv (v.den : Int)

end snex

namespace scriptnode

/-- What `Parameter` uses of a `parameter::dynamic_base` object of type `D` (the class is declared
outside src/): `call(double)`, which may change the object, and `getDisplayValue()`. -/
structure DynamicBase (D V : Type) where
  /-- The method `call(double)`: the object after the call. -/
  call : D → V → D
  /-- The method `getDisplayValue()`. -/
  getDisplayValue : D → V

/-- The state of a `NodeBase::Parameter` that `getValue`, `setValue` and `setValueFromUI` touch:
the `Value` property and the range properties of the value tree `data`, and the pointer
`dynamicParameter` (`none` is `nullptr`: no dynamic target). -/
structure Parameter (D V R : Type) where
  /-- The property `data[PropertyIds::Value]`. -/
  value : V
  /-- The range properties of `data` (`RangeHelpers::getRangeIds()`). -/
  range : R
  /-- The pointer `parameter::dynamic_base::Ptr dynamicParameter`. -/
  dynamicParameter : Option D

namespace Parameter

variable {D V R : Type}

/-- Source: `Parameter::getValue()`:
`if (dynamicParameter != nullptr) return dynamicParameter->getDisplayValue();`
`return (double)data[PropertyIds::Value];`. -/
def getValue (ops : DynamicBase D V) (p : Parameter D V R) : V :=
  match p.dynamicParameter with
  | some d => ops.getDisplayValue d
  | none => p.value

/-- Source: `Parameter::setValue(double newValue)`:
`if (dynamicParameter != nullptr) { ...; dynamicParameter->call(newValue); }` and nothing else. -/
def setValue (ops : DynamicBase D V) (p : Parameter D V R) (newValue : V) : Parameter D V R :=
  match p.dynamicParameter with
  | some d => { p with dynamicParameter := some (ops.call d newValue) }
  | none => p

/-- Modelled from the spec: `updateFromValueTree` is bound by the constructor as the synchronous
listener of the `Value` property but is declared in `NodeBase.h`, outside src/.  The specification
sends every value, "regardless of source", through `Parameter.setValue`, so the listener is taken
to call `setValue` with the new value of the property. -/
def updateFromValueTree (ops : DynamicBase D V) (p : Parameter D V R) (newValue : V) :
    Parameter D V R :=
  p.setValue ops newValue

/-- Source: `Parameter::setValueFromUI(double newValue)`:
`data.setProperty(PropertyIds::Value, newValue, parent->getUndoManager());`.
The value tree stores the value and, when it differs from the stored one, notifies the listener
of the property. -/
def setValueFromUI [DecidableEq V] (ops : DynamicBase D V) (p : Parameter D V R) (newValue : V) :
    Parameter D V R :=
  if p.value = newValue then p
  else updateFromValueTree ops { p with value := newValue } newValue

end Parameter

end scriptnode

namespace juce

/-- A `juce::String`, as the list of its characters.  The JUCE string class is not under src/;
the functions below follow the behaviour of the JUCE functions of the same names. -/
abbrev Str := List Char

/-- Whether `s` starts with the characters of `sub`. -/
def startsWith : Str → Str → Bool
  | _, [] => true
  | [], _ :: _ => false
  | c :: cs, d :: ds => decide (c = d) && startsWith cs ds

/-- JUCE `String::indexOf (other)`: the index of the first occurrence of `other`, `none` (the
source's `-1`) when there is none; `0` for an empty `other`. -/
def indexOf : Str → Str → Option Nat
  | [], sub => if sub = [] then some 0 else none
  | c :: cs, sub =>
    if startsWith (c :: cs) sub then some 0 else (indexOf cs sub).map (fun i => i + 1)

/-- JUCE `String::contains (other)`: `indexOf (other) >= 0`. -/
def contains (s sub : Str) : Bool := (indexOf s sub).isSome

/-- The scan of `String::replace`: `skip` characters of a match are still to be dropped; outside a
match, an occurrence of `old` that starts here is replaced by `new` and its characters skipped. -/
def replaceFrom (old new : Str) : Nat → Str → Str
  | _, [] => []
  | skip + 1, _ :: cs => replaceFrom old new skip cs
  | 0, c :: cs =>
    if startsWith (c :: cs) old then new ++ replaceFrom old new (old.length - 1) cs
    else c :: replaceFrom old new 0 cs

/-- JUCE `String::replace (stringToReplace, stringToInsert)`: every occurrence of `old`, found
from left to right and not overlapping, is replaced by `new`; the inserted text is not searched
again.  An empty `old` is never found. -/
def replace (s old new : Str) : Str :=
  if old = [] then s else replaceFrom old new 0 s

/-- JUCE `String::upToFirstOccurrenceOf (sub, false, false)`: the part before the first occurrence
of `sub`, the whole string when there is none. -/
def upToFirstOccurrenceOf (s sub : Str) : Str :=
  match indexOf s sub with
  | none => s
  | some i => s.take i

/-- JUCE `String::fromFirstOccurrenceOf (sub, false, false)`: the part after the first occurrence
of `sub`, the empty string when there is none. -/
def fromFirstOccurrenceOf (s sub : Str) : Str :=
  match indexOf s sub with
  | none => []
  | some i => s.drop (i + sub.length)

/-- The loop of `String::lastIndexOf`: `for (int i = ...; i >= 0; --i)` testing whether `sub`
occurs at index `i`. -/
def lastIndexOfFrom (s sub : Str) : Nat → Option Nat
  | 0 => if startsWith s sub then some 0 else none
  | i + 1 => if startsWith (s.drop (i + 1)) sub then some (i + 1) else lastIndexOfFrom s sub i

/-- JUCE `String::lastIndexOf (other)`: the index of the last occurrence of `other`, searched
from index `length() - other.length()` downwards; `none` (the source's `-1`) when `other` is
empty, longer than the string, or not found. -/
def lastIndexOf (s sub : Str) : Option Nat :=
  if sub = [] then none
  else if sub.length ≤ s.length then lastIndexOfFrom s sub (s.length - sub.length)
  else none

/-- JUCE `String::upToLastOccurrenceOf (sub, false, false)`: the part before the last occurrence
of `sub`, the whole string when there is none. -/
def upToLastOccurrenceOf (s sub : Str) : Str :=
  match lastIndexOf s sub with
  | none => s
  | some i => s.take i

/-- The loop of `String::getTrailingIntValue` over the characters from the last one backwards:
`n += mult * (*t - '0'); mult *= 10;` for a digit, and at the first other character
`if (*t == '-') n = -n; break;`. -/
def trailingIntLoop : Str → Int → Int → Int
  | [], n, _ => n
  | c :: cs, n, mult =>
    if c.isDigit then trailingIntLoop cs (n + mult * ((c.toNat : Int) - 48)) (mult * 10)
    else if c = '-' then -n
    else n

/-- JUCE `String::getTrailingIntValue ()`: the number that the trailing digits spell, negated
when a `-` precedes them; `0` without trailing digits.  Computed over unbounded integers. -/
def getTrailingIntValue (s : Str) : Int := trailingIntLoop s.reverse 0 1

/-- JUCE `String (int)`: the decimal form of an `int`. -/
def fromInt (i : Int) : Str :=
  if i < 0 then '-' :: Nat.toDigits 10 i.natAbs else Nat.toDigits 10 i.toNat

/-- A `juce::var` as stored in a property: void, a `bool`, an `int` or a string. -/
inductive var where
  | void
  | bool (b : Bool)
  | int (i : Int)
  | string (s : Str)
deriving DecidableEq, Repr

/-- JUCE `var::toString ()`. -/
def var.toString : var → Str
  | .void => []
  | .bool b => if b then ['1'] else ['0']
  | .int i => fromInt i
  | .string s => s

/-- A `juce::ValueTree`: a type name, an ordered list of named properties and an ordered list of
child trees.  The trees of the source share their content by reference; here a tree is a value,
and every function that changes a tree returns the changed tree. -/
inductive ValueTree where
  | mk (type : Str) (properties : List (Str × var)) (children : List ValueTree)
deriving Repr

/-- JUCE `NamedValueSet::set`: replaces the value of an existing name in place, else appends. -/
def setNamedValue : List (Str × var) → Str → var → List (Str × var)
  | [], name, newValue => [(name, newValue)]
  | (k, x) :: ps, name, newValue =>
    if k = name then (name, newValue) :: ps else (k, x) :: setNamedValue ps name newValue

/-- JUCE `NamedValueSet::operator[]`: the value of a name, void when absent. -/
def getNamedValue : List (Str × var) → Str → var
  | [], _ => var.void
  | (k, x) :: ps, name => if k = name then x else getNamedValue ps name

namespace ValueTree

/-- JUCE `ValueTree::getType ()`. -/
def getType : ValueTree → Str
  | mk t _ _ => t

/-- The properties of a tree. -/
def properties : ValueTree → List (Str × var)
  | mk _ p _ => p

/-- The children of a tree, in order. -/
def children : ValueTree → List ValueTree
  | mk _ _ cs => cs

/-- JUCE `ValueTree::hasType (name)`. -/
def hasType (v : ValueTree) (name : Str) : Bool := decide (v.getType = name)

/-- JUCE `ValueTree::operator[] (name)`: the property, void when absent. -/
def getProperty (v : ValueTree) (name : Str) : var := getNamedValue v.properties name

/-- JUCE `ValueTree::setProperty (name, newValue, undoManager)`. -/
def setProperty : ValueTree → Str → var → ValueTree
  | mk t p cs, name, newValue => mk t (setNamedValue p name newValue) cs

/-- JUCE `ValueTree::getChildWithName (type)`: the first child of that type; `none` is the
invalid tree. -/
def getChildWithName (v : ValueTree) (type : Str) : Option ValueTree :=
  v.children.find? (fun c => c.hasType type)

/-- The list of children in which the first child of type `type` is replaced by `f` of it: what a
change made through the reference `getChildWithName (type)` does to the parent. -/
def modifyFirstWithName (type : Str) (f : ValueTree → ValueTree) : List ValueTree → List ValueTree
  | [] => []
  | c :: cs => if c.hasType type then f c :: cs else c :: modifyFirstWithName type f cs

/-- The tree in which the first child of type `type` is replaced by `f` of it. -/
def modifyChildWithName : ValueTree → Str → (ValueTree → ValueTree) → ValueTree
  | mk t p cs, type, f => mk t p (modifyFirstWithName type f cs)

end ValueTree

end juce

namespace hise

open juce

mutual
/-- Modelled from the spec: `valuetree::Helpers::foreach (v, f)` is declared outside src/; the
rewrite passes "are exhaustive over the affected sub-tree": `f` is called on `v` and then, child
by child in order, on every descendant.  Every callback passed in the source returns `false`
(no early stop) and only sets properties of the tree it is given, so a callback is the function
from a tree to its new properties. -/
def foreach (f : ValueTree → List (Str × var)) : ValueTree → ValueTree
  | .mk t p cs => .mk t (f (.mk t p cs)) (foreachList f cs)
/-- The loop of `foreach` over the children. -/
def foreachList (f : ValueTree → List (Str × var)) : List ValueTree → List ValueTree
  | [] => []
  | c :: cs => foreach f c :: foreachList f cs
end

mutual
/-- The traversal `foreach` for a callback that also reads and changes captured state `σ` and
whose helper may run out of fuel (`none`). -/
def foreachState {σ : Type} (f : σ → ValueTree → Option (σ × List (Str × var))) :
    σ → ValueTree → Option (σ × ValueTree)
  | s, .mk t p cs =>
    match f s (.mk t p cs) with
    | none => none
    | some (s1, p1) =>
      match foreachStateList f s1 cs with
      | none => none
      | some (s2, cs2) => some (s2, .mk t p1 cs2)
/-- The loop of `foreachState` over the children. -/
def foreachStateList {σ : Type} (f : σ → ValueTree → Option (σ × List (Str × var))) :
    σ → List ValueTree → Option (σ × List ValueTree)
  | s, [] => some (s, [])
  | s, c :: cs =>
    match foreachState f s c with
    | none => none
    | some (s1, c1) =>
      match foreachStateList f s1 cs with
      | none => none
      | some (s2, cs2) => some (s2, c1 :: cs2)
end

end hise

namespace scriptnode

open juce hise

/-- The identifiers of `PropertyIds` used below.  The header that declares them is not under
src/; each identifier is declared there with its own name as its text. -/
def PropertyIds.ID : Str := "ID".toList
/-- The identifier `PropertyIds::FactoryPath`. -/
def PropertyIds.FactoryPath : Str := "FactoryPath".toList
/-- The identifier `PropertyIds::Node`. -/
def PropertyIds.Node : Str := "Node".toList
/-- The identifier `PropertyIds::Nodes`. -/
def PropertyIds.Nodes : Str := "Nodes".toList
/-- The identifier `PropertyIds::Parameter`. -/
def PropertyIds.Parameter : Str := "Parameter".toList
/-- The identifier `PropertyIds::Parameters`. -/
def PropertyIds.Parameters : Str := "Parameters".toList
/-- The identifier `PropertyIds::Connection`. -/
def PropertyIds.Connection : Str := "Connection".toList
/-- The identifier `PropertyIds::Connections`. -/
def PropertyIds.Connections : Str := "Connections".toList
/-- The identifier `PropertyIds::NodeId`. -/
def PropertyIds.NodeId : Str := "NodeId".toList
/-- The identifier `PropertyIds::ParameterId`. -/
def PropertyIds.ParameterId : Str := "ParameterId".toList
/-- The identifier `PropertyIds::Property`. -/
def PropertyIds.Property : Str := "Property".toList
/-- The identifier `PropertyIds::Value`. -/
def PropertyIds.Value : Str := "Value".toList
/-- The identifier `PropertyIds::Automated`. -/
def PropertyIds.Automated : Str := "Automated".toList
/-- The identifier `PropertyIds::SwitchTarget`. -/
def PropertyIds.SwitchTarget : Str := "SwitchTarget".toList
/-- The identifier `PropertyIds::SwitchTargets`. -/
def PropertyIds.SwitchTargets : Str := "SwitchTargets".toList
/-- The identifier `PropertyIds::Bypassed`. -/
def PropertyIds.Bypassed : Str := "Bypassed".toList

/-- A `NodeBase::Parameter` object as the network and connection code sees it: its entry `data` in
the persisted tree, whether it is a `NodeContainer::MacroParameter`, and the address of the object
that `getDynamicParameter()` returns (`none` is `nullptr`). -/
structure ParameterObject where
  /-- The value tree `data` of the parameter. -/
  data : ValueTree
  /-- Whether `dynamic_cast<NodeContainer::MacroParameter*>` succeeds. -/
  isMacroParameter : Bool
  /-- The pointer returned by `getDynamicParameter()`. -/
  dynamicParameter : Option Nat

/-- Source: `Parameter::getId()`, `return data[PropertyIds::ID].toString();`. -/
def ParameterObject.getId (p : ParameterObject) : Str :=
  (p.data.getProperty PropertyIds.ID).toString

/-- A `NodeBase` object: its value tree `v_data`, the outcome of the `dynamic_cast`s that the
code below applies to it, and its parameter list. -/
structure NodeBase where
  /-- The value tree `v_data`, returned by `getValueTree()`. -/
  data : ValueTree
  /-- Whether `dynamic_cast<SoftBypassNode*>` succeeds. -/
  isSoftBypassNode : Bool
  /-- Whether `dynamic_cast<ModulationSourceNode*>` succeeds. -/
  isModulationSourceNode : Bool
  /-- Whether `dynamic_cast<NodeContainer*>` succeeds. -/
  isNodeContainer : Bool
  /-- The array `parameters`. -/
  parameters : List ParameterObject

namespace NodeBase

/-- Source: `NodeBase::getId()`, `return v_data[PropertyIds::ID].toString();`. -/
def getId (n : NodeBase) : Str := (n.data.getProperty PropertyIds.ID).toString

/-- Source: `NodeBase::getParameter(const String& id)`: the first parameter with that id. -/
def getParameter (n : NodeBase) (id : Str) : Option ParameterObject :=
  n.parameters.find? (fun p => decide (p.getId = id))

/-- Source: `NodeBase::setValueTreeProperty(id, value)`,
`v_data.setProperty(id, value, getUndoManager());`. -/
def setValueTreeProperty (n : NodeBase) (id : Str) (value : var) : NodeBase :=
  { n with data := n.data.setProperty id value }

end NodeBase

/-- A `juce::var` that holds nothing or a (possibly null) pointer to a node: what
`DspNetwork::get` and `DspNetwork::create` return. -/
inductive ObjectVar where
  | undefined
  | object (o : Option NodeBase)

/-- JUCE `var::isObject ()`: true for every var of object type, also one holding `nullptr`. -/
def ObjectVar.isObject : ObjectVar → Bool
  | .undefined => false
  | .object _ => true

/-- JUCE `var::getObject ()`. -/
def ObjectVar.getObject : ObjectVar → Option NodeBase
  | .undefined => none
  | .object o => o

/-- JUCE `var::operator bool ()`: for an object var, whether the pointer is not null. -/
def ObjectVar.toBool : ObjectVar → Bool
  | .undefined => false
  | .object o => o.isSome

/-- How a call ends: it returns a value, it dereferences a null pointer, or the fuel that bounds
a loop or a recursion of the embedding runs out. -/
inductive Outcome (α : Type) where
  | ok (a : α)
  | nullPointer
  | outOfFuel

/-- The value a call returns, `none` when it does not return. -/
def Outcome.toOption {α : Type} : Outcome α → Option α
  | .ok a => some a
  | .nullPointer => none
  | .outOfFuel => none

/-- Whether a call ends in the dereference of a null pointer. -/
def Outcome.isNullPointer {α : Type} : Outcome α → Bool
  | .nullPointer => true
  | _ => false

/-- A `DspNetwork`: the id returned by `getId()`, the root node `signalPath` and the registry
`nodes`. -/
structure DspNetwork where
  /-- The id of the network, `getId()`. -/
  id : Str
  /-- The root node `signalPath` (`none` is `nullptr`). -/
  signalPath : Option NodeBase
  /-- The registry `nodes`. -/
  nodes : List NodeBase

/-- A node factory: `createNode(d, createPolyIfAvailable)`, `none` for `nullptr`.  The node
classes are not under src/. -/
abbrev NodeFactory := ValueTree → Bool → Option NodeBase

namespace DspNetwork

/-- Source: `DspNetwork::get(String id)`. -/
def get (net : DspNetwork) (id : Str) : ObjectVar :=
  if id = [] then .undefined
  else if id = net.id then .object net.signalPath
  else
    match net.nodes.find? (fun n => decide (n.getId = id)) with
    | some n => .object (some n)
    | none => .undefined

/-- Source: `DspNetwork::getNodeWithId(id)`,
`return dynamic_cast<NodeBase*>(get(id).getObject());`. -/
def getNodeWithId (net : DspNetwork) (id : Str) : Option NodeBase := (net.get id).getObject

/-- The `while` loop of `getNonExistentId`, entered with the candidate `id` built from
`trailingIndex`; `none` when the fuel runs out. -/
def getNonExistentIdLoop (net : DspNetwork) (usedIds : List Str) (idWithoutNumber : Str) :
    Nat → Int → Str → Option Str
  | 0, _, _ => none
  | fuel + 1, trailingIndex, id =>
    if (net.get id).isObject || decide (id ∈ usedIds) then
      getNonExistentIdLoop net usedIds idWithoutNumber fuel (trailingIndex + 1)
        (idWithoutNumber ++ fromInt (trailingIndex + 1))
    else some id

/-- Source: `DspNetwork::getNonExistentId(String id, StringArray& usedIds)`: the id returned and
`usedIds` after the call.  The loop gets more fuel than there are ids that can be taken; the
counter is an unbounded integer. -/
def getNonExistentId (net : DspNetwork) (id : Str) (usedIds : List Str) :
    Option (Str × List Str) :=
  if !(net.get id).isObject then some (id, usedIds)
  else
    let trailingIndex := getTrailingIntValue id
    let idWithoutNumber :=
      if trailingIndex = 0 then id else upToLastOccurrenceOf id (fromInt trailingIndex)
    match getNonExistentIdLoop net usedIds idWithoutNumber (net.nodes.length + usedIds.length + 2)
        (trailingIndex + 1) (idWithoutNumber ++ fromInt (trailingIndex + 1)) with
    | none => none
    | some newId => some (newId, usedIds ++ [newId])

/-- The lambda `updateIds` of `updateId`: the properties of `v` after the call. -/
def updateIds (newId oldId : Str) (v : ValueTree) : List (Str × var) :=
  let oldConnection := (v.getProperty PropertyIds.Connection).toString
  if contains oldConnection oldId then
    (v.setProperty PropertyIds.Connection (var.string (replace oldConnection oldId newId))).properties
  else v.properties

/-- Source: `DspNetwork::updateId(NodeBase* n, const String& newId)`: the node after the call.
The third statement, `auto um = signalPath->getUndoManager();`, dereferences `signalPath`: when
it is `nullptr`, the state in which the constructor of the network calls `createFromValueTree`,
the call does not return (`none`). -/
def updateId (net : DspNetwork) (n : NodeBase) (newId : Str) : Option NodeBase :=
  let oldId := n.getId
  let n1 := n.setValueTreeProperty PropertyIds.ID (var.string newId)
  match net.signalPath with
  | none => none
  | some _ =>
    let data1 :=
      n1.data.modifyChildWithName PropertyIds.Parameters (foreach (updateIds newId oldId))
    some { n1 with data := data1 }

/-- The loop `for (auto n : nodes)` of `createFromValueTree` that renames the new node when its
id equals the id of a registered node. -/
def resolveCollisions (net : DspNetwork) (id : Str) : List NodeBase → NodeBase → Outcome NodeBase
  | [], newNode => Outcome.ok newNode
  | n :: ns, newNode =>
    if newNode.getId = n.getId then
      match net.getNonExistentId id [] with
      | none => Outcome.outOfFuel
      | some (newId, _) =>
        match net.updateId newNode newId with
        | none => Outcome.nullPointer
        | some renamed => resolveCollisions net id ns renamed
    else resolveCollisions net id ns newNode

/-- The loop `for (auto nf : nodeFactories)` of `createFromValueTree`: the node returned, the
description after the call (the value tree of the new node, which the node shares with the
description) and the network after the call. -/
def createWithFactories (net : DspNetwork) (id : Str) (d : ValueTree) (createPolyIfAvailable : Bool) :
    List NodeFactory → Outcome (Option NodeBase × ValueTree × DspNetwork)
  | [] => Outcome.ok (none, d, net)
  | nf :: nfs =>
    match nf d createPolyIfAvailable with
    | none => createWithFactories net id d createPolyIfAvailable nfs
    | some newNode =>
      match resolveCollisions net id net.nodes newNode with
      | Outcome.ok renamed =>
        Outcome.ok (some renamed, renamed.data, { net with nodes := net.nodes ++ [renamed] })
      | Outcome.nullPointer => Outcome.nullPointer
      | Outcome.outOfFuel => Outcome.outOfFuel

/-- The loop `for (auto c : childNodes)` of `createFromValueTree`, with the recursive call as
`step`: the children after the calls and the network after the calls. -/
def createChildren
    (step : DspNetwork → ValueTree → Outcome (Option NodeBase × ValueTree × DspNetwork)) :
    DspNetwork → List ValueTree → Outcome (List ValueTree × DspNetwork)
  | net, [] => Outcome.ok ([], net)
  | net, c :: cs =>
    match step net c with
    | Outcome.nullPointer => Outcome.nullPointer
    | Outcome.outOfFuel => Outcome.outOfFuel
    | Outcome.ok (_, c1, net1) =>
      match createChildren step net1 cs with
      | Outcome.nullPointer => Outcome.nullPointer
      | Outcome.outOfFuel => Outcome.outOfFuel
      | Outcome.ok (cs1, net2) => Outcome.ok (c1 :: cs1, net2)

/-- The tree `v` with its children replaced. -/
def withChildren : ValueTree → List ValueTree → ValueTree
  | .mk t p _, cs => .mk t p cs

/-- Source: `DspNetwork::createFromValueTree(createPolyIfAvailable, d, forceCreate)` with the
recursion depth bounded by `fuel`: the node returned, the description after the call and the
network after the call. -/
def createFromValueTreeFuel (nodeFactories : List NodeFactory)
    (createPolyIfAvailable forceCreate : Bool) :
    Nat → DspNetwork → ValueTree → Outcome (Option NodeBase × ValueTree × DspNetwork)
  | 0, _, _ => Outcome.outOfFuel
  | fuel + 1, net, d =>
    let id := (d.getProperty PropertyIds.ID).toString
    let existing := if forceCreate then ObjectVar.undefined else net.get id
    if existing.isObject then Outcome.ok (existing.getObject, d, net)
    else
      match d.getChildWithName PropertyIds.Nodes with
      | none => createWithFactories net id d createPolyIfAvailable nodeFactories
      | some childNodes =>
        match createChildren
            (createFromValueTreeFuel nodeFactories createPolyIfAvailable forceCreate fuel)
            net childNodes.children with
        | Outcome.nullPointer => Outcome.nullPointer
        | Outcome.outOfFuel => Outcome.outOfFuel
        | Outcome.ok (cs1, net1) =>
          createWithFactories net1 id
            (d.modifyChildWithName PropertyIds.Nodes (fun v => withChildren v cs1))
            createPolyIfAvailable nodeFactories

end DspNetwork

end scriptnode

namespace juce

mutual
/-- The height of a tree: the number of trees on its longest path from the root downwards. -/
def ValueTree.depth : ValueTree → Nat
  | .mk _ _ cs => ValueTree.depthList cs + 1
/-- The largest height among the trees of a list. -/
def ValueTree.depthList : List ValueTree → Nat
  | [] => 0
  | c :: cs => max (ValueTree.depth c) (ValueTree.depthList cs)
end

end juce

namespace scriptnode

open juce hise

namespace DspNetwork

/-- Source: `DspNetwork::createFromValueTree(createPolyIfAvailable, d, forceCreate)`; the
recursion descends the description, so its height bounds the depth of the recursion. -/
def createFromValueTree (nodeFactories : List NodeFactory) (net : DspNetwork)
    (createPolyIfAvailable : Bool) (d : ValueTree) (forceCreate : Bool) :
    Outcome (Option NodeBase × ValueTree × DspNetwork) :=
  createFromValueTreeFuel nodeFactories createPolyIfAvailable forceCreate d.depth net d

/-- Source: `DspNetwork::create(String path, String id, bool createPolyNode)`: the var returned
and the network after the call, `none` when the call does not return.  The call
`createFromValueTree(createPolyNode, newNodeData)` leaves `forceCreate` to its default,
`false`. -/
def create (nodeFactories : List NodeFactory) (net : DspNetwork) (path id : Str)
    (createPolyNode : Bool) : Option (ObjectVar × DspNetwork) :=
  let existing := net.get id
  if existing.isObject then some (existing, net)
  else
    let newId : Option Str :=
      if id = [] then
        let nameToUse :=
          if contains path ".".toList then fromFirstOccurrenceOf path ".".toList else path
        (net.getNonExistentId nameToUse []).map (fun r => r.1)
      else some id
    match newId with
    | none => none
    | some id1 =>
      let newNodeData := ValueTree.mk PropertyIds.Node
        [(PropertyIds.ID, var.string id1), (PropertyIds.FactoryPath, var.string path)] []
      match (createFromValueTree nodeFactories net createPolyNode newNodeData false).toOption with
      | none => none
      | some (node, _, net1) => some (ObjectVar.object node, net1)

/-- The state captured by the lambda `setNewId` of `cloneValueTreeWithNewIds`: the string array
`sa` and the array `changes` of `IdChange { oldId, newId }`. -/
structure CloneState where
  /-- The ids in use, `sa`. -/
  sa : List Str
  /-- The renamings made so far, `changes`. -/
  changes : List (Str × Str)

/-- The lambda `setNewId`: the state and the properties of `v` after the call. -/
def setNewId (net : DspNetwork) (s : CloneState) (v : ValueTree) :
    Option (CloneState × List (Str × var)) :=
  if v.hasType PropertyIds.Node then
    let thisId := (v.getProperty PropertyIds.ID).toString
    if (net.get thisId).toBool then
      match net.getNonExistentId thisId s.sa with
      | none => none
      | some (newId, sa1) =>
        some ({ sa := sa1, changes := s.changes ++ [(thisId, newId)] },
          (v.setProperty PropertyIds.ID (var.string newId)).properties)
    else some (s, v.properties)
  else some (s, v.properties)

/-- The lambda `updateParameter` for the change `ch = { oldId, newId }`. -/
def updateParameter (oldId newId : Str) (v : ValueTree) : List (Str × var) :=
  if v.hasType PropertyIds.Parameter then
    let conId := (v.getProperty PropertyIds.Connection).toString
    if contains conId oldId then
      (v.setProperty PropertyIds.Connection (var.string (replace conId oldId newId))).properties
    else v.properties
  else v.properties

/-- The lambda `updateConnection` for the change `ch = { oldId, newId }`. -/
def updateConnection (oldId newId : Str) (v : ValueTree) : List (Str × var) :=
  if v.hasType PropertyIds.Connection then
    let nId := (v.getProperty PropertyIds.NodeId).toString
    if nId = oldId then (v.setProperty PropertyIds.NodeId (var.string newId)).properties
    else v.properties
  else v.properties

/-- The lambda `updateSendConnection` for the change `ch = { oldId, newId }`. -/
def updateSendConnection (oldId newId : Str) (v : ValueTree) : List (Str × var) :=
  if v.hasType PropertyIds.Property
      && decide ((v.getProperty PropertyIds.ID).toString = PropertyIds.Connection) then
    let oldValue := (v.getProperty PropertyIds.Value).toString
    if oldValue = oldId then (v.setProperty PropertyIds.Value (var.string newId)).properties
    else v.properties
  else v.properties

/-- The body of the loop `for (auto& ch : changes)` of `cloneValueTreeWithNewIds`: the three
passes over the copy for one change. -/
def applyChange (c : ValueTree) (ch : Str × Str) : ValueTree :=
  foreach (updateSendConnection ch.1 ch.2)
    (foreach (updateConnection ch.1 ch.2)
      (foreach (updateParameter ch.1 ch.2) c))

/-- Source: `DspNetwork::cloneValueTreeWithNewIds(const ValueTree& treeToClone)`. -/
def cloneValueTreeWithNewIds (net : DspNetwork) (treeToClone : ValueTree) : Option ValueTree :=
  let sa := net.nodes.map NodeBase.getId
  match foreachState (setNewId net) { sa := sa, changes := [] } treeToClone with
  | none => none
  | some (s, c) => some (s.changes.foldl applyChange c)

end DspNetwork

mutual
/-- The ids of the trees of type `Node` in a tree, in the order of `foreach`. -/
def nodeIdsOf : ValueTree → List Str
  | .mk t p cs =>
    (if t = PropertyIds.Node then [(getNamedValue p PropertyIds.ID).toString] else [])
      ++ nodeIdsOfList cs
/-- The ids of the trees of type `Node` in a list of trees. -/
def nodeIdsOfList : List ValueTree → List Str
  | [] => []
  | c :: cs => nodeIdsOf c ++ nodeIdsOfList cs
end

mutual
/-- The `Connection` property, as a string, of every tree in a tree, in the order of
`foreach`. -/
def connectionStringsOf : ValueTree → List Str
  | .mk _ p cs => (getNamedValue p PropertyIds.Connection).toString :: connectionStringsOfList cs
/-- The `Connection` properties of the trees of a list of trees. -/
def connectionStringsOfList : List ValueTree → List Str
  | [] => []
  | c :: cs => connectionStringsOf c ++ connectionStringsOfList cs
end

end scriptnode

namespace scriptnode

open juce hise

mutual
/-- The ids of the node descriptions that `createFromValueTree` visits in the description `d`:
the id of `d` and, recursively, those of the children of its child `Nodes`. -/
def descriptionIds : ValueTree → List Str
  | .mk _ p cs => (getNamedValue p PropertyIds.ID).toString :: descriptionIdsIn cs
/-- The ids visited below the first tree of type `Nodes` in a list of children. -/
def descriptionIdsIn : List ValueTree → List Str
  | [] => []
  | .mk t _ gcs :: cs =>
    if t = PropertyIds.Nodes then descriptionIdsOfList gcs else descriptionIdsIn cs
/-- The ids visited in a list of node descriptions. -/
def descriptionIdsOfList : List ValueTree → List Str
  | [] => []
  | c :: cs => descriptionIds c ++ descriptionIdsOfList cs
end

end scriptnode

namespace scriptnode

open juce hise

/-- The node-id part of a connection string `nodeId.parameterId`, split off as the source does
(`src.upToFirstOccurrenceOf(".", false, false)` in `addConnectionToBypass` and
`DragHelpers::getSourceNodeId`). -/
def connectionNodeId (s : Str) : Str := upToFirstOccurrenceOf s ".".toList

/-- The parameter-id part of a connection string `nodeId.parameterId`
(`src.fromFirstOccurrenceOf(".", false, false)`). -/
def connectionParameterId (s : Str) : Str := fromFirstOccurrenceOf s ".".toList

end scriptnode

namespace snex

namespace span

variable {T : Type} {Size : Nat}

/-- Source: `span::copyTo(Type& other)`, the loop `*dst++ = *src++` over the `Size` elements:
the content of `other` after the call. -/
def copyTo (s : span T Size) : span T Size := ⟨fun i => s.data i⟩

/-- Source: `span::addTo(Type& other)`, the loop `*dst++ += *src++` over the `Size` elements:
the content of `other` after the call. -/
def addTo [Add T] (s : span T Size) (other : span T Size) : span T Size :=
  ⟨fun i => other.data i + s.data i⟩

end span

end snex

namespace scriptnode

open snex

/-- A child node of a `SplitNode` as far as frame processing uses it: `processMonoFrame` and
`processStereoFrame`, each of which changes the frame it is given in place and may change the
state `σ` of the child nodes. -/
structure FrameProcessor (σ α : Type) where
  /-- The method `processMonoFrame(MonoFrameType& data)`. -/
  processMonoFrame : σ → span α 1 → σ × span α 1
  /-- The method `processStereoFrame(StereoFrameType& data)`. -/
  processStereoFrame : σ → span α 2 → σ × span α 2

/-- A `SplitNode` as far as `processFrame` reads it: `isBypassed()` and the child list `nodes`. -/
structure SplitNode (σ α : Type) where
  /-- The result of `isBypassed()`. -/
  bypassed : Bool
  /-- The child list `nodes`. -/
  nodes : List (FrameProcessor σ α)

namespace SplitNode

variable {σ α : Type} [Add α] {C : Nat}

/-- The loop `for (auto n : nodes)` of `processFrameInternal<C>`; `call` is the child method
selected by `if (C == 1)` / `if (C == 2)`.  The state of the children and `data` after the
remaining iterations. -/
def processFrameLoop (call : FrameProcessor σ α → σ → span α C → σ × span α C)
    (original : span α C) : List (FrameProcessor σ α) → Bool → σ → span α C → σ × span α C
  | [], _, s, data => (s, data)
  | n :: ns, isFirst, s, data =>
    if isFirst then
      let r := call n s data
      processFrameLoop call original ns false r.1 r.2
    else
      let wb := original.copyTo
      let r := call n s wb
      processFrameLoop call original ns false r.1 (r.2.addTo data)

/-- Source: `SplitNode::processFrameInternal<C>(span<float, C>& data)`. -/
def processFrameInternal (call : FrameProcessor σ α → σ → span α C → σ × span α C)
    (node : SplitNode σ α) (s : σ) (data : span α C) : σ × span α C :=
  if node.bypassed then (s, data)
  else
    let original := data.copyTo
    processFrameLoop call original node.nodes true s data

/-- Source: `SplitNode::processFrame(FrameType& data)`, with `C = data.size()`: frames of one
and of two channels are processed, any other frame is left alone. -/
def processFrame (node : SplitNode σ α) : (C : Nat) → σ → span α C → σ × span α C
  | 1, s, data => processFrameInternal (fun n => n.processMonoFrame) node s data
  | 2, s, data => processFrameInternal (fun n => n.processStereoFrame) node s data
  | _, s, data => (s, data)

/-- The frames `f1(x), ..., fn(x)`: every child is called on the same frame `x`, in list order;
the state after the calls and the frames the children produce. -/
def childOutputs (call : FrameProcessor σ α → σ → span α C → σ × span α C) (x : span α C) :
    List (FrameProcessor σ α) → σ → σ × List (span α C)
  | [], s => (s, [])
  | n :: ns, s =>
    let r := call n s x
    let rest := childOutputs call x ns r.1
    (rest.1, r.2 :: rest.2)

/-- The channel-wise sum `first + o1 + o2 + ...`, accumulated from the left. -/
def sumInOrder (first : span α C) (rest : List (span α C)) : span α C :=
  rest.foldl (fun acc o => ⟨fun i => acc.data i + o.data i⟩) first

end SplitNode

open juce hise

/-- The error codes of `scriptnode::Error` that the code below sets. -/
inductive ErrorCode where
  | OK
  | IllegalBypassConnection
deriving DecidableEq, Repr

/-- Modelled from the spec: the exception handler of the network is declared outside src/; it is
the "graph-level error registry" in which an error is "recorded per-node": the list of the
recorded errors with their nodes. -/
abbrev ExceptionHandler := List (NodeBase × ErrorCode)

/-- Modelled from the spec: `getExceptionHandler().addError(tn, e)` records the error `e` for the
node `tn` in the registry. -/
def ExceptionHandler.addError (h : ExceptionHandler) (tn : NodeBase) (e : ErrorCode) :
    ExceptionHandler :=
  h ++ [(tn, e)]

/-- The object that one connection resolves to: `new NodeBase::DynamicBypassParameter(tn, r)` or
the object at the address `param->getDynamicParameter()`. -/
inductive ConnectionTarget (Rng : Type) where
  | dynamicBypassParameter (tn : NodeBase) (r : Rng)
  | dynamicParameter (address : Nat)

/-- The pointer that `createParameterFromConnectionTree` returns: `nullptr`, the object of a
single connection, or a new `parameter::dynamic_chain<scaleInput>` whose range was updated from
`rangeSource` and to which the objects `items` were added (a `none` item is `nullptr`). -/
inductive ConnectionResult (Rng : Type) where
  | null
  | single (p : ConnectionTarget Rng)
  | chain (scaleInput : Bool) (rangeSource : ValueTree) (items : List (Option (ConnectionTarget Rng)))

/-- The helpers of `createParameterFromConnectionTree` that are declared outside src/:
`RangeHelpers::getDoubleRange(c).getRange()` of a connection, `RangeHelpers::getDoubleRange` of
the parent tree, and `getRange()` of a target object. -/
structure RangeHelpers (Rng InvRange : Type) where
  /-- The range `RangeHelpers::getDoubleRange(c).getRange()`. -/
  connectionRange : ValueTree → Rng
  /-- The range `RangeHelpers::getDoubleRange(tree)`. -/
  getDoubleRange : ValueTree → InvRange
  /-- The range `p->getRange()` of a target object. -/
  getRange : ConnectionTarget Rng → InvRange

namespace ConnectionBase

variable {Rng InvRange : Type} [DecidableEq InvRange]

/-- The loop `for (auto c : connectionTree)` of `createParameterFromConnectionTree` over the
remaining connections, with the chain built so far (`none` is `nullptr`) and the error registry:
the pointer returned and the registry after the call; `none` when the source dereferences the
null pointer `p`. -/
def createParameterLoop (net : DspNetwork) (rh : RangeHelpers Rng InvRange) (scaleInput : Bool)
    (parent : ValueTree) (numConnections : Nat) :
    List ValueTree → Option (List (Option (ConnectionTarget Rng))) → ExceptionHandler →
      Option (ConnectionResult Rng × ExceptionHandler)
  | [], chain, h =>
    match chain with
    | none => some (ConnectionResult.null, h)
    | some items => some (ConnectionResult.chain scaleInput parent items, h)
  | c :: cs, chain, h =>
    let nId := (c.getProperty PropertyIds.NodeId).toString
    let pId := (c.getProperty PropertyIds.ParameterId).toString
    match net.getNodeWithId nId with
    | none => some (ConnectionResult.null, h)
    | some tn =>
      let continueWith := fun (p : Option (ConnectionTarget Rng)) =>
        let addToChain :=
          createParameterLoop net rh scaleInput parent numConnections cs
            (some (chain.getD [] ++ [p])) h
        if numConnections = 1 then
          if scaleInput = false then
            match p with
            | none => some (ConnectionResult.null, h)
            | some t => some (ConnectionResult.single t, h)
          else
            match p with
            | none => none
            | some t =>
              if rh.getRange t = rh.getDoubleRange parent then some (ConnectionResult.single t, h)
              else addToChain
        else addToChain
      if pId = PropertyIds.Bypassed then
        if tn.isSoftBypassNode then
          continueWith (some (ConnectionTarget.dynamicBypassParameter tn (rh.connectionRange c)))
        else some (ConnectionResult.null, h.addError tn ErrorCode.IllegalBypassConnection)
      else
        continueWith ((tn.getParameter pId).bind
          (fun param => param.dynamicParameter.map ConnectionTarget.dynamicParameter))

/-- The object `p` that the loop of `createParameterFromConnectionTree` determines for the
connection `c` when it resolves to the node `tn`. -/
def targetOf (net : DspNetwork) (rh : RangeHelpers Rng InvRange) (c : ValueTree) :
    Option (ConnectionTarget Rng) :=
  match net.getNodeWithId (c.getProperty PropertyIds.NodeId).toString with
  | none => none
  | some tn =>
    if (c.getProperty PropertyIds.ParameterId).toString = PropertyIds.Bypassed then
      some (ConnectionTarget.dynamicBypassParameter tn (rh.connectionRange c))
    else
      (tn.getParameter (c.getProperty PropertyIds.ParameterId).toString).bind
        (fun param => param.dynamicParameter.map ConnectionTarget.dynamicParameter)

/-- Whether the loop of `createParameterFromConnectionTree` passes the connection `c` without
returning: its node exists, and if it targets `Bypassed` the node is a soft-bypass node. -/
def resolves (net : DspNetwork) (c : ValueTree) : Bool :=
  match net.getNodeWithId (c.getProperty PropertyIds.NodeId).toString with
  | none => false
  | some tn =>
    if (c.getProperty PropertyIds.ParameterId).toString = PropertyIds.Bypassed then
      tn.isSoftBypassNode
    else true

/-- Source: `ConnectionBase::createParameterFromConnectionTree(n, connectionTree, scaleInput)`,
with the network of `n`, the tree `connectionTree.getParent()` and the error registry of the
network. -/
def createParameterFromConnectionTree (net : DspNetwork) (rh : RangeHelpers Rng InvRange)
    (connectionTree parent : ValueTree) (scaleInput : Bool) (h : ExceptionHandler) :
    Option (ConnectionResult Rng × ExceptionHandler) :=
  let numConnections := connectionTree.children.length
  if numConnections = 0 then some (ConnectionResult.null, h)
  else
    createParameterLoop net rh scaleInput parent numConnections connectionTree.children none h

end ConnectionBase

/-- The `var dragDetails` handed to `addConnectionFrom`: a string, a `DynamicObject` with its
properties, or any other var. -/
inductive DragDetails where
  | other
  | string (s : Str)
  | object (properties : List (Str × var))

/-- JUCE `var::isObject ()`. -/
def DragDetails.isObject : DragDetails → Bool
  | .object _ => true
  | _ => false

/-- JUCE `var::isString ()`. -/
def DragDetails.isString : DragDetails → Bool
  | .string _ => true
  | _ => false

/-- JUCE `var::toString ()` of the details. -/
def DragDetails.toString : DragDetails → Str
  | .string s => s
  | _ => []

/-- JUCE `var::getProperty (name, defaultValue)`: the property of a `DynamicObject`, the default
for a missing property and for a var that is no such object. -/
def DragDetails.getProperty (d : DragDetails) (name : Str) (defaultValue : var) : var :=
  match d with
  | .object properties =>
    match properties.find? (fun kv => decide (kv.1 = name)) with
    | some kv => kv.2
    | none => defaultValue
  | _ => defaultValue

namespace DragHelpers

/-- Source: `DragHelpers::getSourceNodeId(var dragDetails)`. -/
def getSourceNodeId (dragDetails : DragDetails) : Str :=
  if dragDetails.isString then upToFirstOccurrenceOf dragDetails.toString ".".toList
  else (dragDetails.getProperty PropertyIds.ID (var.string [])).toString

/-- Source: `DragHelpers::getSourceParameterId(var dragDetails)`; the search for `"."` ignores
case, which makes no difference for that character. -/
def getSourceParameterId (dragDetails : DragDetails) : Str :=
  if dragDetails.isString then fromFirstOccurrenceOf dragDetails.toString ".".toList
  else (dragDetails.getProperty PropertyIds.ParameterId (var.string [])).toString

/-- Source: `DragHelpers::getModulationSource(parent, dragDetails)`, with the network of
`parent`.  The list `getListOfNodesWithType<ModulationSourceNode>(false)` (a template declared
outside src/) is the list of the registered nodes of that type; `varToBool` is the conversion
`(bool)` of a var. -/
def getModulationSource (varToBool : var → Bool) (net : DspNetwork) (dragDetails : DragDetails) :
    Option NodeBase :=
  if dragDetails.isString then
    (net.getNodeWithId dragDetails.toString).bind
      (fun n => if n.isModulationSourceNode then some n else none)
  else if varToBool (dragDetails.getProperty PropertyIds.Automated (var.bool false)) then
    let sourceNodeId := getSourceNodeId dragDetails
    (net.nodes.filter (fun n => n.isModulationSourceNode)).find?
      (fun l => decide (l.getId = sourceNodeId))
  else none

end DragHelpers

/-- What a call of `addConnectionFrom` does besides setting the property `Automated`: nothing,
or one of the calls and tree edits of its branches, whose code is outside src/. -/
inductive ConnectionEffect where
  | nothing
  | addModulationTarget (modSource : NodeBase)
  | addParameterTarget (sn : NodeBase) (sp : ParameterObject)
  | addSwitchConnection (sn : NodeBase) (cTree newC : ValueTree)
  | removeConnection (c : ValueTree)

/-- The var that `addConnectionFrom` returns: the empty var `{}` or the var returned by the call
it delegates to. -/
inductive AddConnectionResult where
  | empty
  | delegated

/-- The helpers of `addConnectionFrom` that are not under src/: the conversion `(bool)` of a
var, `String::getIntValue` and the range properties that
`RangeHelpers::storeDoubleRange(newC, RangeHelpers::getDoubleRange(data), nullptr)` writes. -/
structure ConnectionHelpers where
  /-- The conversion `(bool)` of a var. -/
  varToBool : var → Bool
  /-- JUCE `String::getIntValue ()`. -/
  getIntValue : Str → Int
  /-- The tree `newC` after `storeDoubleRange` with the range of `data`. -/
  storeDoubleRange : ValueTree → ValueTree → ValueTree

/-- JUCE `ValueTree::getChild (index)`: `none` (the invalid tree) outside the children. -/
def getChildAt (v : ValueTree) (index : Int) : Option ValueTree :=
  if 0 ≤ index then v.children[index.toNat]? else none

/-- Source: `NodeBase::Parameter::addConnectionFrom(var dragDetails)` for the parameter `p` of
the node `parent` in the network `net`: the var returned, the entry `data` of the parameter
after the call, and what else the call did.  `connectionSource` is the tree that
`getConnectionSourceTree(true)` finds (`none` when it is invalid). -/
def ParameterObject.addConnectionFrom (hp : ConnectionHelpers) (net : DspNetwork)
    (parent : NodeBase) (p : ParameterObject) (connectionSource : Option ValueTree)
    (dragDetails : DragDetails) : AddConnectionResult × ValueTree × ConnectionEffect :=
  let shouldAdd := dragDetails.isObject
  let data1 := p.data.setProperty PropertyIds.Automated (var.bool shouldAdd)
  if shouldAdd then
    let sourceNodeId := DragHelpers.getSourceNodeId dragDetails
    let parameterId := DragHelpers.getSourceParameterId dragDetails
    match DragHelpers.getModulationSource hp.varToBool net dragDetails with
    | some modSource =>
      (AddConnectionResult.delegated, data1, ConnectionEffect.addModulationTarget modSource)
    | none =>
      if sourceNodeId = parent.getId ∧ parameterId = p.getId then
        (AddConnectionResult.empty, data1, ConnectionEffect.nothing)
      else
        match net.getNodeWithId sourceNodeId with
        | none => (AddConnectionResult.empty, data1, ConnectionEffect.nothing)
        | some sn =>
          match (sn.getParameter parameterId).filter (fun sp => sp.isMacroParameter) with
          | some sp =>
            (AddConnectionResult.delegated, data1, ConnectionEffect.addParameterTarget sn sp)
          | none =>
            if hp.varToBool (dragDetails.getProperty PropertyIds.SwitchTarget (var.bool false))
            then
              let cTree :=
                ((sn.data.getChildWithName PropertyIds.SwitchTargets).bind
                  (fun st => getChildAt st (hp.getIntValue parameterId))).bind
                  (fun t => t.getChildWithName PropertyIds.Connections)
              match cTree with
              | some ct =>
                let newC := ValueTree.mk PropertyIds.Connection
                  [(PropertyIds.NodeId, var.string parent.getId),
                   (PropertyIds.ParameterId, var.string p.getId)] []
                let newC1 := (hp.storeDoubleRange data1 newC).setProperty
                  "Expression".toList (var.string [])
                (AddConnectionResult.empty, data1, ConnectionEffect.addSwitchConnection sn ct newC1)
              | none => (AddConnectionResult.empty, data1, ConnectionEffect.nothing)
            else (AddConnectionResult.empty, data1, ConnectionEffect.nothing)
  else
    match connectionSource with
    | some c => (AddConnectionResult.empty, data1, ConnectionEffect.removeConnection c)
    | none => (AddConnectionResult.empty, data1, ConnectionEffect.nothing)

end scriptnode

namespace snex

/-- The struct `template <typename Derived> struct index_base`: `int value = 0;`.  The value is
an unbounded integer here. -/
structure index_base where
  /-- The field `int value`. -/
  value : Int

namespace index_base

/-- Source: the pre-increment `int operator++()`, `value++; return (int)asDerived();`, where
`toInt` is the `operator int()` of the derived index type: the int returned and the index after
the call. -/
def preInc (toInt : Int → Int) (i : index_base) : Int × index_base :=
  let i1 : index_base := ⟨i.value + 1⟩
  (toInt i1.value, i1)

/-- Source: the post-increment `int operator++(int)`,
`auto v = value; operator++(); return v;`. -/
def postInc (toInt : Int → Int) (i : index_base) : Int × index_base :=
  let v := i.value
  let r := preInc toInt i
  (v, r.2)

/-- Source: the pre-decrement `int operator--()`, `value--; return (int)asDerived();`. -/
def preDec (toInt : Int → Int) (i : index_base) : Int × index_base :=
  let i1 : index_base := ⟨i.value - 1⟩
  (toInt i1.value, i1)

/-- Source: the post-decrement `int operator--(int)`,
`auto v = value; operator--(); return v;`. -/
def postDec (toInt : Int → Int) (i : index_base) : Int × index_base :=
  let v := i.value
  let r := preDec toInt i
  (v, r.2)

/-- Source: `Derived& moved(int delta)`, `value += delta; return asDerived();`. -/
def moved (i : index_base) (delta : Int) : index_base := ⟨i.value + delta⟩

/-- A run of post-increments (`true`) and post-decrements (`false`) on an index: the int that
each of them returns, in order, and the index after the run. -/
def postRun (toInt : Int → Int) : index_base → List Bool → List Int × index_base
  | i, [] => ([], i)
  | i, b :: bs =>
    let r := if b then postInc toInt i else postDec toInt i
    let rest := postRun toInt r.2 bs
    (r.1 :: rest.1, rest.2)

end index_base

namespace dyn_indexes

/-- Source: `dyn_indexes::unsafe::operator int()`, `return value;` (the source's name of the
type is a reserved word here). -/
def unchecked (value : Int) : Int := value

/-- Source: `using wrapped = unsafe;`, the only definition of `dyn_indexes::wrapped` that is
compiled (the struct of that name is inside `#if 0`). -/
def wrapped (value : Int) : Int := unchecked value

end dyn_indexes

namespace dyn

/-- Source: the constructor `dyn(Other& o)`, `data(o.begin()), size_(o.end() - o.begin())`. -/
def fromContainer (o : Container) : dyn := { size_ := o.size, data := o.begin }

/-- Source: `dyn::operator[](IndexType t)` with `IndexType = dyn<T>::wrapped`:
`int i = (int)t; return data[i];`. -/
def subscriptWrapped {T : Type} (mem : Memory T) (d : dyn) (t : index_base) : T :=
  dyn.read mem d (dyn_indexes.wrapped t.value)

end dyn

namespace dyn_wrap_2

/-- Source: the test `dyn/dyn_wrap_2`, `span<float, 6> s = { 1.0f, 2.0f, 3.0f, 4.f, 5.0f, 6.f };`
placed at address `0` of a memory whose other cells hold `rest`. -/
def memory (rest : Memory ℚ) : Memory ℚ :=
  fun a => if 0 ≤ a ∧ a < 6 then ((a : ℚ) + 1) else rest a

/-- Source: the test `dyn/dyn_wrap_2`, `main`: after `assign()` has made `d` refer to the span
`s` (located at `s.begin` in `mem`), `return d[i] + d[i.moved(1)];` with the index `i` (initial
value `0`), the left operand read first. -/
def main (mem : Memory ℚ) (s : Container) (i : index_base) : ℚ :=
  let d := dyn.fromContainer s
  let left := d.subscriptWrapped mem i
  let i1 := i.moved 1
  left + d.subscriptWrapped mem i1

end dyn_wrap_2

namespace span

variable {T : Type} {Size : Nat}

/-- The write `data[i] = x`; `none` when `data[i]` lies outside the span. -/
def store (s : span T Size) (i : Int) (x : T) : Option (span T Size) :=
  if h : 0 ≤ i ∧ i < Size then some ⟨Function.update s.data ⟨i.toNat, by omega⟩ x⟩ else none

/-- Source: the constructor `span(const std::initializer_list<T>& l)`, entered with the content
`s` of `data`: for `l.size() == 1` the loop `for (int i = 0; i < Size; i++) data[i] = *l.begin();`,
otherwise `memcpy(data, l.begin(), sizeof(T)*Size)`, which reads `Size` elements of the list
(`none` when the list is shorter). -/
def fromInitializerList (s : span T Size) (l : List T) : Option (span T Size) :=
  match l with
  | [x] => (List.range Size).foldlM (fun acc (i : Nat) => acc.store (i : Int) x) s
  | _ =>
    if h : Size ≤ l.length then some ⟨fun i => l.get ⟨i.val, by omega⟩⟩ else none

/-- Source: `begin()` as an offset from `data`: `return const_cast<T*>(data);`. -/
def beginOffset (_s : span T Size) : Nat := 0

/-- Source: `end()` as an offset from `data`: `return const_cast<T*>(data + Size);`. -/
def endOffset (_s : span T Size) : Nat := Size

/-- The range-based loop `for (auto& v : s) acc = f(acc, v);`, which runs a pointer from
`begin()` up to `end()` and reads the element it points to; `none` when a read lies outside the
span. -/
def forEach {σ : Type} (s : span T Size) (f : σ → T → σ) (init : σ) : Option σ :=
  (List.range' s.beginOffset (s.endOffset - s.beginOffset)).foldlM
    (fun acc (i : Nat) => (s.subscript (i : Int)).map (f acc)) init

end span

namespace process_test

/-- Source: the test `variadic/process_test`, `main`: the two channels `c1 = { 4.0f }` and
`c2 = { 3.0f }` of 16 samples each, constructed over the content `u`, are the two elements of
`data.data`; `z` accumulates every sample of every channel and is returned as an `int`. -/
def main (u : span ℚ 16) : Option Int :=
  (span.fromInitializerList u [4]).bind fun c1 =>
  (span.fromInitializerList u [3]).bind fun c2 =>
  ([c1, c2].foldlM (fun (z : ℚ) (ch : span ℚ 16) => ch.forEach (fun z s => z + s) z) 0).map floatToInt

end process_test

namespace Interleaver

variable {T : Type}

/-- Source: `Interleaver::interleave(float* src, int numFrames, int numChannels)`.  The buffer
`dst` comes from `alloca` with the content `uninit` (addressed from `0`); the two loops fill it,
and `memcpy(src, dst, numBytes)` copies its `numChannels * numFrames` elements back. -/
def interleave (mem : Memory T) (uninit : Int → T) (src numFrames numChannels : Int) :
    Memory T :=
  let dst := (List.range numFrames.toNat).foldl
    (fun dst (i : Nat) =>
      (List.range numChannels.toNat).foldl
        (fun dst (j : Nat) =>
          let targetIndex := (i : Int) * numChannels + (j : Int)
          let sourceIndex := (j : Int) * numFrames + (i : Int)
          Function.update dst targetIndex (mem (src + sourceIndex)))
        dst)
    uninit
  fun a => if src ≤ a ∧ a < src + numChannels * numFrames then dst (a - src) else mem a

/-- Source: `Interleaver::interleaveRaw(float* src, int numFrames, int numChannels)`. -/
def interleaveRaw (mem : Memory T) (uninit : Int → T) (src numFrames numChannels : Int) :
    Memory T :=
  interleave mem uninit src numFrames numChannels

/-- Source: `Interleaver::interleave(dyn<span<T, NumChannels>>& t)`, the call
`interleave(src, NumChannels, numFrames)` on the memory of the frames, with `numFrames = t.size`
and `src = t.begin()->begin()`: the channel-major memory that the returned views refer to. -/
def interleaveFrames (mem : Memory T) (uninit : Int → T) (t : dyn) (NumChannels : Nat) :
    Memory T :=
  let numFrames := t.size_
  let src := t.data
  interleave mem uninit src (NumChannels : Int) numFrames

/-- The index map of the transposition on the flat indexes of a buffer of `F * C` samples:
the frame-major index `t = i * C + j` is sent to the channel-major index `j * F + i`. -/
def transposeIndex (F C : Nat) (t : Nat) : Nat := (t % C) * F + t / C

end Interleaver

/-- The data types of `ExternalData::DataType` below `numDataTypes`. -/
inductive ExternalData.DataType where
  | Table
  | SliderPack
  | AudioFile
  | FilterCoefficients
  | DisplayBuffer
deriving DecidableEq, Repr

/-- The function `ExternalData::forEachType(f)`, declared in `snex_ExternalData.h` and defined
outside src/: `f` is called once for every data type below `numDataTypes`, in the order of the
enum. -/
def ExternalData.forEachType {σ : Type} (f : σ → ExternalData.DataType → σ) (s : σ) : σ :=
  [ExternalData.DataType.Table, ExternalData.DataType.SliderPack,
    ExternalData.DataType.AudioFile, ExternalData.DataType.FilterCoefficients,
    ExternalData.DataType.DisplayBuffer].foldl f s

/-- The virtual methods of `ExternalDataHolder` that `clearAllDataObjects` calls, over the state
`σ` of the holder. -/
structure ExternalDataHolder (σ : Type) where
  /-- The method `getNumDataObjects(t)`. -/
  getNumDataObjects : σ → ExternalData.DataType → Int
  /-- The method `removeDataObject(t, index)`: the flag returned and the holder after the call. -/
  removeDataObject : σ → ExternalData.DataType → Int → Bool × σ

namespace ExternalDataHolder

variable {σ : Type}

/-- Source: `ExternalDataHolder::clearAllDataObjects()`: for every type,
`int numObjects = getNumDataObjects(t); for (int i = 0; i < numObjects; i++)
removeDataObject(t, i);`. -/
def clearAllDataObjects (h : ExternalDataHolder σ) (s : σ) : σ :=
  ExternalData.forEachType
    (fun s t =>
      let numObjects := h.getNumDataObjects s t
      (List.range numObjects.toNat).foldl
        (fun s (i : Nat) => (h.removeDataObject s t (i : Int)).2) s)
    s

/-- A holder that keeps a list of objects for every data type: `getNumDataObjects(t)` is the
length of the list, and `removeDataObject(t, i)` removes the object at index `i` of type `t`, the
later objects moving down by one; an index outside the list removes nothing and returns
`false`. -/
def listHolder (Obj : Type) : ExternalDataHolder (ExternalData.DataType → List Obj) where
  getNumDataObjects := fun s t => ((s t).length : Int)
  removeDataObject := fun s t i =>
    if 0 ≤ i ∧ i < ((s t).length : Int) then
      (true, Function.update s t ((s t).eraseIdx i.toNat))
    else (false, s)

end ExternalDataHolder

end snex

namespace juce

/-- The digit loop of `CharacterFunctions::getIntValue`:
`if (c >= '0' && c <= '9') v = v * 10 + (c - '0'); else break;`. -/
def getIntValueLoop : Str → Int → Int
  | [], v => v
  | c :: cs, v =>
    if c.isDigit then getIntValueLoop cs (v * 10 + ((c.toNat : Int) - 48)) else v

/-- JUCE `String::getIntValue ()`: leading whitespace is skipped, a `-` makes the number
negative, and the digits up to the first other character are read (no digits give `0`).  The
value is an unbounded integer here. -/
def getIntValue (s : Str) : Int :=
  match s.dropWhile Char.isWhitespace with
  | '-' :: rest => - getIntValueLoop rest 0
  | rest => getIntValueLoop rest 0

/-- JUCE `isPowerOfTwo (value)`, `return (value & (value - 1)) == 0;`. -/
def isPowerOfTwo (value : Int) : Bool := decide (scriptnode.intAnd value (value - 1) = 0)

/-- JUCE `ValueTree::removeChild (child, undoManager)` for the child at position `index`
(`indexOf (child)`): the later children move down by one. -/
def ValueTree.removeChild (v : ValueTree) (index : Nat) : ValueTree :=
  .mk v.getType v.properties (v.children.eraseIdx index)

end juce

namespace scriptnode

open juce hise

namespace PolyData

variable {T : Type} {NumVoices : Nat}

/-- Source: the constructor `PolyData(T initValue) { setAll(initValue); }`, entered with the
content `u` of the array `data` before the body runs and with `voicePtr = nullptr`, its default
member initialiser. -/
def construct (u : Fin NumVoices → T) (initValue : T) : Option (PolyData T NumVoices) :=
  setAll { data := u, voicePtr := none } initValue

end PolyData

namespace FixedBlockXNode

/-- The state of `FixedBlockXNode::DynamicBlockProperty` that `updateBlockSize` and `process`
touch: `int blockSize = 64;`. -/
structure DynamicBlockProperty where
  /-- The field `int blockSize`. -/
  blockSize : Int
deriving DecidableEq, Repr

namespace DynamicBlockProperty

/-- Source: `DynamicBlockProperty::updateBlockSize(Identifier id, var newValue)`: the property
after the call, and whether `parent->prepare(originalSpecs)` was called. -/
def updateBlockSize (_p : DynamicBlockProperty) (newValue : var) : DynamicBlockProperty × Bool :=
  let blockSize := getIntValue newValue.toString
  if blockSize > 7 && isPowerOfTwo blockSize then (⟨blockSize⟩, true)
  else (⟨64⟩, false)

/-- Source: `DynamicBlockProperty::process(obj, pf, data)`, the `switch (blockSize)`: the `N` of
the `wrap::static_functions::fix_block<N>::process` that is called, `none` when no case matches
and nothing is called. -/
def process (p : DynamicBlockProperty) : Option Nat :=
  if p.blockSize = 8 then some 8
  else if p.blockSize = 16 then some 16
  else if p.blockSize = 32 then some 32
  else if p.blockSize = 64 then some 64
  else if p.blockSize = 128 then some 128
  else if p.blockSize = 256 then some 256
  else if p.blockSize = 512 then some 512
  else none

end DynamicBlockProperty

end FixedBlockXNode

/-- The var `parentNode` handed to `NodeBase::setParent`: a var that holds the network object
itself, or any other var. -/
inductive ParentVar where
  | network
  | value (v : var)

/-- What `setParent` does to the tree of the new parent: nothing, or
`pNode->getNodeTree().addChild(getValueTree(), indexInParent, undoManager)`. -/
inductive SetParentEffect where
  | nothing
  | addChild (pNode : NodeBase) (indexInParent : Int)

/-- The outcome of `setParent`: the message handed to `reportScriptError` (`none` when it is not
called), the tree the node was a child of before the call as it is after the call (`none` when
the node had no parent), and what was done to the new parent. -/
structure SetParentResult where
  /-- The message of `reportScriptError`. -/
  error : Option Str
  /-- The previous parent tree after the call. -/
  previousParent : Option ValueTree
  /-- The edit of the new parent. -/
  effect : SetParentEffect

/-- Source: `NodeBase::setParent(var parentNode, int indexInParent)` for a node whose tree is the
child at position `location.2` of the tree `location.1` (`getValueTree().getParent()`, `none`
when it is invalid).  `rootNodeString` is the string that `var(network->getRootNode())` converts
to when it is handed to `DspNetwork::get(String)`.  The last statement,
`pNode->getNodeTree().removeChild(getValueTree(), ...)`, finds the tree of the node in no parent
any more, the first statement having removed it, and changes nothing. -/
def NodeBase.setParent (net : DspNetwork) (location : Option (ValueTree × Nat))
    (parentNode : ParentVar) (rootNodeString : Str) (indexInParent : Int) : SetParentResult :=
  let parentNode1 : Str :=
    match parentNode with
    | .network => rootNodeString
    | .value v => v.toString
  let previousParent := location.map (fun l => l.1.removeChild l.2)
  match ((net.get parentNode1).getObject).filter (fun n => n.isNodeContainer) with
  | some pNode =>
    { error := none, previousParent := previousParent,
      effect := SetParentEffect.addChild pNode indexInParent }
  | none =>
    { error :=
        if parentNode1 ≠ [] then
          some ("parent node ".toList ++ parentNode1 ++ " not found.".toList)
        else none,
      previousParent := previousParent,
      effect := SetParentEffect.nothing }

end scriptnode

/-! Part 2: properties -/

namespace scriptnode

theorem toBits32_mask (k : Nat) (hk : k ≤ 30) :
    toBits32 (((2 ^ k : Nat) : Int) - 1) = 2 ^ k - 1 := by
  have h1 : (1 : Int) ≤ ((2 ^ k : Nat) : Int) := by
    have : 1 ≤ 2 ^ k := Nat.one_le_two_pow
    exact_mod_cast this
  have h2 : ((2 ^ k : Nat) : Int) ≤ 2 ^ 30 := by
    have : 2 ^ k ≤ 2 ^ 30 := Nat.pow_le_pow_right (by decide) hk
    exact_mod_cast this
  unfold toBits32
  rw [Int.emod_eq_of_lt (by omega) (by omega)]
  omega

theorem getVoiceIndex_eq_emod (k : Nat) (hk : k ≤ 30) (v : Int) :
    PolyData.getVoiceIndex (2 ^ k) v = v % ((2 ^ k : Nat) : Int) := by
  unfold PolyData.getVoiceIndex intAnd
  rw [toBits32_mask k hk, Nat.and_pow_two_sub_one_eq_mod]
  have hlt : toBits32 v % 2 ^ k < 2 ^ k := Nat.mod_lt _ (Nat.two_pow_pos k)
  have hle : 2 ^ k ≤ 2 ^ 30 := Nat.pow_le_pow_right (by decide) hk
  have h31 : toBits32 v % 2 ^ k < 2 ^ 31 := by omega
  unfold ofBits32
  rw [if_pos h31, Int.natCast_mod]
  unfold toBits32
  rw [Int.toNat_of_nonneg (Int.emod_nonneg _ (by norm_num))]
  have hdvd : ((2 ^ k : Nat) : Int) ∣ (2 : Int) ^ 32 := by
    have : (2 : Int) ^ 32 = 2 ^ k * 2 ^ (32 - k) := by
      rw [← pow_add]; congr 1; omega
    rw [this]; push_cast; exact Dvd.intro _ rfl
  exact Int.emod_emod_of_dvd v hdvd

theorem PolyData.foldlM_writeAt {T : Type} {N : Nat} (value : T) (n : Nat) (hn : n ≤ N)
    (pd : PolyData T N) :
    (List.range n).foldlM (fun acc (i : Nat) => PolyData.writeAt acc (i : Int) value) pd
      = some { data := fun j => if j.val < n then value else pd.data j,
               voicePtr := pd.voicePtr } := by
  induction n with
  | zero => simp
  | succ n ih =>
    rw [List.range_succ, List.foldlM_append, ih (by omega)]
    have hb : (0 : Int) ≤ (n : Int) ∧ (n : Int) < (N : Int) := by omega
    simp only [List.foldlM_cons, List.foldlM_nil, PolyData.writeAt, dif_pos hb, Option.some_bind,
      Option.bind_some, bind, pure]
    congr 2
    funext j
    by_cases hj : j.val = n
    · have : j = ⟨(n : Int).toNat, by omega⟩ := Fin.ext (by simp [hj])
      rw [this, Function.update_same]
      simp
    · have hne : j ≠ ⟨(n : Int).toNat, by omega⟩ := fun h => hj (by rw [h]; simp)
      rw [Function.update_noteq hne]
      by_cases hlt : j.val < n
      · simp [hlt, Nat.lt_succ_of_lt hlt]
      · have : ¬ j.val < n + 1 := by omega
        simp [hlt, this]

theorem PolyData.setAll_poly {T : Type} {N : Nat} (hN : 1 < N) (pd : PolyData T N) (p : Nat)
    (hp : pd.voicePtr = some p) (value : T) :
    pd.setAll value = some { data := fun _ => value, voicePtr := some p } := by
  have hs : pd.isShared = false := by
    simp [PolyData.isShared, PolyData.isPolyphonic, hN, hp]
  unfold PolyData.setAll PolyData.endOffset
  simp only [hs, Bool.false_eq_true, if_false]
  rw [PolyData.foldlM_writeAt value N (le_refl N) pd, hp]
  simp

theorem PolyData.getSlot_poly {T : Type} (k : Nat) (hk1 : 1 ≤ k) (hk : k ≤ 30)
    (pd : PolyData T (2 ^ k)) (p : Nat) (hp : pd.voicePtr = some p) (mem : VoiceMemory) :
    pd.getSlot mem = some (mem p % ((2 ^ k : Nat) : Int)) := by
  have hN : 1 < 2 ^ k := Nat.one_lt_two_pow (by omega)
  have hs : pd.isShared = false := by
    simp [PolyData.isShared, PolyData.isPolyphonic, hN, hp]
  unfold PolyData.getSlot PolyData.getCurrentVoiceIndex
  simp only [hs, Bool.false_eq_true, if_false, hp, Option.map_some']
  rw [getVoiceIndex_eq_emod k hk]

theorem PolyData.get_of_slot {T : Type} {N : Nat} (pd : PolyData T N) (mem : VoiceMemory)
    (i : Int) (hs : pd.getSlot mem = some i) (hi : 0 ≤ i ∧ i < (N : Int)) :
    pd.get mem = some (pd.data ⟨i.toNat, by omega⟩) := by
  simp [PolyData.get, hs, PolyData.readAt, hi]

/-- C1. `PolyData<T,N>::get()` returns the shared slot 0 when `N == 1` or no voice-index pointer
is bound.  Otherwise (`N > 1`, pointer bound to address `p`), for `N = 2 ^ k` a power of two that
fits an `int` and for every voice index `v = mem p` whatsoever (negative and out-of-range values
included), the slot index `v & (N - 1)` equals the Euclidean `v mod N`, lies in `[0, N)`, and
`get()` returns that slot of `data`. -/
theorem polyData_get_slot {T : Type} (N : Nat) (hN : 0 < N) (pd : PolyData T N)
    (mem : VoiceMemory) :
    ((N = 1 ∨ pd.voicePtr = none) →
        pd.getSlot mem = some 0 ∧ pd.get mem = some (pd.data ⟨0, hN⟩)) ∧
    (∀ k p : Nat, N = 2 ^ k → k ≤ 30 → 1 < N → pd.voicePtr = some p →
        PolyData.getVoiceIndex N (mem p) = mem p % (N : Int) ∧
        0 ≤ mem p % (N : Int) ∧ mem p % (N : Int) < (N : Int) ∧
        pd.getSlot mem = some (mem p % (N : Int)) ∧
        ∃ i : Fin N, (i.val : Int) = mem p % (N : Int) ∧ pd.get mem = some (pd.data i)) := by
  constructor
  · intro h
    have hs : pd.isShared = true := by
      rcases h with h | h
      · simp [PolyData.isShared, PolyData.isPolyphonic, h]
      · simp [PolyData.isShared, h]
    have h0 : pd.getSlot mem = some 0 := by simp [PolyData.getSlot, hs]
    refine ⟨h0, ?_⟩
    have := PolyData.get_of_slot pd mem 0 h0 ⟨le_refl 0, by exact_mod_cast hN⟩
    simpa using this
  · intro k p hNk hk h1 hp
    subst hNk
    have hk1 : 1 ≤ k := by
      rcases Nat.eq_zero_or_pos k with h | h
      · subst h; simp at h1
      · exact h
    have hpos : (0 : Int) < ((2 ^ k : Nat) : Int) := by exact_mod_cast hN
    have hnn : 0 ≤ mem p % ((2 ^ k : Nat) : Int) := Int.emod_nonneg _ (ne_of_gt hpos)
    have hlt : mem p % ((2 ^ k : Nat) : Int) < ((2 ^ k : Nat) : Int) := Int.emod_lt_of_pos _ hpos
    have hslot := PolyData.getSlot_poly k hk1 hk pd p hp mem
    refine ⟨getVoiceIndex_eq_emod k hk (mem p), hnn, hlt, hslot, ?_⟩
    refine ⟨⟨(mem p % ((2 ^ k : Nat) : Int)).toNat, by omega⟩, ?_, ?_⟩
    · exact Int.toNat_of_nonneg hnn
    · exact PolyData.get_of_slot pd mem _ hslot ⟨hnn, hlt⟩

/-- Witness for C1: four voices, the pointer bound to address 0 where the voice index is `-3`;
the slot is `(-3) mod 4`. -/
theorem polyData_get_slot_witness :
    PolyData.getVoiceIndex 4 (-3) = (-3) % ((4 : Nat) : Int) ∧
    PolyData.getSlot (⟨fun i => i.val, some 0⟩ : PolyData Nat 4) (fun _ => -3)
      = some ((-3) % ((4 : Nat) : Int)) :=
  have h := (polyData_get_slot 4 (by decide) (⟨fun i => i.val, some 0⟩ : PolyData Nat 4)
    (fun _ => -3)).2 2 0 (by decide) (by decide) (by decide) rfl
  ⟨h.1, h.2.2.2.1⟩

/-- C2 refuted as stated: `N = 3` is greater than 1 but no power of two, and `index & (N - 1)`
is `index & 2`, which sends the voice indexes `0` and `1` both to slot `0`.  After `setAll(0)`,
writing `7` through `get()` while the voice index is `1` makes `get()` return `7` at the voice
index `1` and also at the other voice index `0`, which no longer holds `0`. -/
theorem polyData_three_voices_share_slot :
    PolyData.getVoiceIndex 3 0 = 0 ∧
    PolyData.getVoiceIndex 3 1 = 0 ∧
    ((PolyData.prepare (⟨fun _ => 5, none⟩ : PolyData Int 3) ⟨some 0⟩).setAll 0).bind
        (fun pd1 => (pd1.assignGet (fun _ => 1) 7).map
          (fun pd2 => (pd2.get (fun _ => 1), pd2.get (fun _ => 0))))
      = some (some 7, some 7) := by
  decide

/-- C2 amended: for a `PolyData<T,N>` with `N = 2 ^ k > 1`, a power of two as `prepare` asserts
(`k` at most 30, so that `N` is an `int`), prepared with a bound voice-index pointer `p`: after
`setAll(a)`, writing `b` through `get()` while the voice index is `i` makes `get()` return `b` at
voice index `i` and still `a` at every other voice index `j`, for `i` and `j` in `[0, N)`, the
range asserted by `getCurrentVoiceIndex`. -/
theorem polyData_write_one_voice {T : Type} (k : Nat) (hk1 : 1 ≤ k) (hk : k ≤ 30)
    (pd : PolyData T (2 ^ k)) (p : Nat) (a b : T) (i j : Int) (memI memJ : VoiceMemory)
    (hi : 0 ≤ i ∧ i < ((2 ^ k : Nat) : Int)) (hj : 0 ≤ j ∧ j < ((2 ^ k : Nat) : Int))
    (hij : j ≠ i) (hmi : memI p = i) (hmj : memJ p = j) :
    ∃ pd1 pd2 : PolyData T (2 ^ k),
      (pd.prepare ⟨some p⟩).setAll a = some pd1 ∧
      pd1.assignGet memI b = some pd2 ∧
      pd2.get memI = some b ∧
      pd2.get memJ = some a := by
  have hN : 1 < 2 ^ k := Nat.one_lt_two_pow (by omega)
  have hall := PolyData.setAll_poly hN (pd.prepare ⟨some p⟩) p rfl a
  have hsI : ∀ q : PolyData T (2 ^ k), q.voicePtr = some p → q.getSlot memI = some i := by
    intro q hq
    rw [PolyData.getSlot_poly k hk1 hk q p hq memI, hmi, Int.emod_eq_of_lt hi.1 hi.2]
  have hsJ : ∀ q : PolyData T (2 ^ k), q.voicePtr = some p → q.getSlot memJ = some j := by
    intro q hq
    rw [PolyData.getSlot_poly k hk1 hk q p hq memJ, hmj, Int.emod_eq_of_lt hj.1 hj.2]
  refine ⟨_, ⟨Function.update (fun _ => a) ⟨i.toNat, by omega⟩ b, some p⟩, hall, ?_, ?_, ?_⟩
  · have h1 := hsI ⟨fun _ => a, some p⟩ rfl
    unfold PolyData.assignGet
    rw [h1]
    simp only [Option.some_bind, PolyData.writeAt]
    rw [dif_pos hi]
  · rw [PolyData.get_of_slot _ memI i (hsI ⟨_, some p⟩ rfl) hi]
    simp
  · rw [PolyData.get_of_slot _ memJ j (hsJ ⟨_, some p⟩ rfl) hj]
    have hne : (⟨j.toNat, by omega⟩ : Fin (2 ^ k)) ≠ ⟨i.toNat, by omega⟩ := by
      intro h
      have := congrArg Fin.val h
      simp only at this
      omega
    simp [Function.update_noteq hne]

/-- Witness for the amended C2, the scenario of the specification: `N = 4`, `a = 0`, `b = 7`,
written while the voice index is 2 and read back while it is 3. -/
theorem polyData_write_one_voice_witness :
    ∃ pd1 pd2 : PolyData Int (2 ^ 2),
      (PolyData.prepare (⟨fun _ => 5, none⟩ : PolyData Int (2 ^ 2)) ⟨some 0⟩).setAll 0 = some pd1 ∧
      pd1.assignGet (fun _ => 2) 7 = some pd2 ∧
      pd2.get (fun _ => 2) = some 7 ∧
      pd2.get (fun _ => 3) = some 0 :=
  polyData_write_one_voice 2 (by decide) (by decide) ⟨fun _ => 5, none⟩ 0 0 7 2 3
    (fun _ => 2) (fun _ => 3) (by decide) (by decide) (by decide) rfl rfl

theorem ModValue.getChangedValues_clean {α : Type} (v : α) (ds : List α) :
    ModValue.getChangedValues (⟨false, v⟩ : ModValue α) ds
      = (ds.map (fun d => (false, d)), ⟨false, v⟩) := by
  induction ds with
  | nil => rfl
  | cons d ds ih => simp [ModValue.getChangedValues, ModValue.getChangedValue, ih]

/-- C3. A set value is delivered exactly once: for every `ModValue` state `m` and value `v`, after
`setModValue(v)` the next `getChangedValue(d)` returns `true` and writes `v` into `d`, clearing the
dirty flag; every further `getChangedValue` call before the next set (any number of them, with any
arguments) returns `false` and leaves its argument and the state unchanged. -/
theorem modValue_delivered_once {α : Type} (m : ModValue α) (v d : α) :
    ((m.setModValue v).getChangedValue d).1 = true ∧
    ((m.setModValue v).getChangedValue d).2.1 = v ∧
    ((m.setModValue v).getChangedValue d).2.2.changed = false ∧
    ∀ ds : List α,
      ModValue.getChangedValues ((m.setModValue v).getChangedValue d).2.2 ds
        = (ds.map (fun e => (false, e)), ((m.setModValue v).getChangedValue d).2.2) := by
  have h : (m.setModValue v).getChangedValue d = (true, v, ⟨false, v⟩) := by
    simp [ModValue.setModValue, ModValue.getChangedValue]
  rw [h]
  exact ⟨rfl, rfl, rfl, fun ds => ModValue.getChangedValues_clean v ds⟩

end scriptnode

namespace snex

theorem tmod_neg_left (m n : Int) : (-m).tmod n = -(m.tmod n) := by
  rw [Int.tmod_def, Int.tmod_def, Int.neg_tdiv]
  ring

theorem span.wrapped_eq_emod (Size : Nat) (hS : 0 < Size) (value : Int) :
    span.wrapped Size value = value % (Size : Int) := by
  have hpos : (0 : Int) < (Size : Int) := by exact_mod_cast hS
  unfold span.wrapped
  by_cases hv : value ≥ 0
  · rw [if_pos hv]
    exact Int.tmod_eq_emod hv (le_of_lt hpos)
  · rw [if_neg hv]
    have hm : 0 ≤ -value := by omega
    have h1 : value.tmod (Size : Int) = -((-value) % (Size : Int)) := by
      have := tmod_neg_left (-value) (Size : Int)
      rw [neg_neg] at this
      rw [this, Int.tmod_eq_emod hm (le_of_lt hpos)]
    have hr0 : 0 ≤ (-value) % (Size : Int) := Int.emod_nonneg _ (ne_of_gt hpos)
    have hr1 : (-value) % (Size : Int) < (Size : Int) := Int.emod_lt_of_pos _ hpos
    rw [h1, Int.natAbs_neg, Int.natAbs_of_nonneg hr0]
    rw [Int.tmod_eq_emod (by omega) (le_of_lt hpos)]
    have hdecomp : (Size : Int) * (-value / (Size : Int)) + -value % (Size : Int) = -value :=
      Int.ediv_add_emod (-value) (Size : Int)
    have hval : value = ((Size : Int) - (-value) % (Size : Int))
        + (Size : Int) * (-(-value / (Size : Int)) - 1) := by
      linear_combination hdecomp
    conv_rhs => rw [hval]
    rw [Int.add_mul_emod_self_left]

theorem span.wrapped_range (Size : Nat) (hS : 0 < Size) (value : Int) :
    0 ≤ span.wrapped Size value ∧ span.wrapped Size value < (Size : Int) := by
  have hpos : (0 : Int) < (Size : Int) := by exact_mod_cast hS
  rw [span.wrapped_eq_emod Size hS]
  exact ⟨Int.emod_nonneg _ (ne_of_gt hpos), Int.emod_lt_of_pos _ hpos⟩

theorem span.clamped_range (Size : Nat) (hS : 0 < Size) (value : Int) :
    0 ≤ span.clamped Size value ∧ span.clamped Size value < (Size : Int) := by
  have hpos : (0 : Int) < (Size : Int) := by exact_mod_cast hS
  unfold span.clamped jlimit
  split_ifs <;> omega

theorem span.subscript_isSome {T : Type} {Size : Nat} (s : span T Size) (idx : Int)
    (h : 0 ≤ idx ∧ idx < (Size : Int)) : (s.subscript idx).isSome = true := by
  simp [span.subscript, h]

/-- C4. Periodicity of the wrapped index: for every span size `N > 0` and every integer `k` (so in
particular every `int` `k`, negative ones included, for which `k + N` does not overflow), the
integer conversions of `wrapped(k)` and `wrapped(k + N)` are equal, so `span[wrapped(k)]` and
`span[wrapped(k + N)]` address the same element. -/
theorem span_wrapped_periodic {T : Type} (N : Nat) (hN : 0 < N) (k : Int) (s : span T N) :
    span.wrapped N (k + (N : Int)) = span.wrapped N k ∧
    s.subscript (span.wrapped N (k + (N : Int))) = s.subscript (span.wrapped N k) := by
  have h : span.wrapped N (k + (N : Int)) = span.wrapped N k := by
    rw [span.wrapped_eq_emod N hN, span.wrapped_eq_emod N hN, Int.add_emod_self]
  exact ⟨h, by rw [h]⟩

/-- Witness for C4: a span of 6 elements, `k = -7`; both indexes resolve to element 5. -/
theorem span_wrapped_periodic_witness :
    span.wrapped 6 (-7 + ((6 : Nat) : Int)) = span.wrapped 6 (-7) ∧
    span.subscript (⟨fun i => i.val⟩ : span Nat 6) (span.wrapped 6 (-7 + ((6 : Nat) : Int)))
      = span.subscript (⟨fun i => i.val⟩ : span Nat 6) (span.wrapped 6 (-7)) :=
  span_wrapped_periodic 6 (by decide) (-7) ⟨fun i => i.val⟩

/-- C5. For every span size `N > 0` and every `int` value `v`, the integer conversions of
`wrapped(v)` and `clamped(v)` lie in `[0, N)`, so `operator[]` with the wrap or clamp policy
addresses an element of the span; the third policy (`unsafe` in the source) passes `v` through
unchecked. -/
theorem span_index_policies_in_range {T : Type} (N : Nat) (hN : 0 < N) (v : Int)
    (s : span T N) :
    (0 ≤ span.wrapped N v ∧ span.wrapped N v < (N : Int)) ∧
    (0 ≤ span.clamped N v ∧ span.clamped N v < (N : Int)) ∧
    (s.subscript (span.wrapped N v)).isSome = true ∧
    (s.subscript (span.clamped N v)).isSome = true ∧
    span.unchecked N v = v :=
  ⟨span.wrapped_range N hN v, span.clamped_range N hN v,
    span.subscript_isSome s _ (span.wrapped_range N hN v),
    span.subscript_isSome s _ (span.clamped_range N hN v), rfl⟩

/-- Witness for C5: a span of 6 elements indexed with `-7`. -/
theorem span_index_policies_in_range_witness :
    (0 ≤ span.wrapped 6 (-7) ∧ span.wrapped 6 (-7) < ((6 : Nat) : Int)) ∧
    (0 ≤ span.clamped 6 (-7) ∧ span.clamped 6 (-7) < ((6 : Nat) : Int)) ∧
    (span.subscript (⟨fun i => i.val⟩ : span Nat 6) (span.wrapped 6 (-7))).isSome = true ∧
    (span.subscript (⟨fun i => i.val⟩ : span Nat 6) (span.clamped 6 (-7))).isSome = true ∧
    span.unchecked 6 (-7) = -7 :=
  span_index_policies_in_range 6 (by decide) (-7) ⟨fun i => i.val⟩

/-- C6. Aliasing of `dyn::referTo`: after `d.referTo(c)` with the default size `-1` and offset `0`
on a container `c` of size `n > 0`, the view has size `n`; for every `i` in `[0, n)`, writing `x`
to `d[i]` sets `c[i]` to `x` and leaves every other memory cell, so every other element of `c`,
unchanged; and reading `d[i]` returns `c[i]`: the view and the container share their storage. -/
theorem dyn_referTo_aliases {T : Type} (mem : Memory T) (d : dyn) (c : Container)
    (_hn : 0 < c.size) (i : Int) (_hi : 0 ≤ i ∧ i < c.size) (x : T) :
    (d.referTo c (-1) 0).size_ = c.size ∧
    (d.referTo c (-1) 0).data = c.begin ∧
    c.elem (dyn.write mem (d.referTo c (-1) 0) i x) i = x ∧
    (∀ j : Int, j ≠ i → c.elem (dyn.write mem (d.referTo c (-1) 0) i x) j = c.elem mem j) ∧
    (∀ a : Int, a ≠ c.begin + i → dyn.write mem (d.referTo c (-1) 0) i x a = mem a) ∧
    dyn.read mem (d.referTo c (-1) 0) i = c.elem mem i := by
  have hd : d.referTo c (-1) 0 = { size_ := c.size, data := c.begin } := by
    simp [dyn.referTo, dyn.referToRawData]
  rw [hd]
  refine ⟨rfl, rfl, ?_, ?_, ?_, rfl⟩
  · simp [Container.elem, dyn.write]
  · intro j hj
    have : c.begin + j ≠ c.begin + i := fun h => hj (by omega)
    simp [Container.elem, dyn.write, Function.update_noteq this]
  · intro a ha
    simp [dyn.write, Function.update_noteq ha]

/-- Witness for C6: a container of three elements at address 10, written at index 1. -/
theorem dyn_referTo_aliases_witness :
    (dyn.referTo ⟨0, 0⟩ ⟨10, 3⟩ (-1) 0).size_ = 3 ∧
    Container.elem (dyn.write (fun a => a) (dyn.referTo ⟨0, 0⟩ ⟨10, 3⟩ (-1) 0) 1 77) ⟨10, 3⟩ 1
      = (77 : Int) :=
  have h := dyn_referTo_aliases (fun a => a) ⟨0, 0⟩ ⟨10, 3⟩ (by decide) 1 (by decide) (77 : Int)
  ⟨h.1, h.2.2.1⟩

theorem dyn.splitLoop_length (newSize : Int) (n : Nat) (d : Int) :
    (dyn.splitLoop newSize n d).length = n := by
  induction n generalizing d with
  | zero => rfl
  | succ n ih => simp [dyn.splitLoop, ih]

theorem dyn.splitLoop_get (newSize : Int) (n : Nat) (d : Int) (j : Nat) (hj : j < n) :
    (dyn.splitLoop newSize n d)[j]? = some { size_ := newSize, data := d + (j : Int) * newSize } := by
  induction n generalizing d j with
  | zero => omega
  | succ n ih =>
    cases j with
    | zero => simp [dyn.splitLoop]
    | succ j =>
      simp only [dyn.splitLoop, List.getElem?_cons_succ]
      rw [ih (d + newSize) j (by omega)]
      congr 2
      push_cast
      ring

/-- The index mapping of the sibling `dyn::split`: for a view of `N` elements and a channel
count `C > 0` with `N % C == 0`, `split<C>()` yields `C` sub-views of size `N / C`; element `i` of
sub-view `j` is element `j * (N / C) + i` of the flat view, for reads and for writes. -/
theorem dyn_split_index (T : Type) (mem : Memory T) (d : dyn) (N C : Nat) (hC : 0 < C)
    (_hdiv : N % C = 0) (hsize : d.size_ = (N : Int)) :
    (d.split C).length = C ∧
    ∀ j : Nat, j < C → ∃ e : dyn, (d.split C)[j]? = some e ∧ e.size_ = ((N / C : Nat) : Int) ∧
      ∀ (i : Int) (x : T),
        dyn.read mem e i = dyn.read mem d ((j : Int) * ((N / C : Nat) : Int) + i) ∧
        dyn.write mem e i x = dyn.write mem d ((j : Int) * ((N / C : Nat) : Int) + i) x := by
  have hq : d.size_.tdiv (C : Int) = ((N / C : Nat) : Int) := by
    rw [hsize, Int.tdiv_eq_ediv (by omega) (by omega)]
    norm_cast
  refine ⟨dyn.splitLoop_length _ _ _, ?_⟩
  intro j hj
  refine ⟨_, dyn.splitLoop_get _ C d.data j hj, hq, ?_⟩
  intro i x
  have ha : d.data + (j : Int) * ((N / C : Nat) : Int) + i
      = d.data + ((j : Int) * ((N / C : Nat) : Int) + i) := by ring
  simp only [dyn.read, dyn.write, hq, ha, and_self]

/-- The index mapping of `span::split` whenever no padding intervenes: if a sub-span's
`(N / C) * sizeof(T)` bytes are a multiple of 16, element `i` of sub-span `j` is at the byte offset
of element `j * (N / C) + i` of the flat span. -/
theorem span.splitByteOffset_of_aligned (sizeofT N C j i : Nat)
    (h16 : (sizeofT * (N / C)) % 16 = 0) :
    span.splitByteOffset sizeofT N C j i = span.byteOffset sizeofT (j * (N / C) + i) := by
  have hs : span.sizeofSpan sizeofT (N / C) = sizeofT * (N / C) := by
    unfold span.sizeofSpan span.alignment
    omega
  unfold span.splitByteOffset
  rw [hs]
  unfold span.byteOffset
  ring

/-- C7 at `span<float, 4>::split<2>()` (`sizeof(float) = 4`, `4 % 2 == 0`): a sub-span
`span<float, 2>` occupies 16 bytes, so element 0 of sub-span 1 lies 16 bytes after the start of
the flat span, whereas flat element `1 * (4 / 2) + 0 = 2` lies 8 bytes after it; the flat span
itself is only 16 bytes long, so the sub-span element is outside it. -/
theorem span_split_padding :
    4 % 2 = 0 ∧
    span.sizeofSpan 4 (4 / 2) = 16 ∧
    span.splitByteOffset 4 4 2 1 0 = 16 ∧
    span.byteOffset 4 (1 * (4 / 2) + 0) = 8 ∧
    ¬ (span.splitByteOffset 4 4 2 1 0 < span.sizeofSpan 4 4) := by
  decide

theorem floatToInt_of_nonneg (v : ℚ) (hv : 0 ≤ v) : floatToInt v = ⌊v⌋ := by
  unfold floatToInt
  rw [Rat.floor_def, Int.tdiv_eq_ediv (Rat.num_nonneg.mpr hv) (by positivity)]

theorem dyn.memcpy_inside {T : Type} (mem : Memory T) (dst src count i : Int)
    (hi : 0 ≤ i ∧ i < count) : dyn.memcpy mem dst src count (dst + i) = mem (src + i) := by
  unfold dyn.memcpy
  rw [if_pos (by omega)]
  congr 1
  omega

theorem dyn.memcpy_outside {T : Type} (mem : Memory T) (dst src count a : Int)
    (ha : ¬ (dst ≤ a ∧ a < dst + count)) : dyn.memcpy mem dst src count a = mem a := by
  unfold dyn.memcpy
  rw [if_neg ha]

/-- C9 refuted as stated: a view of one element at address 0 and a container `t` of two elements
at address 10 differ in size, yet the assertion of `copyTo` holds and the element of the view is
transferred into `t[0]` (which held 10 before and holds 0 afterwards); likewise `copyFrom` with a
view of two elements and a container of one. -/
theorem dyn_copy_unequal_sizes :
    (dyn.mk 1 0).size_ ≠ (Container.mk 10 2).size ∧
    dyn.copyToAssertion ⟨1, 0⟩ ⟨10, 2⟩ = true ∧
    Container.elem (fun a => a) ⟨10, 2⟩ 0 = 10 ∧
    Container.elem (dyn.copyTo (fun a => a) ⟨1, 0⟩ ⟨10, 2⟩) ⟨10, 2⟩ 0 = 0 ∧
    (dyn.mk 2 0).size_ ≠ (Container.mk 10 1).size ∧
    dyn.copyFromAssertion ⟨2, 0⟩ ⟨10, 1⟩ = true ∧
    dyn.read (dyn.copyFrom (fun a => a) ⟨2, 0⟩ ⟨10, 1⟩) ⟨2, 0⟩ 0 = 10 := by
  decide

/-- C9 amended: `copyTo(t)` trips its assertion exactly when the view is larger than `t`, and
`copyFrom(t)` exactly when the view is smaller than `t`; sizes that merely differ in the other
direction pass.  Whatever the sizes, `copyTo` transfers the `size()` elements of the view to the
front of `t` and `copyFrom` transfers the `t.size()` elements of `t` to the front of the view, and
neither changes any other memory cell. -/
theorem dyn_copy_assertions {T : Type} (mem : Memory T) (d : dyn) (t : Container) :
    (dyn.copyToAssertion d t = false ↔ t.size < d.size_) ∧
    (dyn.copyFromAssertion d t = false ↔ d.size_ < t.size) ∧
    (∀ i : Int, 0 ≤ i ∧ i < d.size_ → t.elem (dyn.copyTo mem d t) i = dyn.read mem d i) ∧
    (∀ a : Int, ¬ (t.begin ≤ a ∧ a < t.begin + d.size_) → dyn.copyTo mem d t a = mem a) ∧
    (∀ i : Int, 0 ≤ i ∧ i < t.size → dyn.read (dyn.copyFrom mem d t) d i = t.elem mem i) ∧
    (∀ a : Int, ¬ (d.data ≤ a ∧ a < d.data + t.size) → dyn.copyFrom mem d t a = mem a) := by
  refine ⟨?_, ?_, ?_, ?_, ?_, ?_⟩
  · simp [dyn.copyToAssertion]
  · simp [dyn.copyFromAssertion]
  · intro i hi
    exact dyn.memcpy_inside mem t.begin d.data d.size_ i hi
  · intro a ha
    exact dyn.memcpy_outside mem t.begin d.data d.size_ a ha
  · intro i hi
    exact dyn.memcpy_inside mem d.data t.begin t.size i hi
  · intro a ha
    exact dyn.memcpy_outside mem d.data t.begin t.size a ha

end snex

namespace scriptnode

/-- C10 refuted as stated: two unconnected parameters with the same range `[0, 1]` and persisted
values `0` and `1` are both sent `setValue(1/2)`; `getValue()` then returns `0` for the first and
`1` for the second, not `1/2`, so no conversion of the value set through the range describes what
is read back. -/
theorem parameter_setValue_not_stored :
    Parameter.getValue (⟨fun d _ => d, fun _ => 0⟩ : DynamicBase Unit ℚ)
      (Parameter.setValue ⟨fun d _ => d, fun _ => 0⟩
        (⟨0, (0, 1), none⟩ : Parameter Unit ℚ (ℚ × ℚ)) (1 / 2)) = 0 ∧
    Parameter.getValue (⟨fun d _ => d, fun _ => 0⟩ : DynamicBase Unit ℚ)
      (Parameter.setValue ⟨fun d _ => d, fun _ => 0⟩
        (⟨1, (0, 1), none⟩ : Parameter Unit ℚ (ℚ × ℚ)) (1 / 2)) = 1 ∧
    ¬ ∃ convert : ℚ × ℚ → ℚ → ℚ,
        ∀ (p : Parameter Unit ℚ (ℚ × ℚ)) (v : ℚ), p.dynamicParameter = none →
          Parameter.getValue (⟨fun d _ => d, fun _ => 0⟩ : DynamicBase Unit ℚ)
            (Parameter.setValue ⟨fun d _ => d, fun _ => 0⟩ p v) = convert p.range v := by
  refine ⟨rfl, rfl, ?_⟩
  rintro ⟨convert, h⟩
  have h0 := h ⟨0, (0, 1), none⟩ (1 / 2) rfl
  have h1 := h ⟨1, (0, 1), none⟩ (1 / 2) rfl
  simp only [Parameter.setValue, Parameter.getValue] at h0 h1
  rw [← h1] at h0
  exact absurd h0 (by norm_num)

/-- C10 amended: for every unconnected `Parameter` (no dynamic target) and every value `v`,
`setValue(v)` changes nothing, so `getValue()` afterwards returns the value persisted before the
call; `setValueFromUI(v)` stores `v` itself, with no range conversion, as the persisted value, and
`getValue()` then returns `v`. -/
theorem parameter_unconnected_round_trip {D V R : Type} [DecidableEq V] (ops : DynamicBase D V)
    (p : Parameter D V R) (v : V) (h : p.dynamicParameter = none) :
    p.setValue ops v = p ∧
    (p.setValue ops v).getValue ops = p.value ∧
    (p.setValueFromUI ops v).value = v ∧
    (p.setValueFromUI ops v).dynamicParameter = none ∧
    (p.setValueFromUI ops v).getValue ops = v := by
  have hset : ∀ q : Parameter D V R, q.dynamicParameter = none → q.setValue ops v = q := by
    intro q hq
    simp [Parameter.setValue, hq]
  have hget : ∀ q : Parameter D V R, q.dynamicParameter = none → q.getValue ops = q.value := by
    intro q hq
    simp [Parameter.getValue, hq]
  have hui : p.setValueFromUI ops v = { p with value := v } := by
    unfold Parameter.setValueFromUI Parameter.updateFromValueTree
    by_cases hv : p.value = v
    · rw [if_pos hv]
      cases p
      simp_all
    · rw [if_neg hv]
      exact hset _ h
  refine ⟨hset p h, ?_, ?_, ?_, ?_⟩
  · rw [hset p h, hget p h]
  · rw [hui]
  · rw [hui]; exact h
  · rw [hui]
    exact hget { p with value := v } h

/-- Witness for C10: an unconnected parameter with range `[0, 1]` and persisted value `0`, and the
value `5` (outside the range). -/
theorem parameter_unconnected_round_trip_witness :
    Parameter.getValue (⟨fun d _ => d, fun _ => 0⟩ : DynamicBase Unit ℚ)
      (Parameter.setValue ⟨fun d _ => d, fun _ => 0⟩
        (⟨0, (0, 1), none⟩ : Parameter Unit ℚ (ℚ × ℚ)) 5) = 0 ∧
    Parameter.getValue (⟨fun d _ => d, fun _ => 0⟩ : DynamicBase Unit ℚ)
      (Parameter.setValueFromUI ⟨fun d _ => d, fun _ => 0⟩
        (⟨0, (0, 1), none⟩ : Parameter Unit ℚ (ℚ × ℚ)) 5) = 5 :=
  have h := parameter_unconnected_round_trip (⟨fun d _ => d, fun _ => 0⟩ : DynamicBase Unit ℚ)
    (⟨0, (0, 1), none⟩ : Parameter Unit ℚ (ℚ × ℚ)) 5 rfl
  ⟨h.2.1, h.2.2.2.2⟩

end scriptnode

namespace juce

theorem digitChar_isDigit (d : Nat) (hd : d < 10) :
    (Nat.digitChar d).isDigit = true ∧ ((Nat.digitChar d).toNat : Int) - 48 = (d : Int) := by
  interval_cases d <;> decide

theorem toDigitsCore_append (f n : Nat) (ds : List Char) :
    Nat.toDigitsCore 10 f n ds = Nat.toDigitsCore 10 f n [] ++ ds := by
  induction f generalizing n ds with
  | zero => simp [Nat.toDigitsCore]
  | succ f ih =>
    simp only [Nat.toDigitsCore]
    split
    · simp
    · rw [ih (n / 10) (Nat.digitChar (n % 10) :: ds), ih (n / 10) [Nat.digitChar (n % 10)]]
      simp

theorem toDigitsCore_reverse (f n : Nat) :
    (Nat.toDigitsCore 10 (f + 1) n []).reverse
      = Nat.digitChar (n % 10) ::
          (if n / 10 = 0 then [] else (Nat.toDigitsCore 10 f (n / 10) []).reverse) := by
  simp only [Nat.toDigitsCore]
  split
  · simp
  · rw [toDigitsCore_append]
    simp

theorem trailingIntLoop_digits (f n : Nat) (hf : n < f) (rest : Str) (a m : Int) :
    ∃ m1 : Int, trailingIntLoop ((Nat.toDigitsCore 10 f n []).reverse ++ rest) a m
      = trailingIntLoop rest (a + m * (n : Int)) m1 := by
  induction f generalizing n a m with
  | zero => omega
  | succ f ih =>
    rw [toDigitsCore_reverse]
    have hd := digitChar_isDigit (n % 10) (Nat.mod_lt _ (by decide))
    rw [List.cons_append, trailingIntLoop, if_pos hd.1, hd.2]
    by_cases h0 : n / 10 = 0
    · rw [if_pos h0]
      refine ⟨m * 10, ?_⟩
      have : n % 10 = n := Nat.mod_eq_of_lt (by omega)
      simp [this]
    · rw [if_neg h0]
      obtain ⟨m1, hm1⟩ := ih (n / 10) (by omega) (a + m * ((n % 10 : Nat) : Int)) (m * 10)
      refine ⟨m1, ?_⟩
      rw [hm1]
      congr 1
      have := Nat.div_add_mod n 10
      have h2 : (n : Int) = 10 * ((n / 10 : Nat) : Int) + ((n % 10 : Nat) : Int) := by
        exact_mod_cast this.symm
      rw [h2]
      push_cast
      ring

theorem toDigits_injective (a b : Nat) (h : Nat.toDigits 10 a = Nat.toDigits 10 b) : a = b := by
  obtain ⟨m1, h1⟩ := trailingIntLoop_digits (a + 1) a (by omega) [] 0 1
  obtain ⟨m2, h2⟩ := trailingIntLoop_digits (b + 1) b (by omega) [] 0 1
  have e : Nat.toDigitsCore 10 (a + 1) a [] = Nat.toDigitsCore 10 (b + 1) b [] := h
  rw [e, h2] at h1
  simp [trailingIntLoop] at h1
  exact_mod_cast h1.symm

theorem toDigitsCore_all_digits (f n : Nat) (ds : List Char)
    (hds : ∀ c ∈ ds, c.isDigit = true) : ∀ c ∈ Nat.toDigitsCore 10 f n ds, c.isDigit = true := by
  induction f generalizing n ds with
  | zero => simpa [Nat.toDigitsCore] using hds
  | succ f ih =>
    have hd := (digitChar_isDigit (n % 10) (Nat.mod_lt _ (by decide))).1
    have hds1 : ∀ c ∈ Nat.digitChar (n % 10) :: ds, c.isDigit = true := by
      intro c hc
      rcases List.mem_cons.mp hc with h | h
      · rw [h]; exact hd
      · exact hds c h
    simp only [Nat.toDigitsCore]
    split
    · exact hds1
    · exact ih (n / 10) _ hds1

theorem toDigits_all_digits (n : Nat) : ∀ c ∈ Nat.toDigits 10 n, c.isDigit = true :=
  toDigitsCore_all_digits (n + 1) n [] (by simp)

theorem toDigits_ne_nil (n : Nat) : Nat.toDigits 10 n ≠ [] := by
  intro h
  have h1 := congrArg List.reverse h
  have h2 : (Nat.toDigitsCore 10 (n + 1) n []).reverse = [] := by simpa [Nat.toDigits] using h1
  rw [toDigitsCore_reverse] at h2
  simp at h2

theorem fromInt_ne_nil (i : Int) : fromInt i ≠ [] := by
  unfold fromInt
  split
  · simp
  · exact toDigits_ne_nil _

theorem fromInt_injective (a b : Int) (h : fromInt a = fromInt b) : a = b := by
  unfold fromInt at h
  have hminus : ∀ n : Nat, ∀ l : List Char, '-' :: l ≠ Nat.toDigits 10 n := by
    intro n l hl
    have := toDigits_all_digits n '-' (by rw [← hl]; simp)
    simp at this
  by_cases ha : a < 0 <;> by_cases hb : b < 0
  · simp only [ha, hb, if_true, List.cons.injEq, true_and] at h
    have := toDigits_injective _ _ h
    omega
  · simp only [ha, hb, if_true, if_false] at h
    exact absurd h (hminus _ _)
  · simp only [ha, hb, if_true, if_false] at h
    exact absurd h.symm (hminus _ _)
  · simp only [ha, hb, if_false] at h
    have := toDigits_injective _ _ h
    omega

theorem startsWith_append_self (ds rest : Str) : startsWith (ds ++ rest) ds = true := by
  induction ds with
  | nil => cases rest <;> simp [startsWith]
  | cons d ds ih => simp [startsWith, ih]

theorem lastIndexOf_suffix (stem ds : Str) (hds : ds ≠ []) :
    lastIndexOf (stem ++ ds) ds = some stem.length := by
  unfold lastIndexOf
  rw [if_neg hds, if_pos (by simp)]
  have hlen : (stem ++ ds).length - ds.length = stem.length := by simp
  rw [hlen]
  have hself : startsWith ds ds = true := by simpa using startsWith_append_self ds []
  cases hs : stem.length with
  | zero =>
    have : stem = [] := List.length_eq_zero.mp hs
    subst this
    simp [lastIndexOfFrom, hself]
  | succ i =>
    have hdrop : (stem ++ ds).drop (i + 1) = ds := by
      rw [← hs]; simp
    simp [lastIndexOfFrom, hdrop, hself]

theorem upToLastOccurrenceOf_suffix (stem ds : Str) (hds : ds ≠ []) :
    upToLastOccurrenceOf (stem ++ ds) ds = stem := by
  unfold upToLastOccurrenceOf
  rw [lastIndexOf_suffix stem ds hds]
  simp

theorem getTrailingIntValue_no_digits (stem : Str)
    (hstem : ∀ c, stem.getLast? = some c → c.isDigit = false) : getTrailingIntValue stem = 0 := by
  unfold getTrailingIntValue
  cases hr : stem.reverse with
  | nil => rfl
  | cons c cs =>
    have hlast : stem.getLast? = some c := by
      rw [List.getLast?_eq_head?_reverse, hr]; rfl
    have := hstem c hlast
    simp [trailingIntLoop, this]

theorem getTrailingIntValue_digits (stem : Str) (n : Nat)
    (hstem : ∀ c, stem.getLast? = some c → c.isDigit = false ∧ c ≠ '-') :
    getTrailingIntValue (stem ++ Nat.toDigits 10 n) = (n : Int) := by
  unfold getTrailingIntValue
  rw [List.reverse_append]
  obtain ⟨m1, h1⟩ := trailingIntLoop_digits (n + 1) n (by omega) stem.reverse 0 1
  have e : Nat.toDigits 10 n = Nat.toDigitsCore 10 (n + 1) n [] := rfl
  rw [e, h1]
  cases hr : stem.reverse with
  | nil => simp [trailingIntLoop]
  | cons c cs =>
    have hlast : stem.getLast? = some c := by
      rw [List.getLast?_eq_head?_reverse, hr]; rfl
    have := hstem c hlast
    simp [trailingIntLoop, this.1, this.2]

end juce

namespace scriptnode

open juce hise

theorem DspNetwork.get_isObject_iff (net : DspNetwork) (id : Str) :
    (net.get id).isObject = true ↔
      id ≠ [] ∧ (id = net.id ∨ ∃ n ∈ net.nodes, n.getId = id) := by
  unfold DspNetwork.get
  by_cases h0 : id = []
  · simp [h0, ObjectVar.isObject]
  · by_cases h1 : id = net.id
    · subst h1
      rw [if_neg h0, if_pos rfl]
      simp [ObjectVar.isObject, h0]
    · rw [if_neg h0, if_neg h1]
      cases hf : net.nodes.find? (fun n => decide (n.getId = id)) with
      | none =>
        have hnone := List.find?_eq_none.mp hf
        simp only [ObjectVar.isObject, h0, h1, ne_eq, not_false_eq_true, false_or, true_and,
          Bool.false_eq_true, false_iff, not_exists, not_and]
        intro n hn hid
        have := hnone n hn
        simp [hid] at this
      | some n =>
        have hmem := List.mem_of_find?_eq_some hf
        have hp := List.find?_some hf
        simp only [decide_eq_true_eq] at hp
        simp only [ObjectVar.isObject, h0, h1, ne_eq, not_false_eq_true, false_or, true_and,
          true_iff]
        exact ⟨n, hmem, hp⟩

theorem DspNetwork.get_of_mem (net : DspNetwork) (id : Str) (h0 : id ≠ []) (h1 : id ≠ net.id)
    (hex : ∃ n ∈ net.nodes, n.getId = id) :
    ∃ n ∈ net.nodes, n.getId = id ∧ net.get id = ObjectVar.object (some n) := by
  unfold DspNetwork.get
  rw [if_neg h0, if_neg h1]
  cases hf : net.nodes.find? (fun n => decide (n.getId = id)) with
  | none =>
    obtain ⟨n, hn, hid⟩ := hex
    have := List.find?_eq_none.mp hf n hn
    simp [hid] at this
  | some n =>
    have hmem := List.mem_of_find?_eq_some hf
    have hp := List.find?_some hf
    simp only [decide_eq_true_eq] at hp
    exact ⟨n, hmem, hp, rfl⟩

/-- The ids that `getNonExistentId` treats as taken are among finitely many. -/
theorem DspNetwork.taken_mem (net : DspNetwork) (usedIds : List Str) (c : Str)
    (h : ((net.get c).isObject || decide (c ∈ usedIds)) = true) :
    c ∈ net.id :: (net.nodes.map NodeBase.getId ++ usedIds) := by
  rcases Bool.or_eq_true _ _ |>.mp h with h | h
  · rcases (net.get_isObject_iff c).mp h with ⟨_, h | ⟨n, hn, hid⟩⟩
    · simp [h]
    · simp only [List.mem_cons, List.mem_append, List.mem_map]
      exact Or.inr (Or.inl ⟨n, hn, hid⟩)
  · simp only [decide_eq_true_eq] at h
    simp [h]

theorem DspNetwork.exists_free (net : DspNetwork) (usedIds : List Str) (stem : Str) (t : Int) :
    ∃ j : Nat, j < net.nodes.length + usedIds.length + 2 ∧
      ((net.get (stem ++ fromInt (t + (j : Int)))).isObject
        || decide (stem ++ fromInt (t + (j : Int)) ∈ usedIds)) = false := by
  by_contra hcon
  push_neg at hcon
  have hall : ∀ j ∈ Finset.range (net.nodes.length + usedIds.length + 2),
      stem ++ fromInt (t + (j : Int))
        ∈ (net.id :: (net.nodes.map NodeBase.getId ++ usedIds)).toFinset := by
    intro j hj
    rw [List.mem_toFinset]
    apply net.taken_mem usedIds
    have := hcon j (Finset.mem_range.mp hj)
    simpa using (Bool.not_eq_false _).mp this
  have hcard : (net.id :: (net.nodes.map NodeBase.getId ++ usedIds)).toFinset.card
      < (Finset.range (net.nodes.length + usedIds.length + 2)).card := by
    have h1 := List.toFinset_card_le (net.id :: (net.nodes.map NodeBase.getId ++ usedIds))
    simp only [List.length_cons, List.length_append, List.length_map] at h1
    rw [Finset.card_range]
    omega
  obtain ⟨x, _, y, _, hxy, hf⟩ := Finset.exists_ne_map_eq_of_card_lt_of_maps_to hcard hall
  have h2 := fromInt_injective _ _ (List.append_cancel_left hf)
  omega

theorem DspNetwork.getNonExistentIdLoop_spec (net : DspNetwork) (usedIds : List Str) (stem : Str)
    (fuel : Nat) (t : Int)
    (h : ∃ j : Nat, j < fuel ∧
      ((net.get (stem ++ fromInt (t + (j : Int)))).isObject
        || decide (stem ++ fromInt (t + (j : Int)) ∈ usedIds)) = false) :
    ∃ j : Nat, j < fuel ∧
      net.getNonExistentIdLoop usedIds stem fuel t (stem ++ fromInt t)
        = some (stem ++ fromInt (t + (j : Int))) ∧
      ((net.get (stem ++ fromInt (t + (j : Int)))).isObject
        || decide (stem ++ fromInt (t + (j : Int)) ∈ usedIds)) = false ∧
      ∀ i : Nat, i < j →
        ((net.get (stem ++ fromInt (t + (i : Int)))).isObject
          || decide (stem ++ fromInt (t + (i : Int)) ∈ usedIds)) = true := by
  induction fuel generalizing t with
  | zero =>
    obtain ⟨j, hj, _⟩ := h
    omega
  | succ fuel ih =>
    by_cases ht : ((net.get (stem ++ fromInt t)).isObject
        || decide (stem ++ fromInt t ∈ usedIds)) = true
    · obtain ⟨j, hj, hfree⟩ := h
      have hj0 : j ≠ 0 := by
        intro h0
        subst h0
        simp only [Nat.cast_zero, add_zero] at hfree
        rw [hfree] at ht
        exact Bool.false_ne_true ht
      obtain ⟨j1, rfl⟩ : ∃ j1, j = j1 + 1 := ⟨j - 1, by omega⟩
      have e : ∀ k : Nat, t + 1 + (k : Int) = t + ((k + 1 : Nat) : Int) := by
        intro k; push_cast; ring
      obtain ⟨k, hk, hres, hkfree, hbelow⟩ := ih (t + 1) ⟨j1, by omega, by rw [e]; exact hfree⟩
      refine ⟨k + 1, by omega, ?_, by rw [← e]; exact hkfree, ?_⟩
      · rw [DspNetwork.getNonExistentIdLoop, if_pos ht, hres, e]
      · intro i hi
        cases i with
        | zero => simpa using ht
        | succ i =>
          rw [← e]
          exact hbelow i (by omega)
    · refine ⟨0, by omega, ?_, by simpa using ht, by intro i hi; omega⟩
      rw [DspNetwork.getNonExistentIdLoop, if_neg ht]
      simp

/-- Totality and postcondition of `getNonExistentId`: it always returns; an id that is not in use
is returned as it is, and otherwise the id returned is not empty, not in use and not in
`usedIds`. -/
theorem DspNetwork.getNonExistentId_spec (net : DspNetwork) (id : Str) (usedIds : List Str) :
    ∃ r used1, net.getNonExistentId id usedIds = some (r, used1) ∧
      ((net.get id).isObject = false → r = id ∧ used1 = usedIds) ∧
      ((net.get id).isObject = true →
        (net.get r).isObject = false ∧ r ∉ usedIds ∧ r ≠ [] ∧ used1 = usedIds ++ [r]) := by
  unfold DspNetwork.getNonExistentId
  by_cases hobj : (net.get id).isObject = true
  · simp only [hobj, Bool.not_true, Bool.false_eq_true, if_false]
    obtain ⟨j, _, hres, hfree, _⟩ := net.getNonExistentIdLoop_spec usedIds _ _ _
      (net.exists_free usedIds
        (if getTrailingIntValue id = 0 then id
          else upToLastOccurrenceOf id (fromInt (getTrailingIntValue id)))
        (getTrailingIntValue id + 1))
    rw [hres]
    refine ⟨_, _, rfl, by simp, fun _ => ?_⟩
    have h1 := Bool.or_eq_false_iff.mp hfree
    refine ⟨h1.1, by simpa using h1.2, ?_, rfl⟩
    intro hnil
    have := List.append_eq_nil.mp hnil
    exact fromInt_ne_nil _ this.2
  · have hobj1 : (net.get id).isObject = false := by simpa using hobj
    simp only [hobj1, Bool.not_false, if_true]
    exact ⟨_, _, rfl, fun _ => ⟨rfl, rfl⟩, by simp⟩

end scriptnode

namespace scriptnode

open juce hise

/-- C11. Idempotent create: `create(path, id, poly)` with a non-empty `id` that is the id of the
network (whose node is the root `signalPath`) or of a registered node returns the var that
`get(id)` yields, an object: the root for the id of the network, otherwise the first
registered node that carries `id`.  The network, so its registry, is left unchanged, whatever
factories, `path` and `poly` are given, and a second call with the same arguments returns the
same var and network again. -/
theorem dspNetwork_create_existing (nodeFactories : List NodeFactory) (net : DspNetwork)
    (path id : Str) (poly : Bool) (hne : id ≠ [])
    (hex : id = net.id ∨ ∃ n ∈ net.nodes, n.getId = id) :
    (net.get id).isObject = true ∧
    DspNetwork.create nodeFactories net path id poly = some (net.get id, net) ∧
    (id = net.id → net.get id = ObjectVar.object net.signalPath) ∧
    (id ≠ net.id → ∃ n ∈ net.nodes, n.getId = id ∧ net.get id = ObjectVar.object (some n)) ∧
    (DspNetwork.create nodeFactories net path id poly).bind
        (fun r => DspNetwork.create nodeFactories r.2 path id poly)
      = some (net.get id, net) := by
  have hobj : (net.get id).isObject = true := (net.get_isObject_iff id).mpr ⟨hne, hex⟩
  have hcreate : DspNetwork.create nodeFactories net path id poly = some (net.get id, net) := by
    unfold DspNetwork.create
    simp [hobj]
  refine ⟨hobj, hcreate, ?_, ?_, ?_⟩
  · intro h
    unfold DspNetwork.get
    rw [if_neg hne, if_pos h]
  · intro h
    rcases hex with h1 | h1
    · exact absurd h1 h
    · exact net.get_of_mem id hne h h1
  · rw [hcreate]
    simp [hcreate]

/-- Witness for C11: a network `net` whose registry holds the nodes `osc` and `osc1`; `create` is
called with the id `osc1`, an unrelated path and no factory. -/
theorem dspNetwork_create_existing_witness :
    DspNetwork.create []
        ⟨"net".toList, none,
          [⟨.mk PropertyIds.Node [(PropertyIds.ID, var.string "osc".toList)] [], false, false,
              false, []⟩,
           ⟨.mk PropertyIds.Node [(PropertyIds.ID, var.string "osc1".toList)] [], false, false,
              false, []⟩]⟩
        "core.gain".toList "osc1".toList true
      = some (DspNetwork.get
          ⟨"net".toList, none,
            [⟨.mk PropertyIds.Node [(PropertyIds.ID, var.string "osc".toList)] [], false, false,
                false, []⟩,
             ⟨.mk PropertyIds.Node [(PropertyIds.ID, var.string "osc1".toList)] [], false, false,
                false, []⟩]⟩
          "osc1".toList,
        ⟨"net".toList, none,
          [⟨.mk PropertyIds.Node [(PropertyIds.ID, var.string "osc".toList)] [], false, false,
              false, []⟩,
           ⟨.mk PropertyIds.Node [(PropertyIds.ID, var.string "osc1".toList)] [], false, false,
              false, []⟩]⟩) :=
  (dspNetwork_create_existing [] _ "core.gain".toList "osc1".toList true (by decide)
    (Or.inr ⟨⟨.mk PropertyIds.Node [(PropertyIds.ID, var.string "osc1".toList)] [], false,
      false, false, []⟩, by simp, by decide⟩)).2.1

/-- C13 refuted as stated: with the ids `osc0` and `osc` registered and `osc1` free,
`getNonExistentId("osc0")` does not strip the trailing `0`: the trailing number is `0`, which the
source takes for "no number", and the id returned is `osc01`, not `osc1`. -/
theorem getNonExistentId_trailing_zero :
    getTrailingIntValue "osc0".toList = 0 ∧
    (DspNetwork.get
        ⟨"net".toList, none,
          [⟨.mk PropertyIds.Node [(PropertyIds.ID, var.string "osc0".toList)] [], false, false,
              false, []⟩,
           ⟨.mk PropertyIds.Node [(PropertyIds.ID, var.string "osc".toList)] [], false, false,
              false, []⟩]⟩
        "osc1".toList).isObject = false ∧
    DspNetwork.getNonExistentId
        ⟨"net".toList, none,
          [⟨.mk PropertyIds.Node [(PropertyIds.ID, var.string "osc0".toList)] [], false, false,
              false, []⟩,
           ⟨.mk PropertyIds.Node [(PropertyIds.ID, var.string "osc".toList)] [], false, false,
              false, []⟩]⟩
        "osc0".toList []
      = some ("osc01".toList, ["osc01".toList]) := by
  decide

/-- C13 amended: for an id that is in use and has the form `stem` (no trailing digits, counted as
`n = 0`) or `stem + String(n)` with `n > 0` in decimal form without leading zeros, where `stem`
does not end in a digit nor, for `n > 0`, in `-`, `getNonExistentId` returns
`stem + String(m)` for the smallest `m > n` such that `stem + String(m)` is neither in use in the
network nor in `usedIds`, and appends that id to `usedIds`.  The numbers are taken small enough
for the `int` arithmetic of the source not to overflow. -/
theorem getNonExistentId_increments (net : DspNetwork) (usedIds : List Str) (stem id : Str)
    (n : Nat) (hused : (net.get id).isObject = true)
    (hid : id = if n = 0 then stem else stem ++ fromInt (n : Int))
    (hstem : ∀ c, stem.getLast? = some c → c.isDigit = false ∧ (n ≠ 0 → c ≠ '-'))
    (_hrange : n + net.nodes.length + usedIds.length + 2 < 10 ^ 9) :
    ∃ m : Nat, n < m ∧
      net.getNonExistentId id usedIds
        = some (stem ++ fromInt (m : Int), usedIds ++ [stem ++ fromInt (m : Int)]) ∧
      (net.get (stem ++ fromInt (m : Int))).isObject = false ∧
      stem ++ fromInt (m : Int) ∉ usedIds ∧
      ∀ k : Nat, n < k → k < m →
        (net.get (stem ++ fromInt (k : Int))).isObject = true
          ∨ stem ++ fromInt (k : Int) ∈ usedIds := by
  have hfromNat : ∀ k : Nat, fromInt (k : Int) = Nat.toDigits 10 k := by
    intro k
    simp [fromInt]
  have htrail : getTrailingIntValue id = (n : Int) := by
    by_cases h0 : n = 0
    · rw [hid, if_pos h0, h0]
      exact getTrailingIntValue_no_digits stem (fun c hc => (hstem c hc).1)
    · rw [hid, if_neg h0, hfromNat]
      exact getTrailingIntValue_digits stem n (fun c hc => ⟨(hstem c hc).1, (hstem c hc).2 h0⟩)
  have hstemEq : (if getTrailingIntValue id = 0 then id
      else upToLastOccurrenceOf id (fromInt (getTrailingIntValue id))) = stem := by
    rw [htrail]
    by_cases h0 : n = 0
    · simp [h0, hid]
    · have : ¬ ((n : Int) = 0) := by exact_mod_cast h0
      rw [if_neg this, hid, if_neg h0]
      exact upToLastOccurrenceOf_suffix stem _ (fromInt_ne_nil _)
  obtain ⟨j, _, hres, hfree, hbelow⟩ := net.getNonExistentIdLoop_spec usedIds stem
    (net.nodes.length + usedIds.length + 2) ((n : Int) + 1)
    (net.exists_free usedIds stem ((n : Int) + 1))
  have hcast : ∀ i : Nat, (n : Int) + 1 + (i : Int) = ((n + 1 + i : Nat) : Int) := by
    intro i; push_cast; ring
  refine ⟨n + 1 + j, by omega, ?_, ?_, ?_, ?_⟩
  · unfold DspNetwork.getNonExistentId
    rw [htrail] at hstemEq
    simp only [hused, Bool.not_true, Bool.false_eq_true, if_false, htrail, hstemEq]
    rw [hres, hcast]
  · rw [← hcast]
    exact (Bool.or_eq_false_iff.mp hfree).1
  · rw [← hcast]
    simpa using (Bool.or_eq_false_iff.mp hfree).2
  · intro k hk1 hk2
    have := hbelow (k - (n + 1)) (by omega)
    rw [hcast] at this
    have e : n + 1 + (k - (n + 1)) = k := by omega
    rw [e] at this
    simpa using this

/-- Witness for C13: the ids `osc` and `osc1` are registered and `osc2` is in `usedIds`; the id
`osc1` (`stem = osc`, `n = 1`) is resolved. -/
theorem getNonExistentId_increments_witness :
    ∃ m : Nat, 1 < m ∧
      DspNetwork.getNonExistentId
          ⟨"net".toList, none,
            [⟨.mk PropertyIds.Node [(PropertyIds.ID, var.string "osc".toList)] [], false, false,
                false, []⟩,
             ⟨.mk PropertyIds.Node [(PropertyIds.ID, var.string "osc1".toList)] [], false, false,
                false, []⟩]⟩
          "osc1".toList ["osc2".toList]
        = some ("osc".toList ++ fromInt (m : Int),
            ["osc2".toList] ++ ["osc".toList ++ fromInt (m : Int)]) :=
  have h := getNonExistentId_increments
    ⟨"net".toList, none,
      [⟨.mk PropertyIds.Node [(PropertyIds.ID, var.string "osc".toList)] [], false, false,
          false, []⟩,
       ⟨.mk PropertyIds.Node [(PropertyIds.ID, var.string "osc1".toList)] [], false, false,
          false, []⟩]⟩
    ["osc2".toList] "osc".toList "osc1".toList 1 (by decide) (by decide) (by decide) (by decide)
  h.imp fun _ hm => ⟨hm.1, hm.2.1⟩

end scriptnode

namespace juce

theorem getNamedValue_setNamedValue (p : List (Str × var)) (name : Str) (x : var) :
    getNamedValue (setNamedValue p name x) name = x := by
  induction p with
  | nil => simp [setNamedValue, getNamedValue]
  | cons kv ps ih =>
    obtain ⟨k, v⟩ := kv
    by_cases h : k = name
    · simp [setNamedValue, getNamedValue, h]
    · simp [setNamedValue, getNamedValue, h, ih]

theorem getNamedValue_setNamedValue_ne (p : List (Str × var)) (name other : Str) (x : var)
    (h : other ≠ name) :
    getNamedValue (setNamedValue p name x) other = getNamedValue p other := by
  induction p with
  | nil => simp [setNamedValue, getNamedValue, Ne.symm h]
  | cons kv ps ih =>
    obtain ⟨k, v⟩ := kv
    by_cases hk : k = name
    · subst hk
      simp [setNamedValue, getNamedValue, Ne.symm h]
    · by_cases hk2 : k = other
      · subst hk2
        simp [setNamedValue, getNamedValue, h]
      · simp [setNamedValue, getNamedValue, hk, hk2, ih]

theorem ValueTree.getProperty_setProperty (v : ValueTree) (name : Str) (x : var) :
    (v.setProperty name x).getProperty name = x := by
  cases v
  simp [ValueTree.setProperty, ValueTree.getProperty, ValueTree.properties,
    getNamedValue_setNamedValue]

theorem ValueTree.getProperty_modifyChildWithName (v : ValueTree) (type name : Str)
    (f : ValueTree → ValueTree) :
    (v.modifyChildWithName type f).getProperty name = v.getProperty name := by
  cases v
  simp [ValueTree.modifyChildWithName, ValueTree.getProperty, ValueTree.properties]

theorem ValueTree.depth_le_depthList (c : ValueTree) (cs : List ValueTree) (h : c ∈ cs) :
    c.depth ≤ ValueTree.depthList cs := by
  induction cs with
  | nil => simp at h
  | cons x xs ih =>
    rcases List.mem_cons.mp h with h | h
    · subst h
      simp [ValueTree.depthList]
    · have := ih h
      simp only [ValueTree.depthList]
      omega

theorem ValueTree.depth_child (v c : ValueTree) (h : c ∈ v.children) : c.depth < v.depth := by
  cases v with
  | mk t p cs =>
    have := ValueTree.depth_le_depthList c cs h
    simp only [ValueTree.depth]
    omega

theorem ValueTree.getChildWithName_mem (v c : ValueTree) (type : Str)
    (h : v.getChildWithName type = some c) : c ∈ v.children :=
  List.mem_of_find?_eq_some h

end juce

namespace scriptnode

open juce hise

theorem descriptionIdsIn_eq (cs : List ValueTree) :
    descriptionIdsIn cs =
      match cs.find? (fun c => c.hasType PropertyIds.Nodes) with
      | none => []
      | some cn => descriptionIdsOfList cn.children := by
  induction cs with
  | nil => simp [descriptionIdsIn]
  | cons c cs ih =>
    cases c with
    | mk t p gcs =>
      by_cases ht : t = PropertyIds.Nodes
      · simp [descriptionIdsIn, ht, List.find?, ValueTree.hasType, ValueTree.getType,
          ValueTree.children]
      · simp [descriptionIdsIn, ht, List.find?, ValueTree.hasType, ValueTree.getType, ih]

theorem descriptionIds_mem_of_mem (c : ValueTree) (cs : List ValueTree) (h : c ∈ cs) (x : Str)
    (hx : x ∈ descriptionIds c) : x ∈ descriptionIdsOfList cs := by
  induction cs with
  | nil => simp at h
  | cons y ys ih =>
    simp only [descriptionIdsOfList, List.mem_append]
    rcases List.mem_cons.mp h with h | h
    · subst h
      exact Or.inl hx
    · exact Or.inr (ih h)

theorem DspNetwork.updateId_of_root (net : DspNetwork) (n : NodeBase) (newId : Str)
    (hroot : net.signalPath.isSome = true) :
    ∃ r, net.updateId n newId = some r ∧ r.getId = newId ∧
      r.data = (n.setValueTreeProperty PropertyIds.ID (var.string newId)).data.modifyChildWithName
        PropertyIds.Parameters (foreach (DspNetwork.updateIds newId n.getId)) := by
  cases hsp : net.signalPath with
  | none => rw [hsp] at hroot; exact absurd hroot (by simp)
  | some root =>
    refine ⟨{ n.setValueTreeProperty PropertyIds.ID (var.string newId) with
        data := (n.setValueTreeProperty PropertyIds.ID (var.string newId)).data.modifyChildWithName
          PropertyIds.Parameters (foreach (DspNetwork.updateIds newId n.getId)) }, ?_, ?_, rfl⟩
    · simp only [DspNetwork.updateId, hsp]
    · simp [NodeBase.getId, NodeBase.setValueTreeProperty,
        ValueTree.getProperty_modifyChildWithName, ValueTree.getProperty_setProperty,
        var.toString]

theorem DspNetwork.updateId_of_null (net : DspNetwork) (n : NodeBase) (newId : Str)
    (hroot : net.signalPath = none) : net.updateId n newId = none := by
  simp only [DspNetwork.updateId, hroot]

theorem DspNetwork.resolveCollisions_of_not_mem (net : DspNetwork) (id : Str)
    (ns : List NodeBase) (c : NodeBase) (h : c.getId ∉ ns.map NodeBase.getId) :
    DspNetwork.resolveCollisions net id ns c = Outcome.ok c := by
  induction ns with
  | nil => rfl
  | cons n ns ih =>
    simp only [List.map_cons, List.mem_cons, not_or] at h
    rw [DspNetwork.resolveCollisions, if_neg h.1]
    exact ih h.2

theorem DspNetwork.resolveCollisions_spec (net : DspNetwork) (id newId : Str) (used1 : List Str)
    (hroot : net.signalPath.isSome = true)
    (hnew : net.getNonExistentId id [] = some (newId, used1))
    (ns : List NodeBase) (hfree : newId ∉ ns.map NodeBase.getId) (c : NodeBase) :
    ∃ r, DspNetwork.resolveCollisions net id ns c = Outcome.ok r ∧
      (r.getId = c.getId ∨ r.getId = newId) ∧ r.getId ∉ ns.map NodeBase.getId := by
  induction ns generalizing c with
  | nil => exact ⟨c, rfl, Or.inl rfl, by simp⟩
  | cons n ns ih =>
    simp only [List.map_cons, List.mem_cons, not_or] at hfree
    rw [DspNetwork.resolveCollisions]
    by_cases hc : c.getId = n.getId
    · rw [if_pos hc, hnew]
      obtain ⟨r, hr, hid, _⟩ := net.updateId_of_root c newId hroot
      simp only [hr]
      rw [DspNetwork.resolveCollisions_of_not_mem net id ns _ (by rw [hid]; exact hfree.2)]
      refine ⟨_, rfl, Or.inr hid, ?_⟩
      rw [hid]
      simp only [List.map_cons, List.mem_cons, not_or]
      exact hfree
    · rw [if_neg hc]
      obtain ⟨r, hr, hor, hnot⟩ := ih hfree.2 c
      refine ⟨r, hr, hor, ?_⟩
      simp only [List.map_cons, List.mem_cons, not_or]
      refine ⟨?_, hnot⟩
      rcases hor with h | h
      · rw [h]; exact hc
      · rw [h]; exact hfree.1

theorem DspNetwork.resolveCollisions_fresh (net : DspNetwork) (id : Str) (hne : id ≠ [])
    (hroot : net.signalPath.isSome = true) (c : NodeBase) :
    ∃ r, DspNetwork.resolveCollisions net id net.nodes c = Outcome.ok r ∧
      r.getId ∉ net.nodes.map NodeBase.getId := by
  obtain ⟨newId, used1, hnew, hfalse, htrue⟩ := net.getNonExistentId_spec id []
  have hfree : newId ∉ net.nodes.map NodeBase.getId := by
    intro hmem
    obtain ⟨n, hn, hnid⟩ := List.mem_map.mp hmem
    by_cases hobj : (net.get id).isObject = true
    · obtain ⟨h1, _, h3, _⟩ := htrue hobj
      have := (net.get_isObject_iff newId).mpr ⟨h3, Or.inr ⟨n, hn, hnid⟩⟩
      rw [h1] at this
      exact Bool.false_ne_true this
    · have hobj1 : (net.get id).isObject = false := by simpa using hobj
      obtain ⟨h1, _⟩ := hfalse hobj1
      rw [h1] at hnid
      exact hobj ((net.get_isObject_iff id).mpr ⟨hne, Or.inr ⟨n, hn, hnid⟩⟩)
  obtain ⟨r, hr, _, hnot⟩ :=
    net.resolveCollisions_spec id newId used1 hroot hnew net.nodes hfree c
  exact ⟨r, hr, hnot⟩

theorem DspNetwork.createWithFactories_nodup (nodeFactories : List NodeFactory)
    (net : DspNetwork) (id : Str) (d : ValueTree) (poly : Bool) (hne : id ≠ [])
    (hroot : net.signalPath.isSome = true)
    (hnodup : (net.nodes.map NodeBase.getId).Nodup) :
    ∃ o d1 net1,
      DspNetwork.createWithFactories net id d poly nodeFactories = Outcome.ok (o, d1, net1) ∧
      net1.signalPath = net.signalPath ∧
      (net1.nodes.map NodeBase.getId).Nodup := by
  induction nodeFactories with
  | nil => exact ⟨none, d, net, rfl, rfl, hnodup⟩
  | cons nf nfs ih =>
    rw [DspNetwork.createWithFactories]
    cases hnf : nf d poly with
    | none => simpa using ih
    | some newNode =>
      obtain ⟨r, hr, hnot⟩ := net.resolveCollisions_fresh id hne hroot newNode
      simp only [hr]
      refine ⟨_, _, _, rfl, rfl, ?_⟩
      simp only [List.map_append, List.map_cons, List.map_nil]
      rw [List.nodup_append]
      refine ⟨hnodup, by simp, ?_⟩
      intro a ha hb
      simp only [List.mem_singleton] at hb
      subst hb
      exact hnot ha

theorem DspNetwork.createChildren_nodup
    (step : DspNetwork → ValueTree → Outcome (Option NodeBase × ValueTree × DspNetwork))
    (cs : List ValueTree)
    (hstep : ∀ c ∈ cs, ∀ net : DspNetwork, net.signalPath.isSome = true →
      (net.nodes.map NodeBase.getId).Nodup →
      ∃ o c1 net1, step net c = Outcome.ok (o, c1, net1) ∧ net1.signalPath = net.signalPath ∧
        (net1.nodes.map NodeBase.getId).Nodup)
    (net : DspNetwork) (hroot : net.signalPath.isSome = true)
    (hnodup : (net.nodes.map NodeBase.getId).Nodup) :
    ∃ cs1 net1, DspNetwork.createChildren step net cs = Outcome.ok (cs1, net1) ∧
      net1.signalPath = net.signalPath ∧
      (net1.nodes.map NodeBase.getId).Nodup := by
  induction cs generalizing net with
  | nil => exact ⟨[], net, rfl, rfl, hnodup⟩
  | cons c cs ih =>
    obtain ⟨o, c1, net1, h1, hs1, hn1⟩ := hstep c (by simp) net hroot hnodup
    obtain ⟨cs1, net2, h2, hs2, hn2⟩ :=
      ih (fun c' hc' => hstep c' (by simp [hc'])) net1 (by rw [hs1]; exact hroot) hn1
    refine ⟨c1 :: cs1, net2, ?_, by rw [hs2, hs1], hn2⟩
    rw [DspNetwork.createChildren, h1]
    simp only [h2]

theorem DspNetwork.createFromValueTreeFuel_nodup (nodeFactories : List NodeFactory)
    (poly force : Bool) (fuel : Nat) (net : DspNetwork) (d : ValueTree)
    (hdepth : d.depth ≤ fuel) (hroot : net.signalPath.isSome = true)
    (hnodup : (net.nodes.map NodeBase.getId).Nodup)
    (hne : [] ∉ descriptionIds d) :
    ∃ o d1 net1,
      DspNetwork.createFromValueTreeFuel nodeFactories poly force fuel net d
        = Outcome.ok (o, d1, net1) ∧
      net1.signalPath = net.signalPath ∧
      (net1.nodes.map NodeBase.getId).Nodup := by
  induction fuel generalizing net d with
  | zero =>
    cases d with
    | mk t p cs => simp [ValueTree.depth] at hdepth
  | succ fuel ih =>
    rw [DspNetwork.createFromValueTreeFuel]
    by_cases hex : (if force = true then ObjectVar.undefined
        else net.get (d.getProperty PropertyIds.ID).toString).isObject = true
    · simp only [hex, if_true]
      exact ⟨_, _, _, rfl, rfl, hnodup⟩
    · simp only [hex, if_false]
      have hid : (d.getProperty PropertyIds.ID).toString ≠ [] := by
        intro h
        apply hne
        cases d with
        | mk t p cs =>
          simp only [descriptionIds, List.mem_cons]
          left
          exact h.symm
      cases hcn : d.getChildWithName PropertyIds.Nodes with
      | none =>
        simp only
        exact DspNetwork.createWithFactories_nodup nodeFactories net _ d poly hid hroot hnodup
      | some cn =>
        simp only
        have hcnmem : cn ∈ d.children := ValueTree.getChildWithName_mem d cn _ hcn
        have hin : descriptionIdsOfList cn.children ⊆ descriptionIds d := by
          cases d with
          | mk t p cs =>
            intro x hx
            simp only [descriptionIds, List.mem_cons]
            right
            rw [descriptionIdsIn_eq]
            have : cs.find? (fun c => c.hasType PropertyIds.Nodes) = some cn := hcn
            rw [this]
            exact hx
        obtain ⟨cs1, net1, h1, hs1, hn1⟩ := DspNetwork.createChildren_nodup
          (DspNetwork.createFromValueTreeFuel nodeFactories poly force fuel) cn.children
          (fun c hc net' hroot' hnet' => ih net' c
            (by
              have h1 := ValueTree.depth_child cn c hc
              have h2 := ValueTree.depth_child d cn hcnmem
              omega)
            hroot' hnet'
            (fun hmem => hne (hin (descriptionIds_mem_of_mem c cn.children hc [] hmem))))
          net hroot hnodup
        rw [h1]
        simp only
        obtain ⟨o, d2, net2, h2, hs2, hn2⟩ := DspNetwork.createWithFactories_nodup nodeFactories
          net1 (d.getProperty PropertyIds.ID).toString
          (d.modifyChildWithName PropertyIds.Nodes (fun v => DspNetwork.withChildren v cs1))
          poly hid (by rw [hs1]; exact hroot) hn1
        exact ⟨o, d2, net2, h2, by rw [hs2, hs1], hn2⟩

end scriptnode

namespace juce

theorem replaceFrom_skip (old new xs rest : Str) :
    replaceFrom old new xs.length (xs ++ rest) = replaceFrom old new 0 rest := by
  induction xs with
  | nil => rfl
  | cons x xs ih => simpa [replaceFrom] using ih

theorem replace_self_append (a : Char) (as new rest : Str) :
    replaceFrom (a :: as) new 0 ((a :: as) ++ rest)
      = new ++ replaceFrom (a :: as) new 0 rest := by
  have hs : startsWith (a :: (as ++ rest)) (a :: as) = true := by
    simpa using startsWith_append_self (a :: as) rest
  rw [List.cons_append, replaceFrom, if_pos hs]
  have : (a :: as).length - 1 = as.length := by simp
  rw [this, replaceFrom_skip]

theorem replace_node_part (A B p : Str) (hA : A ≠ []) (hdot : '.' ∉ A) :
    replace (A ++ '.' :: p) A B = B ++ '.' :: replace p A B := by
  unfold replace
  rw [if_neg hA, if_neg hA]
  cases A with
  | nil => exact absurd rfl hA
  | cons a as =>
    rw [replace_self_append]
    have ha : ¬ ('.' = a) := by
      intro h
      apply hdot
      rw [h]
      exact List.mem_cons_self _ _
    have hs : startsWith ('.' :: p) (a :: as) = false := by
      simp [startsWith, ha]
    rw [replaceFrom, if_neg (by simp [hs])]

theorem replace_exact (A B : Str) (hA : A ≠ []) : replace A A B = B := by
  unfold replace
  rw [if_neg hA]
  cases A with
  | nil => exact absurd rfl hA
  | cons a as =>
    have := replace_self_append a as B []
    simpa [replaceFrom] using this

theorem contains_self_append (A rest : Str) : contains (A ++ rest) A = true := by
  unfold contains
  cases h : A ++ rest with
  | nil =>
    have := List.append_eq_nil.mp h
    simp [indexOf, this.1]
  | cons c cs =>
    have hs : startsWith (c :: cs) A = true := by
      rw [← h]; exact startsWith_append_self A rest
    simp [indexOf, hs]

theorem indexOf_dot (B x : Str) (hdot : '.' ∉ B) :
    indexOf (B ++ '.' :: x) ['.'] = some B.length := by
  induction B with
  | nil => simp [indexOf, startsWith]
  | cons b bs ih =>
    have hb : ¬ (b = '.') := by
      intro h
      apply hdot
      rw [h]
      exact List.mem_cons_self _ _
    have hbs : '.' ∉ bs := fun h => hdot (List.mem_cons_of_mem _ h)
    simp [indexOf, startsWith, hb, ih hbs]

theorem upToFirstOccurrenceOf_dot (B x : Str) (hdot : '.' ∉ B) :
    upToFirstOccurrenceOf (B ++ '.' :: x) ['.'] = B := by
  unfold upToFirstOccurrenceOf
  rw [indexOf_dot B x hdot]
  simp

end juce

namespace hise

open juce

theorem foreach_getType (f : ValueTree → List (Str × var)) (v : ValueTree) :
    (foreach f v).getType = v.getType := by
  cases v
  simp [foreach, ValueTree.getType]

end hise

namespace juce

open hise

theorem ValueTree.getChildWithName_modifyFirst (type : Str) (f : ValueTree → ValueTree)
    (hf : ∀ c, (f c).getType = c.getType) (cs : List ValueTree) (c : ValueTree)
    (h : cs.find? (fun x => x.hasType type) = some c) :
    (ValueTree.modifyFirstWithName type f cs).find? (fun x => x.hasType type) = some (f c) := by
  induction cs with
  | nil => simp at h
  | cons y ys ih =>
    by_cases hy : y.hasType type = true
    · have hc : y = c := by simpa [List.find?, hy] using h
      subst hc
      have : (f y).hasType type = true := by
        simp only [ValueTree.hasType, decide_eq_true_eq] at hy ⊢
        rw [hf, hy]
      simp [ValueTree.modifyFirstWithName, hy, List.find?, this]
    · have h2 : ys.find? (fun x => x.hasType type) = some c := by
        simpa [List.find?, hy] using h
      simp [ValueTree.modifyFirstWithName, hy, List.find?, ih h2]

end juce

namespace scriptnode

open juce hise

theorem updateIds_connection (newId oldId : Str) (v : ValueTree) :
    (getNamedValue (DspNetwork.updateIds newId oldId v) PropertyIds.Connection).toString
      = (if contains (v.getProperty PropertyIds.Connection).toString oldId
          then replace (v.getProperty PropertyIds.Connection).toString oldId newId
          else (v.getProperty PropertyIds.Connection).toString) := by
  unfold DspNetwork.updateIds
  by_cases h : contains (v.getProperty PropertyIds.Connection).toString oldId = true
  · simp only [h, if_true]
    change ((v.setProperty PropertyIds.Connection _).getProperty PropertyIds.Connection).toString
      = _
    rw [ValueTree.getProperty_setProperty]
    rfl
  · simp only [h, if_false]
    rfl

mutual
theorem connectionStringsOf_foreach (newId oldId : Str) :
    ∀ v : ValueTree,
      connectionStringsOf (foreach (DspNetwork.updateIds newId oldId) v)
        = (connectionStringsOf v).map
            (fun s => if contains s oldId then replace s oldId newId else s)
  | .mk t p cs => by
    have h1 := updateIds_connection newId oldId (.mk t p cs)
    have h2 := connectionStringsOfList_foreach newId oldId cs
    simp only [foreach, connectionStringsOf, List.map_cons, h2]
    rw [h1]
    simp [ValueTree.getProperty, ValueTree.properties]
theorem connectionStringsOfList_foreach (newId oldId : Str) :
    ∀ cs : List ValueTree,
      connectionStringsOfList (foreachList (DspNetwork.updateIds newId oldId) cs)
        = (connectionStringsOfList cs).map
            (fun s => if contains s oldId then replace s oldId newId else s)
  | [] => by simp [foreachList, connectionStringsOfList]
  | c :: cs => by
    have h1 := connectionStringsOf_foreach newId oldId c
    have h2 := connectionStringsOfList_foreach newId oldId cs
    simp only [foreachList, connectionStringsOfList, List.map_append, h1, h2]
end

end scriptnode

namespace scriptnode

open juce hise

/-- C12 at the state in which the constructor of the network calls `createFromValueTree`:
`signalPath` is still `nullptr` and the registry is empty, so its ids are pairwise distinct.  The
only factory returns a node that holds the description it was given (so carries its id), and the
description is a node `a` whose child `Nodes` holds another node `a`, created with `forceCreate`
as the constructor does.  The child is registered as `a`; the parent collides with it,
`getNonExistentId` yields `a1`, and `updateId` dereferences `signalPath`: the call does not
return.  With the root node set, the same call returns and the registry holds `a` and `a1`. -/
theorem createFromValueTree_collision_null_root :
    ((DspNetwork.mk "net".toList none []).nodes.map NodeBase.getId).Nodup ∧
    (∀ (d1 : ValueTree) (p : Bool) (n : NodeBase),
      (fun (d2 : ValueTree) (_ : Bool) => some (NodeBase.mk d2 false false false [])) d1 p = some n →
        n.getId = (d1.getProperty PropertyIds.ID).toString) ∧
    (DspNetwork.createFromValueTree
        [fun d2 _ => some (NodeBase.mk d2 false false false [])]
        ⟨"net".toList, none, []⟩ true
        (.mk PropertyIds.Node [(PropertyIds.ID, var.string "a".toList)]
          [.mk PropertyIds.Nodes []
            [.mk PropertyIds.Node [(PropertyIds.ID, var.string "a".toList)] []]])
        true).isNullPointer = true ∧
    (DspNetwork.createFromValueTree
        [fun d2 _ => some (NodeBase.mk d2 false false false [])]
        ⟨"net".toList,
          some ⟨.mk PropertyIds.Node [(PropertyIds.ID, var.string "root".toList)] [], false,
            false, true, []⟩, []⟩ true
        (.mk PropertyIds.Node [(PropertyIds.ID, var.string "a".toList)]
          [.mk PropertyIds.Nodes []
            [.mk PropertyIds.Node [(PropertyIds.ID, var.string "a".toList)] []]])
        true).toOption.map (fun r => r.2.2.nodes.map NodeBase.getId)
      = some ["a".toList, "a1".toList] := by
  refine ⟨by decide, ?_, by decide, by decide⟩
  intro d1 p n h
  simp only [Option.some.injEq] at h
  rw [← h]
  rfl

/-- Descriptions without `ID`: the root node is set, the registry is empty, the only factory
returns a node that holds the description it was given, and the description is a node without
`ID` whose child `Nodes` holds another node without `ID`.  After `createFromValueTree`, with
`forceCreate` false or true, the registry holds two nodes with the same, empty, id: `get("")`
never finds a node, so `getNonExistentId("")` returns the empty id again. -/
theorem createFromValueTree_empty_ids :
    (DspNetwork.createFromValueTree
        [fun d2 _ => some (NodeBase.mk d2 false false false [])]
        ⟨"net".toList,
          some ⟨.mk PropertyIds.Node [(PropertyIds.ID, var.string "root".toList)] [], false,
            false, true, []⟩, []⟩ true
        (.mk PropertyIds.Node [] [.mk PropertyIds.Nodes [] [.mk PropertyIds.Node [] []]])
        false).toOption.map (fun r => r.2.2.nodes.map NodeBase.getId) = some [[], []] ∧
    (DspNetwork.createFromValueTree
        [fun d2 _ => some (NodeBase.mk d2 false false false [])]
        ⟨"net".toList,
          some ⟨.mk PropertyIds.Node [(PropertyIds.ID, var.string "root".toList)] [], false,
            false, true, []⟩, []⟩ true
        (.mk PropertyIds.Node [] [.mk PropertyIds.Nodes [] [.mk PropertyIds.Node [] []]])
        true).toOption.map (fun r => r.2.2.nodes.map NodeBase.getId) = some [[], []] ∧
    ¬ ([[], []] : List Str).Nodup := by
  refine ⟨by decide, by decide, by decide⟩

/-- When the root node of the network is set, the ids of the registered nodes are pairwise
distinct and every node description that the call visits in `d` has a non-empty id,
`createFromValueTree(poly, d, forceCreate)` returns, leaves the root node as it is, and
afterwards the ids of all registered nodes are again pairwise distinct, for `forceCreate` true
and false alike: a new node that collides is renamed to a free id whatever id it carries.  (The
suffix counter of `getNonExistentId` is an unbounded integer.) -/
theorem createFromValueTree_ids_unique (nodeFactories : List NodeFactory) (net : DspNetwork)
    (poly force : Bool) (d : ValueTree)
    (hroot : net.signalPath.isSome = true)
    (hnodup : (net.nodes.map NodeBase.getId).Nodup)
    (hne : [] ∉ descriptionIds d) :
    ∃ o d1 net1,
      DspNetwork.createFromValueTree nodeFactories net poly d force = Outcome.ok (o, d1, net1) ∧
      net1.signalPath = net.signalPath ∧
      (net1.nodes.map NodeBase.getId).Nodup :=
  DspNetwork.createFromValueTreeFuel_nodup nodeFactories poly force d.depth net d (le_refl _)
    hroot hnodup hne

/-- C14 at the container `A` with a child node `m` whose parameter carries the connection string
`A.Macro`, in a network whose root node is set.  `updateId(n, "B")` scans only the child
`Parameters` of `A` itself, so afterwards the id of the node is `B` while the connection string
of the descendant still is `A.Macro` and refers to the old id, which no node carries any
more. -/
theorem updateId_skips_descendants :
    (DspNetwork.updateId
        ⟨"net".toList,
          some ⟨.mk PropertyIds.Node [(PropertyIds.ID, var.string "root".toList)] [], false,
            false, true, []⟩, []⟩
        ⟨.mk PropertyIds.Node [(PropertyIds.ID, var.string "A".toList)]
          [.mk PropertyIds.Parameters [] [],
           .mk PropertyIds.Nodes []
            [.mk PropertyIds.Node [(PropertyIds.ID, var.string "m".toList)]
              [.mk PropertyIds.Parameters []
                [.mk PropertyIds.Parameter
                  [(PropertyIds.ID, var.string "P".toList),
                   (PropertyIds.Connection, var.string "A.Macro".toList)] []]]]],
          false, false, true, []⟩
        "B".toList).map (fun r => (r.getId, connectionStringsOf r.data))
      = some ("B".toList, [[], [], [], [], [], "A.Macro".toList]) ∧
    connectionNodeId "A.Macro".toList = "A".toList := by
  decide

/-- In a network whose root node is set, `updateId(n, B)` for a node `n` with the non-empty id
`A` (neither id containing a `.`) returns; the node carries the id `B` afterwards, and every
connection string `s` in the subtree of `n`'s own child `Parameters` is rewritten to
`s.replace(A, B)` if it contains `A` and left as it is otherwise.  A connection string there
that is `A` itself or of the form `A.parameter` names `B` afterwards. -/
theorem updateId_rewrites_own_parameters (net : DspNetwork) (n : NodeBase) (B : Str)
    (params : ValueTree) (hroot : net.signalPath.isSome = true)
    (hA : n.getId ≠ []) (hAdot : '.' ∉ n.getId) (hBdot : '.' ∉ B)
    (hparams : n.data.getChildWithName PropertyIds.Parameters = some params) :
    (∃ r params1, net.updateId n B = some r ∧ r.getId = B ∧
      r.data.getChildWithName PropertyIds.Parameters = some params1 ∧
      connectionStringsOf params1 = (connectionStringsOf params).map
        (fun s => if contains s n.getId then replace s n.getId B else s)) ∧
    (contains n.getId n.getId = true ∧ replace n.getId n.getId B = B) ∧
    ∀ p : Str, contains (n.getId ++ '.' :: p) n.getId = true ∧
      connectionNodeId (replace (n.getId ++ '.' :: p) n.getId B) = B := by
  refine ⟨?_, ⟨?_, replace_exact _ B hA⟩, ?_⟩
  · obtain ⟨r, hr, hid, hdata⟩ := net.updateId_of_root n B hroot
    refine ⟨r, foreach (DspNetwork.updateIds B n.getId) params, hr, hid, ?_,
      connectionStringsOf_foreach B n.getId params⟩
    rw [hdata]
    cases hd : n.data with
    | mk t p cs =>
      rw [hd] at hparams
      simp only [NodeBase.setValueTreeProperty, hd, ValueTree.setProperty,
        ValueTree.modifyChildWithName, ValueTree.getChildWithName, ValueTree.children]
      exact ValueTree.getChildWithName_modifyFirst _ _ (foreach_getType _) cs params hparams
  · simpa using contains_self_append n.getId []
  · intro p
    refine ⟨contains_self_append _ _, ?_⟩
    rw [replace_node_part _ _ _ hA hAdot]
    exact upToFirstOccurrenceOf_dot B _ hBdot

/-- C15 at the node `osc1` whose own parameters carry the connection strings `osc10.Freq` and
`osc1.osc1Gain`, renamed to `osc2` in a network whose root node is set: the string `osc10.Freq`
refers to the node `osc10`, not to `osc1`, yet it contains `osc1` and is rewritten to
`osc20.Freq`; and in `osc1.osc1Gain` the parameter-id part is rewritten too, from `osc1Gain` to
`osc2Gain`. -/
theorem updateId_substring_rewrite :
    connectionNodeId "osc10.Freq".toList = "osc10".toList ∧
    (DspNetwork.updateId
        ⟨"net".toList,
          some ⟨.mk PropertyIds.Node [(PropertyIds.ID, var.string "root".toList)] [], false,
            false, true, []⟩, []⟩
        ⟨.mk PropertyIds.Node [(PropertyIds.ID, var.string "osc1".toList)]
          [.mk PropertyIds.Parameters []
            [.mk PropertyIds.Parameter
              [(PropertyIds.ID, var.string "Freq".toList),
               (PropertyIds.Connection, var.string "osc10.Freq".toList)] [],
             .mk PropertyIds.Parameter
              [(PropertyIds.ID, var.string "Gain".toList),
               (PropertyIds.Connection, var.string "osc1.osc1Gain".toList)] []]],
          false, false, false, []⟩
        "osc2".toList).map (fun r => connectionStringsOf r.data)
      = some [[], [], "osc20.Freq".toList, "osc2.osc2Gain".toList] ∧
    connectionParameterId "osc1.osc1Gain".toList = "osc1Gain".toList ∧
    connectionParameterId "osc2.osc2Gain".toList = "osc2Gain".toList := by
  decide

/-- C16 at a registry that holds the node `osc1` and a tree to clone whose node `osc1` has a
parameter connected to `osc10.Mod`, a node that is not renamed: the copy renames `osc1` to
`osc2` and, because `osc10.Mod` contains `osc1`, rewrites the connection string to `osc20.Mod`,
a reference to a node that exists nowhere. -/
theorem clone_substring_rewrite :
    (DspNetwork.cloneValueTreeWithNewIds
        ⟨"net".toList, none,
          [⟨.mk PropertyIds.Node [(PropertyIds.ID, var.string "osc1".toList)] [], false, false,
            false, []⟩]⟩
        (.mk PropertyIds.Node [(PropertyIds.ID, var.string "osc1".toList)]
          [.mk PropertyIds.Parameters []
            [.mk PropertyIds.Parameter
              [(PropertyIds.ID, var.string "Freq".toList),
               (PropertyIds.Connection, var.string "osc10.Mod".toList)] []]])).map
        (fun c => (nodeIdsOf c, connectionStringsOf c))
      = some (["osc2".toList], [[], [], "osc20.Mod".toList]) ∧
    connectionNodeId "osc10.Mod".toList = "osc10".toList ∧
    connectionNodeId "osc20.Mod".toList = "osc20".toList := by
  decide

/-- C17 at a registry that holds the node `a` and a tree to clone with the nodes `a` and `a1`
(pairwise distinct ids, `a1` not registered): the copy renames `a` to the free id `a1` and
leaves the unregistered `a1` as it is, so two nodes of the copy carry the id `a1`. -/
theorem clone_duplicate_ids :
    (nodeIdsOf (.mk PropertyIds.Node [(PropertyIds.ID, var.string "a".toList)]
        [.mk PropertyIds.Nodes []
          [.mk PropertyIds.Node [(PropertyIds.ID, var.string "a1".toList)] []]])).Nodup ∧
    (DspNetwork.cloneValueTreeWithNewIds
        ⟨"net".toList, none,
          [⟨.mk PropertyIds.Node [(PropertyIds.ID, var.string "a".toList)] [], false, false,
            false, []⟩]⟩
        (.mk PropertyIds.Node [(PropertyIds.ID, var.string "a".toList)]
          [.mk PropertyIds.Nodes []
            [.mk PropertyIds.Node [(PropertyIds.ID, var.string "a1".toList)] []]])).map nodeIdsOf
      = some ["a1".toList, "a1".toList] ∧
    ¬ (["a1".toList, "a1".toList] : List Str).Nodup := by
  decide

end scriptnode

namespace scriptnode

open snex juce hise

theorem span_copyTo_eq {T : Type} {Size : Nat} (s : span T Size) : s.copyTo = s := by
  cases s
  rfl

theorem SplitNode.processFrameLoop_false {σ α : Type} [Add α] {C : Nat}
    (call : FrameProcessor σ α → σ → span α C → σ × span α C) (x : span α C)
    (ns : List (FrameProcessor σ α)) (s : σ) (acc : span α C) :
    SplitNode.processFrameLoop call x ns false s acc
      = ((SplitNode.childOutputs call x ns s).1,
          SplitNode.sumInOrder acc (SplitNode.childOutputs call x ns s).2) := by
  induction ns generalizing s acc with
  | nil => rfl
  | cons n ns ih =>
    simp only [SplitNode.processFrameLoop, Bool.false_eq_true, if_false, span_copyTo_eq,
      SplitNode.childOutputs, SplitNode.sumInOrder, List.foldl_cons]
    rw [ih]
    rfl

theorem SplitNode.processFrameInternal_sum {σ α : Type} [Add α] {C : Nat}
    (call : FrameProcessor σ α → σ → span α C → σ × span α C)
    (n : FrameProcessor σ α) (ns : List (FrameProcessor σ α)) (s : σ) (x : span α C) :
    SplitNode.processFrameInternal call ⟨false, n :: ns⟩ s x
      = ((SplitNode.childOutputs call x (n :: ns) s).1,
          SplitNode.sumInOrder (call n s x).2
            (SplitNode.childOutputs call x ns (call n s x).1).2) := by
  simp only [SplitNode.processFrameInternal, Bool.false_eq_true, if_false,
    SplitNode.processFrameLoop, if_true, span_copyTo_eq, SplitNode.childOutputs]
  rw [SplitNode.processFrameLoop_false]

/-- C18. `SplitNode::processFrame` on a frame `x` of one or of two channels with the children
`n :: ns` (at least one), not bypassed: every child is called on the original input `x` (the
first on `data`, which still holds `x`, every further one on a fresh copy of `original`), and the
resulting frame is the channel-wise sum of what the children produce, accumulated from the left
in child-list order.  When the node is bypassed, the frame (and the state of the children) is
left unchanged. -/
theorem splitNode_processFrame_sum {σ α : Type} [Add α] (n : FrameProcessor σ α)
    (ns : List (FrameProcessor σ α)) (s : σ) :
    (∀ x : span α 1,
      SplitNode.processFrame ⟨false, n :: ns⟩ 1 s x
        = ((SplitNode.childOutputs (fun c => c.processMonoFrame) x (n :: ns) s).1,
            SplitNode.sumInOrder (n.processMonoFrame s x).2
              (SplitNode.childOutputs (fun c => c.processMonoFrame) x ns
                (n.processMonoFrame s x).1).2)) ∧
    (∀ x : span α 2,
      SplitNode.processFrame ⟨false, n :: ns⟩ 2 s x
        = ((SplitNode.childOutputs (fun c => c.processStereoFrame) x (n :: ns) s).1,
            SplitNode.sumInOrder (n.processStereoFrame s x).2
              (SplitNode.childOutputs (fun c => c.processStereoFrame) x ns
                (n.processStereoFrame s x).1).2)) ∧
    (∀ (C : Nat) (x : span α C), SplitNode.processFrame ⟨true, n :: ns⟩ C s x = (s, x)) := by
  refine ⟨fun x => ?_, fun x => ?_, fun C x => ?_⟩
  · exact SplitNode.processFrameInternal_sum (fun c => c.processMonoFrame) n ns s x
  · exact SplitNode.processFrameInternal_sum (fun c => c.processStereoFrame) n ns s x
  · match C, x with
    | 0, x => rfl
    | 1, x => rfl
    | 2, x => rfl
    | _ + 3, x => rfl

namespace ConnectionBase

variable {Rng InvRange : Type} [DecidableEq InvRange]

theorem resolves_iff (net : DspNetwork) (c : ValueTree) :
    resolves net c = true ↔
      ∃ tn, net.getNodeWithId (c.getProperty PropertyIds.NodeId).toString = some tn ∧
        ((c.getProperty PropertyIds.ParameterId).toString = PropertyIds.Bypassed →
          tn.isSoftBypassNode = true) := by
  unfold resolves
  cases hn : net.getNodeWithId (c.getProperty PropertyIds.NodeId).toString with
  | none => simp
  | some tn =>
    by_cases hp : (c.getProperty PropertyIds.ParameterId).toString = PropertyIds.Bypassed
    · simp [hp]
    · simp [hp]

theorem createParameterLoop_step (net : DspNetwork) (rh : RangeHelpers Rng InvRange)
    (scaleInput : Bool) (parent : ValueTree) (numConnections : Nat) (hnum : numConnections ≠ 1)
    (c : ValueTree) (cs : List ValueTree) (chain : Option (List (Option (ConnectionTarget Rng))))
    (h : ExceptionHandler) (hres : resolves net c = true) :
    createParameterLoop net rh scaleInput parent numConnections (c :: cs) chain h
      = createParameterLoop net rh scaleInput parent numConnections cs
          (some (chain.getD [] ++ [targetOf net rh c])) h := by
  obtain ⟨tn, htn, hsoft⟩ := (resolves_iff net c).mp hres
  rw [createParameterLoop]
  simp only [htn, hnum, if_false, targetOf]
  by_cases hp : (c.getProperty PropertyIds.ParameterId).toString = PropertyIds.Bypassed
  · simp only [hp, if_true, hsoft hp]
  · simp only [hp, if_false]

theorem createParameterLoop_resolving (net : DspNetwork) (rh : RangeHelpers Rng InvRange)
    (scaleInput : Bool) (parent : ValueTree) (numConnections : Nat) (hnum : numConnections ≠ 1)
    (cs : List ValueTree) (hall : ∀ c ∈ cs, resolves net c = true)
    (items : List (Option (ConnectionTarget Rng))) (h : ExceptionHandler) :
    createParameterLoop net rh scaleInput parent numConnections cs (some items) h
      = some (ConnectionResult.chain scaleInput parent (items ++ cs.map (targetOf net rh)), h) := by
  induction cs generalizing items with
  | nil => simp [createParameterLoop]
  | cons c cs ih =>
    rw [createParameterLoop_step net rh scaleInput parent numConnections hnum c cs _ h
      (hall c (by simp))]
    rw [Option.getD_some, ih (fun c' hc' => hall c' (by simp [hc']))]
    simp

theorem createParameterLoop_illegal (net : DspNetwork) (rh : RangeHelpers Rng InvRange)
    (scaleInput : Bool) (parent : ValueTree) (numConnections : Nat)
    (pre : List ValueTree) (c : ValueTree) (post : List ValueTree)
    (hnum : pre ≠ [] → numConnections ≠ 1) (hpre : ∀ c1 ∈ pre, resolves net c1 = true)
    (tn : NodeBase)
    (hnode : net.getNodeWithId (c.getProperty PropertyIds.NodeId).toString = some tn)
    (hpid : (c.getProperty PropertyIds.ParameterId).toString = PropertyIds.Bypassed)
    (hsoft : tn.isSoftBypassNode = false)
    (chain : Option (List (Option (ConnectionTarget Rng)))) (h : ExceptionHandler) :
    createParameterLoop net rh scaleInput parent numConnections (pre ++ c :: post) chain h
      = some (ConnectionResult.null, h.addError tn ErrorCode.IllegalBypassConnection) := by
  induction pre generalizing chain with
  | nil =>
    rw [List.nil_append, createParameterLoop]
    simp only [hnode, hpid, if_true, hsoft, Bool.false_eq_true, if_false]
  | cons x xs ih =>
    have hn1 : numConnections ≠ 1 := hnum (by simp)
    rw [List.cons_append, createParameterLoop_step net rh scaleInput parent numConnections hn1 x _
      chain h (hpre x (by simp))]
    exact ih (fun _ => hn1) (fun c1 hc1 => hpre c1 (by simp [hc1])) _

/-- C19 refuted as stated: the registry holds the node `gain`, which is not a soft-bypass node,
and the connection tree holds `ghost.Freq`, whose node does not exist, before `gain.Bypassed`.
The loop returns `nullptr` at the first connection (`tn == nullptr`) and never reaches the
second: a connection targets the `Bypassed` pseudo-parameter of an existing node that is not a
soft-bypass node, yet no error is recorded in the error registry. -/
theorem createParameter_bypass_not_reached :
    createParameterFromConnectionTree
        ⟨"net".toList, none,
          [⟨.mk PropertyIds.Node [(PropertyIds.ID, var.string "gain".toList)] [], false, false,
            false, []⟩]⟩
        (⟨fun _ => 7, fun _ => 0, fun _ => 0⟩ : RangeHelpers Nat Nat)
        (.mk PropertyIds.Connections []
          [.mk PropertyIds.Connection
            [(PropertyIds.NodeId, var.string "ghost".toList),
             (PropertyIds.ParameterId, var.string "Freq".toList)] [],
           .mk PropertyIds.Connection
            [(PropertyIds.NodeId, var.string "gain".toList),
             (PropertyIds.ParameterId, var.string "Bypassed".toList)] []])
        (.mk PropertyIds.Parameter [] []) false []
      = some (ConnectionResult.null, []) ∧
    (DspNetwork.getNodeWithId
        ⟨"net".toList, none,
          [⟨.mk PropertyIds.Node [(PropertyIds.ID, var.string "gain".toList)] [], false, false,
            false, []⟩]⟩
        "gain".toList).map (fun tn => tn.isSoftBypassNode) = some false ∧
    (DspNetwork.getNodeWithId
        ⟨"net".toList, none,
          [⟨.mk PropertyIds.Node [(PropertyIds.ID, var.string "gain".toList)] [], false, false,
            false, []⟩]⟩
        "ghost".toList).isNone = true := by
  refine ⟨rfl, by decide, by decide⟩

/-- C19 amended: in `createParameterFromConnectionTree`, let `c` be a connection of the tree that
targets the `Bypassed` pseudo-parameter of an existing node `tn`, and let the loop reach it:
every connection before it names an existing node and, where it targets `Bypassed`, a
soft-bypass node.  If `tn` is not a soft-bypass node, the call returns normally with
`nullptr` and the error `IllegalBypassConnection` recorded for `tn` in the error registry of the
network.  If `tn` is a soft-bypass node, the loop creates for `c` the dynamic bypass parameter of
`tn` with the range of `c`; when all connections resolve, that object is what is returned for a
single connection whose input is not scaled or whose range equals the input range, and otherwise
it is added, at the position of `c`, to the chain returned; the error registry is unchanged. -/
theorem createParameter_bypass_connection (net : DspNetwork) (rh : RangeHelpers Rng InvRange)
    (connectionTree parent : ValueTree) (scaleInput : Bool) (h : ExceptionHandler)
    (pre : List ValueTree) (c : ValueTree) (post : List ValueTree) (tn : NodeBase)
    (hchildren : connectionTree.children = pre ++ c :: post)
    (hpre : ∀ c1 ∈ pre, resolves net c1 = true)
    (hnode : net.getNodeWithId (c.getProperty PropertyIds.NodeId).toString = some tn)
    (hpid : (c.getProperty PropertyIds.ParameterId).toString = PropertyIds.Bypassed) :
    (tn.isSoftBypassNode = false →
      createParameterFromConnectionTree net rh connectionTree parent scaleInput h
        = some (ConnectionResult.null, h.addError tn ErrorCode.IllegalBypassConnection)) ∧
    (tn.isSoftBypassNode = true →
      targetOf net rh c
        = some (ConnectionTarget.dynamicBypassParameter tn (rh.connectionRange c)) ∧
      ((pre = [] ∧ post = []) →
        createParameterFromConnectionTree net rh connectionTree parent scaleInput h
          = some (
              (if scaleInput = false ∨
                  rh.getRange (ConnectionTarget.dynamicBypassParameter tn (rh.connectionRange c))
                    = rh.getDoubleRange parent
                then ConnectionResult.single
                  (ConnectionTarget.dynamicBypassParameter tn (rh.connectionRange c))
                else ConnectionResult.chain scaleInput parent
                  [some (ConnectionTarget.dynamicBypassParameter tn (rh.connectionRange c))]),
              h)) ∧
      ((pre ≠ [] ∨ post ≠ []) → (∀ c1 ∈ post, resolves net c1 = true) →
        ∃ items,
          createParameterFromConnectionTree net rh connectionTree parent scaleInput h
            = some (ConnectionResult.chain scaleInput parent items, h) ∧
          items[pre.length]?
            = some (some
                (ConnectionTarget.dynamicBypassParameter tn (rh.connectionRange c))))) := by
  have hlen : connectionTree.children.length = pre.length + (post.length + 1) := by
    rw [hchildren]; simp
  have htarget : tn.isSoftBypassNode = true → targetOf net rh c
      = some (ConnectionTarget.dynamicBypassParameter tn (rh.connectionRange c)) := by
    intro _
    simp [targetOf, hnode, hpid]
  refine ⟨fun hsoft => ?_, fun hsoft => ⟨htarget hsoft, ?_, ?_⟩⟩
  · unfold createParameterFromConnectionTree
    rw [if_neg (by omega), hchildren]
    apply createParameterLoop_illegal net rh scaleInput parent _ pre c post _ hpre tn hnode hpid
      hsoft
    intro hne
    have : 0 < pre.length := List.length_pos.mpr hne
    simp only [List.length_append, List.length_cons]
    omega
  · rintro ⟨hpre0, hpost0⟩
    subst hpre0 hpost0
    unfold createParameterFromConnectionTree
    rw [if_neg (by omega), hchildren]
    simp only [List.nil_append, List.length_singleton, createParameterLoop, hnode, hpid, if_true,
      hsoft, Option.getD_none]
    by_cases hs : scaleInput = false
    · simp [hs]
    · have hs1 : scaleInput = true := by simpa using hs
      by_cases hr : rh.getRange (ConnectionTarget.dynamicBypassParameter tn (rh.connectionRange c))
          = rh.getDoubleRange parent
      · simp [hs1, hr]
      · simp [hs1, hr]
  · intro hne hpost
    have hres : resolves net c = true :=
      (resolves_iff net c).mpr ⟨tn, hnode, fun _ => hsoft⟩
    have hall : ∀ c1 ∈ pre ++ c :: post, resolves net c1 = true := by
      intro c1 hc1
      rcases List.mem_append.mp hc1 with h1 | h1
      · exact hpre c1 h1
      · rcases List.mem_cons.mp h1 with h2 | h2
        · rw [h2]; exact hres
        · exact hpost c1 h2
    have hnum : connectionTree.children.length ≠ 1 := by
      rw [hlen]
      rcases hne with h1 | h1
      · have := List.length_pos.mpr h1; omega
      · have := List.length_pos.mpr h1; omega
    have hx : ∀ x xs, pre ++ c :: post = x :: xs →
        createParameterLoop net rh scaleInput parent connectionTree.children.length
            (pre ++ c :: post) none h
          = some (ConnectionResult.chain scaleInput parent
              ((pre ++ c :: post).map (targetOf net rh)), h) := by
      intro x xs hxs
      rw [hxs] at hall ⊢
      rw [createParameterLoop_step net rh scaleInput parent _ hnum x xs none h (hall x (by simp)),
        createParameterLoop_resolving net rh scaleInput parent _ hnum xs
          (fun c' hc' => hall c' (by simp [hc']))]
      simp
    refine ⟨(pre ++ c :: post).map (targetOf net rh), ?_, ?_⟩
    · unfold createParameterFromConnectionTree
      rw [if_neg (by omega)]
      nth_rewrite 2 [hchildren]
      cases hcase : pre ++ c :: post with
      | nil => simp at hcase
      | cons x xs =>
        rw [← hcase]
        exact hx x xs hcase
    · rw [List.getElem?_map, List.getElem?_append_right (le_refl _)]
      simp [htarget hsoft]

/-- Witness for the amended C19: a connection tree with the single connection `gain.Bypassed`,
in a network whose registry holds the node `gain`, with ranges taken as numbers.  When `gain` is not a
soft-bypass node the call returns `nullptr` and records the error for `gain`; when it is one, the
call returns the dynamic bypass parameter of `gain` with the range of the connection. -/
theorem createParameter_bypass_connection_witness :
    createParameterFromConnectionTree
        ⟨"net".toList, none,
          [⟨.mk PropertyIds.Node [(PropertyIds.ID, var.string "gain".toList)] [], false, false,
            false, []⟩]⟩
        (⟨fun _ => 7, fun _ => 0, fun _ => 0⟩ : RangeHelpers Nat Nat)
        (.mk PropertyIds.Connections []
          [.mk PropertyIds.Connection
            [(PropertyIds.NodeId, var.string "gain".toList),
             (PropertyIds.ParameterId, var.string "Bypassed".toList)] []])
        (.mk PropertyIds.Parameter [] []) false []
      = some (ConnectionResult.null,
          [(⟨.mk PropertyIds.Node [(PropertyIds.ID, var.string "gain".toList)] [], false, false,
            false, []⟩, ErrorCode.IllegalBypassConnection)]) ∧
    createParameterFromConnectionTree
        ⟨"net".toList, none,
          [⟨.mk PropertyIds.Node [(PropertyIds.ID, var.string "gain".toList)] [], true, false,
            false, []⟩]⟩
        (⟨fun _ => 7, fun _ => 0, fun _ => 0⟩ : RangeHelpers Nat Nat)
        (.mk PropertyIds.Connections []
          [.mk PropertyIds.Connection
            [(PropertyIds.NodeId, var.string "gain".toList),
             (PropertyIds.ParameterId, var.string "Bypassed".toList)] []])
        (.mk PropertyIds.Parameter [] []) false []
      = some (ConnectionResult.single
          (ConnectionTarget.dynamicBypassParameter
            ⟨.mk PropertyIds.Node [(PropertyIds.ID, var.string "gain".toList)] [], true, false,
              false, []⟩ 7), []) :=
  ⟨(createParameter_bypass_connection
      ⟨"net".toList, none,
        [⟨.mk PropertyIds.Node [(PropertyIds.ID, var.string "gain".toList)] [], false, false,
          false, []⟩]⟩
      (⟨fun _ => 7, fun _ => 0, fun _ => 0⟩ : RangeHelpers Nat Nat)
      (.mk PropertyIds.Connections []
        [.mk PropertyIds.Connection
          [(PropertyIds.NodeId, var.string "gain".toList),
           (PropertyIds.ParameterId, var.string "Bypassed".toList)] []])
      (.mk PropertyIds.Parameter [] []) false [] []
      (.mk PropertyIds.Connection
        [(PropertyIds.NodeId, var.string "gain".toList),
         (PropertyIds.ParameterId, var.string "Bypassed".toList)] [])
      []
      ⟨.mk PropertyIds.Node [(PropertyIds.ID, var.string "gain".toList)] [], false, false,
        false, []⟩
      rfl (fun _ hc => absurd hc (List.not_mem_nil _)) rfl (by decide)).1 rfl,
   (((createParameter_bypass_connection
      ⟨"net".toList, none,
        [⟨.mk PropertyIds.Node [(PropertyIds.ID, var.string "gain".toList)] [], true, false,
          false, []⟩]⟩
      (⟨fun _ => 7, fun _ => 0, fun _ => 0⟩ : RangeHelpers Nat Nat)
      (.mk PropertyIds.Connections []
        [.mk PropertyIds.Connection
          [(PropertyIds.NodeId, var.string "gain".toList),
           (PropertyIds.ParameterId, var.string "Bypassed".toList)] []])
      (.mk PropertyIds.Parameter [] []) false [] []
      (.mk PropertyIds.Connection
        [(PropertyIds.NodeId, var.string "gain".toList),
         (PropertyIds.ParameterId, var.string "Bypassed".toList)] [])
      []
      ⟨.mk PropertyIds.Node [(PropertyIds.ID, var.string "gain".toList)] [], true, false,
        false, []⟩
      rfl (fun _ hc => absurd hc (List.not_mem_nil _)) rfl (by decide)).2 rfl).2.1
        ⟨rfl, rfl⟩)⟩

end ConnectionBase

theorem ParameterObject.addConnectionFrom_unknown_source (hp : ConnectionHelpers)
    (net : DspNetwork) (parent : NodeBase) (p : ParameterObject)
    (connectionSource : Option ValueTree) (properties : List (Str × var))
    (habsent : ∀ n ∈ net.nodes,
      n.getId ≠ DragHelpers.getSourceNodeId (DragDetails.object properties))
    (hnone : net.getNodeWithId (DragHelpers.getSourceNodeId (DragDetails.object properties))
      = none) :
    p.addConnectionFrom hp net parent connectionSource (DragDetails.object properties)
      = (AddConnectionResult.empty,
          p.data.setProperty PropertyIds.Automated (var.bool true),
          ConnectionEffect.nothing) := by
  have hmod : DragHelpers.getModulationSource hp.varToBool net (DragDetails.object properties)
      = none := by
    unfold DragHelpers.getModulationSource
    simp only [DragDetails.isString, Bool.false_eq_true, if_false]
    split
    · rw [List.find?_eq_none]
      intro n hn
      have := habsent n (List.mem_of_mem_filter hn)
      simpa using this
    · rfl
  unfold ParameterObject.addConnectionFrom
  simp only [DragDetails.isObject, if_true, hmod, hnone]
  split <;> rfl

/-- C20 at a network whose registry holds only the node `osc`, the parameter `Gain` of that node
with `Automated` false in its entry, and the source description
`createDescription("ghost", "Macro")` that names the node id `ghost`, which no node carries:
the call returns the empty var and makes no connection, but the entry of the target parameter is
changed, its property `Automated` is `true` afterwards. -/
theorem addConnectionFrom_sets_automated :
    (DspNetwork.getNodeWithId
        ⟨"net".toList, none,
          [⟨.mk PropertyIds.Node [(PropertyIds.ID, var.string "osc".toList)] [], false, false,
            false, []⟩]⟩
        "ghost".toList).isNone = true ∧
    (ParameterObject.addConnectionFrom
        ⟨fun v => decide (v = var.bool true), fun _ => 0, fun _ newC => newC⟩
        ⟨"net".toList, none,
          [⟨.mk PropertyIds.Node [(PropertyIds.ID, var.string "osc".toList)] [], false, false,
            false, []⟩]⟩
        ⟨.mk PropertyIds.Node [(PropertyIds.ID, var.string "osc".toList)] [], false, false,
            false, []⟩
        ⟨.mk PropertyIds.Parameter
          [(PropertyIds.ID, var.string "Gain".toList), (PropertyIds.Automated, var.bool false)]
          [], false, none⟩
        none
        (DragDetails.object
          [(PropertyIds.Automated, var.bool false),
           (PropertyIds.ID, var.string "ghost".toList),
           (PropertyIds.ParameterId, var.string "Macro".toList)]))
      = (AddConnectionResult.empty,
          .mk PropertyIds.Parameter
            [(PropertyIds.ID, var.string "Gain".toList), (PropertyIds.Automated, var.bool true)]
            [],
          ConnectionEffect.nothing) ∧
    (ValueTree.mk PropertyIds.Parameter
        [(PropertyIds.ID, var.string "Gain".toList), (PropertyIds.Automated, var.bool false)]
        []).getProperty PropertyIds.Automated = var.bool false := by
  refine ⟨by decide, ?_, by decide⟩
  rfl

end scriptnode

namespace scriptnode

open juce hise

theorem NodeBase.setParent_unknown_parent (net : DspNetwork) (location : Option (ValueTree × Nat))
    (v : var) (rootNodeString : Str) (indexInParent : Int)
    (hne : v.toString ≠ [])
    (hnone : ((net.get v.toString).getObject).filter (fun n => n.isNodeContainer) = none) :
    (NodeBase.setParent net location (ParentVar.value v) rootNodeString indexInParent).error
      = some ("parent node ".toList ++ v.toString ++ " not found.".toList) ∧
    (NodeBase.setParent net location (ParentVar.value v) rootNodeString indexInParent).previousParent
      = location.map (fun l => l.1.removeChild l.2) := by
  unfold NodeBase.setParent
  simp only [hnone]
  exact ⟨if_pos hne, trivial⟩

/-- C21 at a network whose root container `root` holds the nodes `osc` and `gain` in its tree
`Nodes`, for the node `gain` (position 1) and the parent id `ghost`, which no node carries:
`setParent("ghost", 0)` reports `parent node ghost not found.` and adds the node to no parent,
but the first statement has already removed the entry of `gain` from `Nodes`, which holds only
`osc` after the call. -/
theorem setParent_unknown_parent_detaches :
    (DspNetwork.get
        ⟨"net".toList,
          some ⟨.mk PropertyIds.Node [(PropertyIds.ID, var.string "root".toList)] [], false,
            false, true, []⟩,
          [⟨.mk PropertyIds.Node [(PropertyIds.ID, var.string "root".toList)] [], false, false,
            true, []⟩,
           ⟨.mk PropertyIds.Node [(PropertyIds.ID, var.string "osc".toList)] [], false, false,
            false, []⟩,
           ⟨.mk PropertyIds.Node [(PropertyIds.ID, var.string "gain".toList)] [], false, false,
            false, []⟩]⟩
        "ghost".toList).isObject = false ∧
    (NodeBase.setParent
        ⟨"net".toList,
          some ⟨.mk PropertyIds.Node [(PropertyIds.ID, var.string "root".toList)] [], false,
            false, true, []⟩,
          [⟨.mk PropertyIds.Node [(PropertyIds.ID, var.string "root".toList)] [], false, false,
            true, []⟩,
           ⟨.mk PropertyIds.Node [(PropertyIds.ID, var.string "osc".toList)] [], false, false,
            false, []⟩,
           ⟨.mk PropertyIds.Node [(PropertyIds.ID, var.string "gain".toList)] [], false, false,
            false, []⟩]⟩
        (some (.mk PropertyIds.Nodes []
          [.mk PropertyIds.Node [(PropertyIds.ID, var.string "osc".toList)] [],
           .mk PropertyIds.Node [(PropertyIds.ID, var.string "gain".toList)] []], 1))
        (ParentVar.value (var.string "ghost".toList)) "Object".toList 0).error
      = some "parent node ghost not found.".toList ∧
    (NodeBase.setParent
        ⟨"net".toList,
          some ⟨.mk PropertyIds.Node [(PropertyIds.ID, var.string "root".toList)] [], false,
            false, true, []⟩,
          [⟨.mk PropertyIds.Node [(PropertyIds.ID, var.string "root".toList)] [], false, false,
            true, []⟩,
           ⟨.mk PropertyIds.Node [(PropertyIds.ID, var.string "osc".toList)] [], false, false,
            false, []⟩,
           ⟨.mk PropertyIds.Node [(PropertyIds.ID, var.string "gain".toList)] [], false, false,
            false, []⟩]⟩
        (some (.mk PropertyIds.Nodes []
          [.mk PropertyIds.Node [(PropertyIds.ID, var.string "osc".toList)] [],
           .mk PropertyIds.Node [(PropertyIds.ID, var.string "gain".toList)] []], 1))
        (ParentVar.value (var.string "ghost".toList)) "Object".toList 0).previousParent
      = some (.mk PropertyIds.Nodes []
          [.mk PropertyIds.Node [(PropertyIds.ID, var.string "osc".toList)] []]) := by
  refine ⟨by decide, by decide, rfl⟩

end scriptnode

namespace snex

theorem dyn.subscriptWrapped_eq {T : Type} (mem : Memory T) (s : Container) (k : Int) :
    (dyn.fromContainer s).subscriptWrapped mem ⟨k⟩ = s.elem mem k := rfl

/-- C22 refuted as stated: `d` refers to the span `{1, 2, 3, 4, 5, 6}` of the test, followed in
memory by a cell that holds `0`; for the index value `6` the read `d[index]` is not wrapped to
element `6 mod 6 = 0` of the span, which is `1`: it returns the cell behind the span. -/
theorem dyn_wrapped_index_does_not_wrap :
    (dyn.fromContainer ⟨0, 6⟩).subscriptWrapped (dyn_wrap_2.memory (fun _ => 0)) ⟨6⟩ = 0 ∧
    Container.elem (dyn_wrap_2.memory (fun _ => 0)) ⟨0, 6⟩ (6 % 6) = 1 := by
  constructor
  · simp [dyn.subscriptWrapped, dyn.read, dyn.fromContainer, dyn_indexes.wrapped,
      dyn_indexes.unchecked, dyn_wrap_2.memory]
  · simp [Container.elem, dyn_wrap_2.memory]

/-- C22 amended: for every `dyn<float>` referring to data `s` and every `dyn<float>::wrapped`
index with the integer value `k`, `d[index]` reads the cell `k` elements after the start of `s`,
without wrapping: that is `s[k]` for `k` inside the view and a cell outside `s` otherwise (the
index type is an alias of the unchecked one).  `moved(delta)` adds `delta` to the value of the
index, and in the test, over `{1, 2, 3, 4, 5, 6}`, the index `0` and the index moved by `1` read
`1` and `2`, whose sum is `3`. -/
theorem dyn_wrapped_index_reads_unchecked (mem : Memory ℚ) (s : Container) (k delta : Int)
    (i : index_base) (rest : Memory ℚ) :
    (dyn.fromContainer s).subscriptWrapped mem ⟨k⟩ = mem (s.begin + k) ∧
    (dyn.fromContainer s).subscriptWrapped mem ⟨k⟩ = s.elem mem k ∧
    dyn_indexes.wrapped k = k ∧
    (i.moved delta).value = i.value + delta ∧
    (dyn.fromContainer ⟨0, 6⟩).subscriptWrapped (dyn_wrap_2.memory rest) ⟨0⟩ = 1 ∧
    (dyn.fromContainer ⟨0, 6⟩).subscriptWrapped (dyn_wrap_2.memory rest)
      ((⟨0⟩ : index_base).moved 1) = 2 ∧
    dyn_wrap_2.main (dyn_wrap_2.memory rest) ⟨0, 6⟩ ⟨0⟩ = 3 := by
  refine ⟨rfl, rfl, rfl, rfl, ?_, ?_, ?_⟩
  · simp [dyn.subscriptWrapped, dyn.read, dyn.fromContainer, dyn_indexes.wrapped,
      dyn_indexes.unchecked, dyn_wrap_2.memory]
  · simp [dyn.subscriptWrapped, dyn.read, dyn.fromContainer, dyn_indexes.wrapped,
      dyn_indexes.unchecked, dyn_wrap_2.memory, index_base.moved]
    norm_num
  · simp [dyn_wrap_2.main, dyn.subscriptWrapped, dyn.read, dyn.fromContainer,
      dyn_indexes.wrapped, dyn_indexes.unchecked, dyn_wrap_2.memory, index_base.moved]
    norm_num

theorem index_base.preInc_wrapped_range (N : Nat) (hN : 0 < N) (i : index_base) :
    0 ≤ (index_base.preInc (span.wrapped N) i).1 ∧
      (index_base.preInc (span.wrapped N) i).1 < (N : Int) :=
  span.wrapped_range N hN _

theorem index_base.preDec_wrapped_range (N : Nat) (hN : 0 < N) (i : index_base) :
    0 ≤ (index_base.preDec (span.wrapped N) i).1 ∧
      (index_base.preDec (span.wrapped N) i).1 < (N : Int) :=
  span.wrapped_range N hN _

/-- C26 at a `span<float, 4>::wrapped` index: the post-increment and the post-decrement return
the stored value itself, whatever the conversion of the index type is.  Starting from `3`, the
second `idx++` returns `4`, and starting from `0`, the second `idx--` returns `-1`; neither lies
in `[0, 4)` and `data[4]` is outside the span, while the pre-increment from `3` returns the
wrapped value `0`. -/
theorem wrapped_post_increment_unwrapped :
    (∀ (toInt : Int → Int) (i : index_base),
      (index_base.postInc toInt i).1 = i.value ∧ (index_base.postDec toInt i).1 = i.value) ∧
    (index_base.postRun (span.wrapped 4) ⟨3⟩ [true, true]).1 = [3, 4] ∧
    (index_base.postRun (span.wrapped 4) ⟨0⟩ [false, false]).1 = [0, -1] ∧
    (index_base.preInc (span.wrapped 4) ⟨3⟩).1 = 0 ∧
    (span.subscript (⟨fun i => i.val⟩ : span Nat 4) 4).isNone = true := by
  refine ⟨fun _ _ => ⟨rfl, rfl⟩, by decide, by decide, by decide, by decide⟩

/-- C27 for every container `t` and offset `k`: `referTo(t, -1, k)` gives the view the size of
the whole container and the start `t.begin() + k`, so `k + view.size()` is `k + n`.  For the
container of 4 elements at address 10 and the offset 1, the view has 4 elements, `1 + 4 <= 4`
fails, and index 3 of the view addresses the cell behind the last element of the container. -/
theorem dyn_referTo_offset_overrun :
    (∀ (d : dyn) (t : Container) (k : Int),
      (d.referTo t (-1) k).size_ = t.size ∧ (d.referTo t (-1) k).data = t.begin + k) ∧
    (dyn.referTo ⟨0, 0⟩ ⟨10, 4⟩ (-1) 1).size_ = 4 ∧
    ¬ (1 + (dyn.referTo ⟨0, 0⟩ ⟨10, 4⟩ (-1) 1).size_ ≤ 4) ∧
    (dyn.referTo ⟨0, 0⟩ ⟨10, 4⟩ (-1) 1).data + 3 = 10 + 4 := by
  refine ⟨fun d t k => ⟨?_, rfl⟩, by decide, by decide, by decide⟩
  simp [dyn.referTo, dyn.referToRawData]

end snex

namespace scriptnode

open juce hise

theorem PolyData.construct_eq {T : Type} {N : Nat} (hN : 0 < N) (u : Fin N → T) (x : T) :
    PolyData.construct u x
      = some { data := Function.update u ⟨0, hN⟩ x, voicePtr := none } := by
  have hb : (0 : Int) ≤ 0 ∧ (0 : Int) < (N : Int) := by omega
  simp only [PolyData.construct, PolyData.setAll, PolyData.isShared, Option.isNone_none,
    Bool.or_true, if_true, PolyData.writeAt, dif_pos hb]
  rfl

/-- C25 at a `PolyData<int, 4>` whose array holds `0` in every slot before the constructor runs:
constructed with the initial value `5` and then prepared with a bound voice-index pointer, `get()`
returns `5` for the voice index `0` but `0`, not `5`, for the voice indexes `1`, `2` and `3`:
the constructor runs `setAll` while `voicePtr` is still null and writes slot `0` only. -/
theorem polyData_constructor_first_slot_only :
    (PolyData.construct (fun _ : Fin 4 => (0 : Int)) 5).map
        (fun pd => (List.range 4).map
          (fun (v : Nat) => (pd.prepare ⟨some 0⟩).get (fun _ => (v : Int))))
      = some [some 5, some 0, some 0, some 0] := by
  decide

/-- C29 at the property string `1024`: `updateBlockSize` keeps the block size `1024`, a power of
two above 7, and prepares the parent, but the `switch` of `process` has no case for it, so
`process` calls nothing; the string `512` is kept and dispatched, and the string `100` falls
back to `64`. -/
theorem fixedBlockX_accepts_undispatched_size :
    FixedBlockXNode.DynamicBlockProperty.updateBlockSize ⟨64⟩ (var.string "1024".toList)
      = (⟨1024⟩, true) ∧
    FixedBlockXNode.DynamicBlockProperty.process ⟨1024⟩ = none ∧
    FixedBlockXNode.DynamicBlockProperty.updateBlockSize ⟨64⟩ (var.string "512".toList)
      = (⟨512⟩, true) ∧
    FixedBlockXNode.DynamicBlockProperty.process ⟨512⟩ = some 512 ∧
    FixedBlockXNode.DynamicBlockProperty.updateBlockSize ⟨512⟩ (var.string "100".toList)
      = (⟨64⟩, false) := by
  decide

namespace ConnectionBase

/-- C30 at a network whose registry holds the node `gain` without parameters and a connection
tree with the single connection `gain.Nope`: the target node exists, the parameter does not, so
`p` stays null.  With `scaleInput` true the condition `p->getRange() == inputRange` dereferences
the null pointer (`none`); with `scaleInput` false the null pointer is returned.  With a second
connection in the tree the null pointer is added to the chain as its first sub-target. -/
theorem createParameter_missing_parameter_null_deref :
    createParameterFromConnectionTree
        ⟨"net".toList, none,
          [⟨.mk PropertyIds.Node [(PropertyIds.ID, var.string "gain".toList)] [], true, false,
            false, []⟩]⟩
        (⟨fun _ => 7, fun _ => 0, fun _ => 0⟩ : RangeHelpers Nat Nat)
        (.mk PropertyIds.Connections []
          [.mk PropertyIds.Connection
            [(PropertyIds.NodeId, var.string "gain".toList),
             (PropertyIds.ParameterId, var.string "Nope".toList)] []])
        (.mk PropertyIds.Parameter [] []) true []
      = none ∧
    createParameterFromConnectionTree
        ⟨"net".toList, none,
          [⟨.mk PropertyIds.Node [(PropertyIds.ID, var.string "gain".toList)] [], true, false,
            false, []⟩]⟩
        (⟨fun _ => 7, fun _ => 0, fun _ => 0⟩ : RangeHelpers Nat Nat)
        (.mk PropertyIds.Connections []
          [.mk PropertyIds.Connection
            [(PropertyIds.NodeId, var.string "gain".toList),
             (PropertyIds.ParameterId, var.string "Nope".toList)] []])
        (.mk PropertyIds.Parameter [] []) false []
      = some (ConnectionResult.null, []) ∧
    createParameterFromConnectionTree
        ⟨"net".toList, none,
          [⟨.mk PropertyIds.Node [(PropertyIds.ID, var.string "gain".toList)] [], true, false,
            false, []⟩]⟩
        (⟨fun _ => 7, fun _ => 0, fun _ => 0⟩ : RangeHelpers Nat Nat)
        (.mk PropertyIds.Connections []
          [.mk PropertyIds.Connection
            [(PropertyIds.NodeId, var.string "gain".toList),
             (PropertyIds.ParameterId, var.string "Nope".toList)] [],
           .mk PropertyIds.Connection
            [(PropertyIds.NodeId, var.string "gain".toList),
             (PropertyIds.ParameterId, var.string "Bypassed".toList)] []])
        (.mk PropertyIds.Parameter [] []) true []
      = some (ConnectionResult.chain true (.mk PropertyIds.Parameter [] [])
          [none,
           some (ConnectionTarget.dynamicBypassParameter
            ⟨.mk PropertyIds.Node [(PropertyIds.ID, var.string "gain".toList)] [], true, false,
              false, []⟩ 7)], []) := by
  refine ⟨rfl, rfl, rfl⟩

end ConnectionBase

end scriptnode

namespace snex

theorem span.foldlM_store {T : Type} {N : Nat} (x : T) (n : Nat) (hn : n ≤ N) (s : span T N) :
    (List.range n).foldlM (fun acc (i : Nat) => span.store acc (i : Int) x) s
      = some ⟨fun j => if j.val < n then x else s.data j⟩ := by
  induction n with
  | zero => simp
  | succ n ih =>
    rw [List.range_succ, List.foldlM_append, ih (by omega)]
    have hb : (0 : Int) ≤ (n : Int) ∧ (n : Int) < (N : Int) := by omega
    simp only [List.foldlM_cons, List.foldlM_nil, span.store, dif_pos hb, Option.some_bind,
      Option.bind_some, bind, pure]
    congr 2
    funext j
    by_cases hj : j.val = n
    · have : j = ⟨(n : Int).toNat, by omega⟩ := Fin.ext (by simp [hj])
      rw [this, Function.update_same]
      simp
    · have hne : j ≠ ⟨(n : Int).toNat, by omega⟩ := fun h => hj (by rw [h]; simp)
      rw [Function.update_noteq hne]
      by_cases hlt : j.val < n
      · simp [hlt, Nat.lt_succ_of_lt hlt]
      · have : ¬ j.val < n + 1 := by omega
        simp [hlt, this]

theorem span.fromInitializerList_single {T : Type} {N : Nat} (s : span T N) (x : T) :
    span.fromInitializerList s [x] = some ⟨fun _ => x⟩ := by
  simp only [span.fromInitializerList]
  rw [span.foldlM_store x N (le_refl N) s]
  congr 2
  funext j
  simp [j.isLt]

theorem span.foldlM_subscript {T σ : Type} {N : Nat} (s : span T N) (f : σ → T → σ)
    (l : List (Fin N)) (init : σ) :
    (l.map Fin.val).foldlM (fun acc (i : Nat) => (s.subscript (i : Int)).map (f acc)) init
      = some ((l.map s.data).foldl f init) := by
  induction l generalizing init with
  | nil => rfl
  | cons a l ih =>
    have hb : (0 : Int) ≤ (a.val : Int) ∧ (a.val : Int) < (N : Int) := by
      have := a.isLt
      omega
    have ha : s.subscript (a.val : Int) = some (s.data a) := by
      unfold span.subscript
      rw [dif_pos hb]
      congr 2
    simp only [List.map_cons, List.foldlM_cons, ha, Option.map_some', Option.some_bind,
      Option.bind_some, bind, List.foldl_cons]
    exact ih _

theorem span.forEach_eq {T σ : Type} {N : Nat} (s : span T N) (f : σ → T → σ) (init : σ) :
    s.forEach f init = some ((List.ofFn s.data).foldl f init) := by
  unfold span.forEach span.beginOffset span.endOffset
  rw [Nat.sub_zero, ← List.range_eq_range', ← List.map_coe_finRange, List.ofFn_eq_map]
  exact span.foldlM_subscript s f _ init

theorem foldl_add_replicate (n : Nat) (x z : ℚ) :
    (List.replicate n x).foldl (fun z s => z + s) z = z + n * x := by
  induction n generalizing z with
  | zero => simp
  | succ n ih =>
    rw [List.replicate_succ, List.foldl_cons, ih]
    push_cast
    ring

/-- C23. A `span<T, N>` constructed from the single-element initializer list `{x}` has all `N`
elements equal to `x`, whatever the array held before; the range-based loop over a span reads
exactly the elements `data[0], ..., data[N-1]`, once each and in index order; and `main` of the
test `variadic/process_test`, which sums every sample of the two 16-element channels `{4.0f}`
and `{3.0f}`, returns `16*4 + 16*3 = 112`. -/
theorem span_initializer_list_fill {T : Type} (N : Nat) (s : span T N) (x : T) :
    span.fromInitializerList s [x] = some ⟨fun _ => x⟩ ∧
    (∀ (σ : Type) (f : σ → T → σ) (init : σ),
      s.forEach f init = some ((List.ofFn s.data).foldl f init)) ∧
    (List.ofFn s.data).length = N ∧
    (∀ (i : Nat) (h : i < N), (List.ofFn s.data)[i]? = some (s.data ⟨i, h⟩)) ∧
    (∀ u : span ℚ 16, process_test.main u = some 112) := by
  refine ⟨span.fromInitializerList_single s x, fun σ f init => span.forEach_eq s f init,
    List.length_ofFn _, fun i h => ?_, fun u => ?_⟩
  · rw [List.getElem?_ofFn, List.ofFnNthVal, dif_pos h]
  · unfold process_test.main
    rw [span.fromInitializerList_single, span.fromInitializerList_single]
    simp only [Option.some_bind, Option.bind_some, List.foldlM_cons, List.foldlM_nil,
      span.forEach_eq, bind, pure, Option.map_some', List.ofFn_const, foldl_add_replicate]
    have h112 : ((0 : ℚ) + ((16 : Nat) : ℚ) * 4 + ((16 : Nat) : ℚ) * 3) = 112 := by norm_num
    rw [h112]
    rfl

namespace ExternalDataHolder

theorem listHolder_remove_other {Obj : Type} (s : ExternalData.DataType → List Obj)
    (t t1 : ExternalData.DataType) (i : Int) (h : t1 ≠ t) :
    ((listHolder Obj).removeDataObject s t i).2 t1 = s t1 := by
  simp only [listHolder]
  split
  · simp [Function.update_noteq h]
  · rfl

theorem listHolder_remove_length {Obj : Type} (s : ExternalData.DataType → List Obj)
    (t : ExternalData.DataType) (i : Nat) :
    (((listHolder Obj).removeDataObject s t (i : Int)).2 t).length
      = if i < (s t).length then (s t).length - 1 else (s t).length := by
  simp only [listHolder]
  by_cases h : i < (s t).length
  · have hc : (0 : Int) ≤ (i : Int) ∧ (i : Int) < ((s t).length : Int) := by omega
    rw [if_pos hc, if_pos h]
    simp only [Function.update_same, Int.toNat_ofNat]
    rw [List.length_eraseIdx, if_pos h]
  · have hc : ¬ ((0 : Int) ≤ (i : Int) ∧ (i : Int) < ((s t).length : Int)) := by omega
    rw [if_neg hc, if_neg h]

theorem listHolder_loop {Obj : Type} (t : ExternalData.DataType) (n m : Nat) (hm : m ≤ n)
    (s : ExternalData.DataType → List Obj) (hn : (s t).length = n) :
    (∀ t1, t1 ≠ t →
      ((List.range m).foldl
        (fun s (i : Nat) => ((listHolder Obj).removeDataObject s t (i : Int)).2) s) t1 = s t1) ∧
    (((List.range m).foldl
        (fun s (i : Nat) => ((listHolder Obj).removeDataObject s t (i : Int)).2) s) t).length
      = max (n - m) (n / 2) := by
  induction m with
  | zero =>
    refine ⟨fun _ _ => rfl, ?_⟩
    simp only [List.range_zero, List.foldl_nil, hn]
    omega
  | succ m ih =>
    obtain ⟨ih1, ih2⟩ := ih (by omega)
    rw [List.range_succ, List.foldl_append]
    simp only [List.foldl_cons, List.foldl_nil]
    refine ⟨fun t1 h1 => ?_, ?_⟩
    · rw [listHolder_remove_other _ _ _ _ h1]
      exact ih1 t1 h1
    · rw [listHolder_remove_length, ih2]
      split <;> omega

theorem clearType {Obj : Type} (t : ExternalData.DataType)
    (s : ExternalData.DataType → List Obj) :
    (∀ t1, t1 ≠ t →
      ((List.range ((listHolder Obj).getNumDataObjects s t).toNat).foldl
        (fun s (i : Nat) => ((listHolder Obj).removeDataObject s t (i : Int)).2) s) t1 = s t1) ∧
    (((List.range ((listHolder Obj).getNumDataObjects s t).toNat).foldl
        (fun s (i : Nat) => ((listHolder Obj).removeDataObject s t (i : Int)).2) s) t).length
      = (s t).length / 2 := by
  have hnum : ((listHolder Obj).getNumDataObjects s t).toNat = (s t).length := by
    simp [listHolder]
  rw [hnum]
  obtain ⟨h1, h2⟩ := listHolder_loop t (s t).length (s t).length (le_refl _) s rfl
  refine ⟨h1, ?_⟩
  rw [h2]
  omega

/-- C24 for the holder that keeps a list of objects for every data type and removes the object
at the index it is given, the later objects moving down by one: after `clearAllDataObjects` the
holder still has half of the objects of every type (`n / 2` of `n`, rounded down), because the
loop removes at the indexes `0, 1, 2, ...` of a list that shrinks under it.  With two tables
held before the call, `getNumDataObjects(Table)` is `1` afterwards, not `0`. -/
theorem clearAllDataObjects_leaves_half {Obj : Type} (s : ExternalData.DataType → List Obj)
    (t : ExternalData.DataType) (a b : Obj) :
    (listHolder Obj).getNumDataObjects ((listHolder Obj).clearAllDataObjects s) t
      = (((s t).length / 2 : Nat) : Int) ∧
    (listHolder Obj).getNumDataObjects
      ((listHolder Obj).clearAllDataObjects (fun _ => [a, b])) ExternalData.DataType.Table = 1 := by
  have key : ∀ (s : ExternalData.DataType → List Obj) (t : ExternalData.DataType),
      (listHolder Obj).getNumDataObjects ((listHolder Obj).clearAllDataObjects s) t
        = (((s t).length / 2 : Nat) : Int) := by
    intro s t
    have hg : ∀ (s : ExternalData.DataType → List Obj) (t : ExternalData.DataType),
        (listHolder Obj).getNumDataObjects s t = ((s t).length : Int) := fun _ _ => rfl
    rw [hg]
    congr 1
    unfold clearAllDataObjects ExternalData.forEachType
    simp only [List.foldl_cons, List.foldl_nil]
    cases t
    · rw [(clearType _ _).1 _ (by decide), (clearType _ _).1 _ (by decide),
        (clearType _ _).1 _ (by decide), (clearType _ _).1 _ (by decide), (clearType _ _).2]
    · rw [(clearType _ _).1 _ (by decide), (clearType _ _).1 _ (by decide),
        (clearType _ _).1 _ (by decide), (clearType _ _).2, (clearType _ _).1 _ (by decide)]
    · rw [(clearType _ _).1 _ (by decide), (clearType _ _).1 _ (by decide),
        (clearType _ _).2, (clearType _ _).1 _ (by decide), (clearType _ _).1 _ (by decide)]
    · rw [(clearType _ _).1 _ (by decide), (clearType _ _).2,
        (clearType _ _).1 _ (by decide), (clearType _ _).1 _ (by decide),
        (clearType _ _).1 _ (by decide)]
    · rw [(clearType _ _).2, (clearType _ _).1 _ (by decide),
        (clearType _ _).1 _ (by decide), (clearType _ _).1 _ (by decide),
        (clearType _ _).1 _ (by decide)]
  refine ⟨key s t, ?_⟩
  rw [key (fun _ => [a, b]) ExternalData.DataType.Table]
  norm_num

end ExternalDataHolder

end snex

namespace snex

namespace Interleaver

theorem emod_ediv_of_row (C q t : Int) (h1 : q * C ≤ t) (h2 : t < q * C + C) :
    t % C = t - q * C ∧ t / C = q := by
  have hC : 0 < C := by omega
  have ht : t = (t - q * C) + q * C := by ring
  have hr : 0 ≤ t - q * C ∧ t - q * C < C := by omega
  constructor
  · rw [ht, Int.add_mul_emod_self, Int.emod_eq_of_lt hr.1 hr.2]
    ring
  · rw [ht, Int.add_mul_ediv_right _ _ (ne_of_gt hC), Int.ediv_eq_zero_of_lt hr.1 hr.2]
    ring

theorem inner_loop {T : Type} (mem : Memory T) (src numFrames numChannels : Int) (i : Nat)
    (k : Nat) (dst0 : Int → T) (t : Int) :
    (List.range k).foldl
        (fun dst (j : Nat) =>
          Function.update dst ((i : Int) * numChannels + (j : Int))
            (mem (src + ((j : Int) * numFrames + (i : Int)))))
        dst0 t
      = if (i : Int) * numChannels ≤ t ∧ t < (i : Int) * numChannels + (k : Int) then
          mem (src + ((t - (i : Int) * numChannels) * numFrames + (i : Int)))
        else dst0 t := by
  induction k with
  | zero =>
    have : ¬ ((i : Int) * numChannels ≤ t ∧ t < (i : Int) * numChannels + ((0 : Nat) : Int)) := by
      omega
    simp only [List.range_zero, List.foldl_nil, if_neg this]
  | succ k ih =>
    rw [List.range_succ, List.foldl_append]
    simp only [List.foldl_cons, List.foldl_nil]
    by_cases ht : t = (i : Int) * numChannels + (k : Int)
    · subst ht
      rw [Function.update_same]
      have hc : (i : Int) * numChannels ≤ (i : Int) * numChannels + (k : Int) ∧
          (i : Int) * numChannels + (k : Int)
            < (i : Int) * numChannels + ((k + 1 : Nat) : Int) := by
        push_cast
        omega
      rw [if_pos hc]
      congr 2
      ring
    · rw [Function.update_noteq ht, ih]
      by_cases hc : (i : Int) * numChannels ≤ t ∧ t < (i : Int) * numChannels + (k : Int)
      · have hc1 : (i : Int) * numChannels ≤ t ∧
            t < (i : Int) * numChannels + ((k + 1 : Nat) : Int) := by
          push_cast
          omega
        rw [if_pos hc, if_pos hc1]
      · have hc1 : ¬ ((i : Int) * numChannels ≤ t ∧
            t < (i : Int) * numChannels + ((k + 1 : Nat) : Int)) := by
          push_cast
          omega
        rw [if_neg hc, if_neg hc1]

theorem outer_loop {T : Type} (mem : Memory T) (uninit : Int → T) (src : Int) (F C : Nat)
    (m : Nat) (t : Int) :
    (List.range m).foldl
        (fun dst (i : Nat) =>
          (List.range C).foldl
            (fun dst (j : Nat) =>
              Function.update dst ((i : Int) * (C : Int) + (j : Int))
                (mem (src + ((j : Int) * (F : Int) + (i : Int)))))
            dst)
        uninit t
      = if 0 ≤ t ∧ t < (m : Int) * (C : Int) then
          mem (src + (t % (C : Int) * (F : Int) + t / (C : Int)))
        else uninit t := by
  induction m with
  | zero =>
    have : ¬ (0 ≤ t ∧ t < ((0 : Nat) : Int) * (C : Int)) := by
      push_cast
      omega
    simp only [List.range_zero, List.foldl_nil, if_neg this]
  | succ m ih =>
    rw [List.range_succ, List.foldl_append]
    simp only [List.foldl_cons, List.foldl_nil]
    rw [inner_loop mem src (F : Int) (C : Int) m C _ t, ih]
    have hmC : (0 : Int) ≤ (m : Int) * (C : Int) :=
      mul_nonneg (Int.ofNat_nonneg m) (Int.ofNat_nonneg C)
    have hsucc : ((m + 1 : Nat) : Int) * (C : Int) = (m : Int) * (C : Int) + (C : Int) := by
      push_cast
      ring
    by_cases hrow : (m : Int) * (C : Int) ≤ t ∧ t < (m : Int) * (C : Int) + (C : Int)
    · obtain ⟨hmod, hdiv⟩ := emod_ediv_of_row (C : Int) (m : Int) t hrow.1 hrow.2
      have hc : 0 ≤ t ∧ t < ((m + 1 : Nat) : Int) * (C : Int) := by
        rw [hsucc]
        omega
      rw [if_pos hrow, if_pos hc, hmod, hdiv]
    · rw [if_neg hrow]
      by_cases hc : 0 ≤ t ∧ t < (m : Int) * (C : Int)
      · have hc1 : 0 ≤ t ∧ t < ((m + 1 : Nat) : Int) * (C : Int) := by
          rw [hsucc]
          have := Int.ofNat_nonneg C
          omega
        rw [if_pos hc, if_pos hc1]
      · have hc1 : ¬ (0 ≤ t ∧ t < ((m + 1 : Nat) : Int) * (C : Int)) := by
          rw [hsucc]
          omega
        rw [if_neg hc, if_neg hc1]

theorem interleave_apply {T : Type} (mem : Memory T) (uninit : Int → T) (src : Int) (F C : Nat)
    (a : Int) :
    interleave mem uninit src (F : Int) (C : Int) a
      = if src ≤ a ∧ a < src + (F : Int) * (C : Int) then
          mem (src + ((a - src) % (C : Int) * (F : Int) + (a - src) / (C : Int)))
        else mem a := by
  unfold interleave
  simp only [Int.toNat_ofNat]
  rw [mul_comm (C : Int) (F : Int)]
  by_cases h : src ≤ a ∧ a < src + (F : Int) * (C : Int)
  · rw [if_pos h, if_pos h, outer_loop mem uninit src F C F (a - src)]
    have hc : 0 ≤ a - src ∧ a - src < (F : Int) * (C : Int) := by omega
    rw [if_pos hc]
  · rw [if_neg h, if_neg h]

theorem transposeIndex_lt (F C n : Nat) (h : n < F * C) : transposeIndex F C n < F * C := by
  unfold transposeIndex
  have hC : 0 < C := by
    rcases Nat.eq_zero_or_pos C with h0 | h0
    · subst h0
      simp at h
    · exact h0
  have h1 : n % C < C := Nat.mod_lt _ hC
  have h2 : n / C < F := Nat.div_lt_of_lt_mul (by rw [Nat.mul_comm]; exact h)
  calc n % C * F + n / C < n % C * F + F := by omega
    _ = (n % C + 1) * F := by ring
    _ ≤ C * F := Nat.mul_le_mul_right F h1
    _ = F * C := Nat.mul_comm C F

theorem transposeIndex_inverse (F C n : Nat) (h : n < F * C) :
    transposeIndex C F (transposeIndex F C n) = n := by
  unfold transposeIndex
  have hC : 0 < C := by
    rcases Nat.eq_zero_or_pos C with h0 | h0
    · subst h0
      simp at h
    · exact h0
  have hF : 0 < F := by
    rcases Nat.eq_zero_or_pos F with h0 | h0
    · subst h0
      simp at h
    · exact h0
  have h2 : n / C < F := Nat.div_lt_of_lt_mul (by rw [Nat.mul_comm]; exact h)
  have hmod : (n % C * F + n / C) % F = n / C := by
    rw [Nat.add_comm, Nat.add_mul_mod_self_right, Nat.mod_eq_of_lt h2]
  have hdiv : (n % C * F + n / C) / F = n % C := by
    rw [Nat.add_comm, Nat.add_mul_div_right _ _ hF, Nat.div_eq_of_lt h2, Nat.zero_add]
  rw [hmod, hdiv]
  exact Nat.div_add_mod' n C

theorem interleave_apply_nat {T : Type} (mem : Memory T) (uninit : Int → T) (src : Int)
    (F C : Nat) (n : Nat) (h : n < F * C) :
    interleave mem uninit src (F : Int) (C : Int) (src + (n : Int))
      = mem (src + (transposeIndex F C n : Nat)) := by
  rw [interleave_apply]
  have hlt : (n : Int) < (F : Int) * (C : Int) := by exact_mod_cast h
  have hc : src ≤ src + (n : Int) ∧ src + (n : Int) < src + (F : Int) * (C : Int) := by omega
  rw [if_pos hc]
  congr 2
  unfold transposeIndex
  push_cast
  rw [add_sub_cancel_left]

/-- The transposition of the flat indexes of a buffer of `F * C` samples as a permutation. -/
theorem transposePerm_exists (F C : Nat) :
    ∃ σ : Equiv.Perm (Fin (F * C)), ∀ t : Fin (F * C), (σ t).val = transposeIndex F C t.val := by
  refine ⟨{ toFun := fun t => ⟨transposeIndex F C t.val, transposeIndex_lt F C t.val t.isLt⟩,
            invFun := fun t => ⟨transposeIndex C F t.val,
              lt_of_lt_of_eq
                (transposeIndex_lt C F t.val (lt_of_lt_of_eq t.isLt (Nat.mul_comm F C)))
                (Nat.mul_comm C F)⟩,
            left_inv := fun t => Fin.ext (transposeIndex_inverse F C t.val t.isLt),
            right_inv := fun t => Fin.ext
              (transposeIndex_inverse C F t.val (lt_of_lt_of_eq t.isLt (Nat.mul_comm F C))) },
    fun _ => rfl⟩

/-- C28. `Interleaver::interleave(src, F, C)` on a buffer of `F * C` samples at `src`: afterwards
element `i * C + j` holds the former element `j * F + i` for all `i < F` and `j < C`, every cell
outside the buffer is unchanged, the new content is the old content under a permutation of the
`F * C` indexes, and `interleave(src, C, F)` applied to the result restores the memory as it was
before, whatever the scratch buffers held and for every `F` and `C`.  The call with exchanged
arguments is the one that the overload for `dyn<span<T, NumChannels>>` makes. -/
theorem interleave_transposes {T : Type} (mem : Memory T) (uninit uninit1 : Int → T) (src : Int)
    (F C : Nat) :
    (∀ i j : Nat, i < F → j < C →
      interleave mem uninit src (F : Int) (C : Int) (src + ((i : Int) * (C : Int) + (j : Int)))
        = mem (src + ((j : Int) * (F : Int) + (i : Int)))) ∧
    (∀ a : Int, ¬ (src ≤ a ∧ a < src + (F : Int) * (C : Int)) →
      interleave mem uninit src (F : Int) (C : Int) a = mem a) ∧
    (∃ σ : Equiv.Perm (Fin (F * C)), ∀ t : Fin (F * C),
      interleave mem uninit src (F : Int) (C : Int) (src + (t.val : Int))
        = mem (src + ((σ t).val : Int))) ∧
    interleave (interleave mem uninit src (F : Int) (C : Int)) uninit1 src (C : Int) (F : Int)
      = mem ∧
    interleaveFrames (interleaveRaw mem uninit src (F : Int) (C : Int)) uninit1
      { size_ := (F : Int), data := src } C = mem := by
  have hround : interleave (interleave mem uninit src (F : Int) (C : Int)) uninit1 src
      (C : Int) (F : Int) = mem := by
    funext a
    by_cases h : src ≤ a ∧ a < src + (F : Int) * (C : Int)
    · have hn : a = src + (((a - src).toNat : Nat) : Int) := by
        rw [Int.toNat_of_nonneg (by omega)]
        ring
      have hlt : (a - src).toNat < C * F := by
        have h1 : (((a - src).toNat : Nat) : Int) < ((C * F : Nat) : Int) := by
          rw [Int.toNat_of_nonneg (by omega)]
          push_cast
          rw [mul_comm]
          omega
        exact_mod_cast h1
      rw [hn, interleave_apply_nat _ uninit1 src C F _ hlt,
        interleave_apply_nat mem uninit src F C _
          (by rw [Nat.mul_comm]; exact transposeIndex_lt C F _ hlt),
        transposeIndex_inverse C F _ hlt]
    · rw [interleave_apply]
      have h1 : ¬ (src ≤ a ∧ a < src + (C : Int) * (F : Int)) := by
        rw [mul_comm]
        exact h
      rw [if_neg h1, interleave_apply, if_neg h]
  refine ⟨fun i j hi hj => ?_, fun a ha => ?_, ?_, hround, hround⟩
  · have hlt : i * C + j < F * C := by
      calc i * C + j < i * C + C := by omega
        _ = (i + 1) * C := by ring
        _ ≤ F * C := Nat.mul_le_mul_right C hi
    have h := interleave_apply_nat mem uninit src F C (i * C + j) hlt
    have ht : transposeIndex F C (i * C + j) = j * F + i := by
      unfold transposeIndex
      have hC : 0 < C := by omega
      rw [Nat.add_comm (i * C) j, Nat.add_mul_mod_self_right, Nat.mod_eq_of_lt hj,
        Nat.add_mul_div_right _ _ hC, Nat.div_eq_of_lt hj, Nat.zero_add]
    rw [ht] at h
    push_cast at h
    exact h
  · rw [interleave_apply, if_neg ha]
  · obtain ⟨σ, hσ⟩ := transposePerm_exists F C
    refine ⟨σ, fun t => ?_⟩
    rw [interleave_apply_nat mem uninit src F C t.val t.isLt, hσ t]

/-- Witness for C28: a buffer of 2 frames and 3 channels at address 10 of the memory in which
every cell holds its own address; after `interleave(src, 2, 3)` the element `1 * 3 + 2` holds the
former element `2 * 2 + 1`, the cell 15. -/
theorem interleave_transposes_witness :
    interleave (fun a => a) (fun _ => 0) 10 ((2 : Nat) : Int) ((3 : Nat) : Int)
        (10 + (((1 : Nat) : Int) * ((3 : Nat) : Int) + ((2 : Nat) : Int)))
      = 10 + (((2 : Nat) : Int) * ((2 : Nat) : Int) + ((1 : Nat) : Int)) :=
  (interleave_transposes (fun a => a) (fun _ => 0) (fun _ => 0) 10 2 3).1 1 2
    (by decide) (by decide)

end Interleaver

end snex
